import Mathlib

/-!
Posting and moderation engine: IP ranges, ban gate and DDoS guard.

A shallow embedding of the parts of `src/lib/tools.cpp` and
`src/lib/controller.cpp` that decide whether a request is let through:

* `Tools::ipNum`, `Tools::IpRange`, `Tools::IpBanInfo`, `Tools::ipBanLevel`,
  `Tools::userIp`;
* `Controller::testBanAjax` / `Controller::testBanNonAjax` / `Controller::testBan`;
* `Tools::ddosTest` with its four pieces of process-wide state;
* `Tools::toHashpass` / `Tools::toString`, the hashpass codec;
* `Tools::maxInfo`.

Conventions of the embedding:

* a `QString` is the list of its characters;
* `unsigned int` values are natural numbers, every arithmetic step reduced
  modulo `2 ^ 32`;
* a C++ function with a `bool *ok` out-parameter returns the pair
  `(value, ok)`;
* `double` weights are exact rationals;
* a `QByteArray` is the list of its bytes, each a number below 256;
* a `QElapsedTimer` is the clock reading (milliseconds) at which it was
  started, and each call receives the current clock reading `now`.
-/

namespace Ololord

/-! ## Strings -/

/-- A `QString`, as the list of its characters. -/
abbrev QString := List Char

/-- The `QString::split(sep)` of Qt with the default `KeepEmptyParts`: the
text is cut at every occurrence of `sep`; the result is never empty. -/
def split : QString → Char → List QString
  | [], _ => [[]]
  | c :: cs, sep =>
    if c = sep then [] :: split cs sep
    else
      match split cs sep with
      | [] => [[c]]
      | p :: ps => (c :: p) :: ps

/-- The `QChar::isSpace` of Qt: the ASCII control characters tab to carriage
return, and the Unicode separator characters. -/
def isSpace (c : Char) : Bool :=
  let n := c.toNat
  (9 ≤ n && n ≤ 13) || n = 0x20 || n = 0x85 || n = 0xA0 || n = 0x1680 ||
    (0x2000 ≤ n && n ≤ 0x200A) || n = 0x2028 || n = 0x2029 || n = 0x202F ||
    n = 0x205F || n = 0x3000

/-- An ASCII decimal digit. -/
def isDigit (c : Char) : Bool :=
  48 ≤ c.toNat && c.toNat ≤ 57

/-- The value of an ASCII decimal digit. -/
def digitValue (c : Char) : Nat :=
  c.toNat - 48

/-- The `QString::trimmed` of Qt: white space removed from both ends. -/
def trimmed (s : QString) : QString :=
  ((s.dropWhile isSpace).reverse.dropWhile isSpace).reverse

/-- The value of a run of decimal digits, most significant first, on top of
the accumulator; `none` as soon as a character is not a digit. -/
def parseDigits : QString → Nat → Option Nat
  | [], acc => some acc
  | c :: cs, acc =>
    if isDigit c then parseDigits cs (10 * acc + digitValue c) else none

/-- The text of a number once surrounding white space and an optional
leading plus sign are removed. -/
def unsignedBody (s : QString) : QString :=
  match trimmed s with
  | '+' :: r => r
  | t => t

/-- The `QString::toUInt(&ok)` of Qt in base 10 (C locale): surrounding white
space is ignored, a leading `+` is allowed, a minus sign is not, at least one
digit is required, and the value must fit in 32 bits. On failure the value
is 0. -/
def toUInt (s : QString) : Nat × Bool :=
  match unsignedBody s with
  | [] => (0, false)
  | c :: cs =>
    match parseDigits (c :: cs) 0 with
    | some v => if v < 2 ^ 32 then (v, true) else (0, false)
    | none => (0, false)

/-- The `QString::number(n)` of Qt for an unsigned number: its decimal
digits. -/
def number (n : Nat) : QString :=
  Nat.toDigits 10 n

/-! ## `Tools::ipNum` -/

/-- Addition of `unsigned int` values. -/
def uadd (a b : Nat) : Nat := (a + b) % 2 ^ 32

/-- Multiplication of `unsigned int` values. -/
def umul (a b : Nat) : Nat := (a * b) % 2 ^ 32

/-- The `Tools::ipNum(ip, &ok)` of `tools.cpp`: the pair of the returned
number and the `ok` flag. -/
def ipNum (ip : QString) : Nat × Bool :=
  let sl := split ip '.'
  if sl.length ≠ 4 then (0, false)
  else
    let r3 := toUInt (sl.getD 3 [])
    let n := r3.1
    if !r3.2 then (0, false)
    else
      let r2 := toUInt (sl.getD 2 [])
      let n := uadd n (umul 256 r2.1)
      if !r2.2 then (0, false)
      else
        let r1 := toUInt (sl.getD 1 [])
        let n := uadd n (umul (256 * 256) r1.1)
        if !r1.2 then (0, false)
        else
          let r0 := toUInt (sl.getD 0 [])
          let n := uadd n (umul (256 * 256 * 256) r0.1)
          if !r0.2 || n = 0 then (0, false)
          else (n, true)

/-! ## `Tools::IpRange` -/

/-- The `Tools::IpRange` of `tools.cpp`: the two bounds, `end_` standing for
the member `end`. -/
structure IpRange where
  start : Nat
  end_ : Nat
  deriving DecidableEq, Repr

/-- The `IpRange::isValid` of `tools.cpp`: `start && end`. -/
def IpRange.isValid (r : IpRange) : Bool :=
  r.start ≠ 0 && r.end_ ≠ 0

/-- The `IpRange::in(unsigned int)` of `tools.cpp`. -/
def IpRange.inNum (r : IpRange) (ip : Nat) : Bool :=
  if ip = 0 || !r.isValid then false
  else decide (ip ≥ r.start) && decide (ip ≤ r.end_)

/-- The `IpRange::in(const QString &)` of `tools.cpp`: the number of the text
is taken whatever its `ok` flag. -/
def IpRange.inStr (r : IpRange) (ip : QString) : Bool :=
  r.inNum (ipNum ip).1

/-- The `IpRange::clear` of `tools.cpp`. -/
def IpRange.clear (_r : IpRange) : IpRange :=
  { start := 0, end_ := 0 }

/-- The constructor `IpRange::IpRange(const QString &, const QChar &)` of
`tools.cpp`. -/
def IpRange.fromText (text : QString) (separator : Char) : IpRange :=
  let sl := split text separator
  if sl.length > 2 then { start := 0, end_ := 0 }
  else
    let r0 := ipNum (sl.headD [])
    if !r0.2 then { start := r0.1, end_ := 0 }
    else if sl.length = 2 then
      let r1 := ipNum (sl.getD 1 [])
      if !r1.2 then { start := 0, end_ := r1.1 }
      else { start := r0.1, end_ := r1.1 }
    else { start := r0.1, end_ := r0.1 }

/-! ## Requests and `Tools::userIp` -/

/-- What `Tools::userIp` reads of an application's request and of the
settings: the values of `System/Proxy/detect_real_ip` (default `true`) and
`System/use_x_real_ip` (default `false`) when they are set, the request
headers `HTTP_X_FORWARDED_FOR`, `HTTP_X_CLIENT_IP`, `HTTP_X_REAL_IP`, and the
remote address. -/
structure Application where
  detectRealIp : Option Bool
  useXRealIp : Option Bool
  xForwardedFor : QString
  xClientIp : QString
  xRealIp : QString
  remoteAddr : QString
  deriving DecidableEq, Repr

/-- The `Tools::userIp(req, &proxy)` of `tools.cpp`: the pair of the address
and the `proxy` flag. -/
def userIp (app : Application) : QString × Bool :=
  if app.detectRealIp.getD true then
    if (ipNum app.xForwardedFor).2 then (app.xForwardedFor, true)
    else if (ipNum app.xClientIp).2 then (app.xClientIp, true)
    else if app.useXRealIp.getD false then (app.xRealIp, false)
    else (app.remoteAddr, false)
  else if app.useXRealIp.getD false then (app.xRealIp, false)
  else (app.remoteAddr, false)

/-! ## Maps -/

/-- A `QMap<QString, T>` as the list of its entries; only look-ups are
observed, so the order of the entries is not kept sorted. -/
abbrev QMap (α : Type) := List (QString × α)

/-- The entry of a key, if there is one. -/
def QMap.find {α : Type} : QMap α → QString → Option α
  | [], _ => none
  | (k', v) :: m, k => if k' = k then some v else QMap.find m k

/-- The `QMap::contains` of Qt. -/
def QMap.contains {α : Type} (m : QMap α) (k : QString) : Bool :=
  (QMap.find m k).isSome

/-- The `QMap::value` of Qt: a default-constructed value for a missing key. -/
def QMap.value {α : Type} (m : QMap α) (k : QString) (dflt : α) : α :=
  (QMap.find m k).getD dflt

/-- The map without the entry of a key (`QMap::take`, `QMap::remove`). -/
def QMap.remove {α : Type} : QMap α → QString → QMap α
  | [], _ => []
  | (k', v) :: m, k => if k' = k then QMap.remove m k else (k', v) :: QMap.remove m k

/-- The `QMap::insert` of Qt: the value of an existing key is replaced. -/
def QMap.insert {α : Type} (m : QMap α) (k : QString) (v : α) : QMap α :=
  (k, v) :: QMap.remove m k

/-! ## The IP-range ban list and `Tools::ipBanLevel` -/

/-- The `QString::toInt(&ok)` of Qt in base 10 (C locale): as `toUInt`, with
an optional sign and the range of a 32-bit `int`. -/
def toInt (s : QString) : Int × Bool :=
  match trimmed s with
  | '-' :: c :: cs =>
    match parseDigits (c :: cs) 0 with
    | some v => if v ≤ 2 ^ 31 then (-(v : Int), true) else (0, false)
    | none => (0, false)
  | '+' :: c :: cs =>
    match parseDigits (c :: cs) 0 with
    | some v => if v < 2 ^ 31 then ((v : Int), true) else (0, false)
    | none => (0, false)
  | c :: cs =>
    match parseDigits (c :: cs) 0 with
    | some v => if v < 2 ^ 31 then ((v : Int), true) else (0, false)
    | none => (0, false)
  | [] => (0, false)

/-- Modelled from the spec: the default separator of the `IpRange`
constructor is declared in `tools.h`, which is not part of the sources; the
spec writes a range as `start-end`. -/
def defaultSeparator : Char := '-'

/-- The `Tools::IpBanInfo` of `tools.cpp`. -/
structure IpBanInfo where
  range : IpRange
  level : Int
  deriving DecidableEq, Repr

/-- The constructor `IpBanInfo::IpBanInfo(const QStringList &)` of
`tools.cpp`. The member `level` is left uninitialised by the source when the
list does not have two elements; it is 0 here, and the entry is then not
valid. -/
def IpBanInfo.fromList (sl : List QString) : IpBanInfo :=
  let range := IpRange.fromText (sl.headD []) defaultSeparator
  if sl.length ≠ 2 then { range := range.clear, level := 0 }
  else
    let r := toInt (sl.getD 1 [])
    if !r.2 then { range := range.clear, level := r.1 }
    else { range := range, level := r.1 }

/-- The `IpBanInfo::isValid` of `tools.cpp`. -/
def IpBanInfo.isValid (inf : IpBanInfo) : Bool :=
  inf.range.isValid

/-- The loop of `ipBanLevel` over a freshly read list: every valid line whose
range contains the number overwrites the level. -/
def ipBanLevelFresh (n : Nat) : List QString → Int → Int
  | [], level => level
  | s :: sl, level =>
    let inf := IpBanInfo.fromList (split s ' ')
    if !inf.isValid then ipBanLevelFresh n sl level
    else if inf.range.inNum n then ipBanLevelFresh n sl inf.level
    else ipBanLevelFresh n sl level

/-- The loop of `ipBanLevel` over the cached list: the first entry whose
range contains the number gives the level. -/
def ipBanLevelCached (n : Nat) : List IpBanInfo → Int
  | [] => 0
  | inf :: l => if inf.range.inNum n then inf.level else ipBanLevelCached n l

/-- The `Tools::ipBanLevel(const QString &)` of `tools.cpp`. `cache` is what
`Cache::ipBanInfoList()` returns (`none` for a null pointer) and `resource`
the lines of `res/ip_ban.txt` (`none` when the file is not found). The
returned level alone is modelled, not the filling of the cache. -/
def ipBanLevel (cache : Option (List IpBanInfo)) (resource : Option (List QString))
    (ip : QString) : Int :=
  let r := ipNum ip
  if !r.2 then 0
  else
    match cache with
    | none =>
      match resource with
      | none => 0
      | some sl => ipBanLevelFresh r.1 sl 0
    | some list => ipBanLevelCached r.1 list

/-! ## The ban gate of `controller.cpp` -/

/-- The `Database::BanInfo` of `database.h`; a `QDateTime` is an optional
clock reading, `none` for an invalid date. -/
structure BanInfo where
  boardName : QString
  dateTime : Option Int
  expires : Option Int
  level : Int
  reason : QString
  deriving DecidableEq, Repr

/-- A value-initialised `BanInfo`, what `QMap::value` returns for a missing
key. -/
def BanInfo.default : BanInfo :=
  { boardName := [], dateTime := none, expires := none, level := 0, reason := [] }

/-- What the ban gate reads besides the request: the cached IP-ban list, the
lines of the IP-ban resource file, and `Database::userBanInfo(ip, &ok, ...)`
(declared in `database.h`, defined outside the sources) as the pair of the
returned map and the `ok` flag. -/
structure BanEnv where
  ipBanCache : Option (List IpBanInfo)
  ipBanResource : Option (List QString)
  userBanInfo : QString → QMap BanInfo × Bool

/-- The page a ban test renders before it returns. -/
inductive Rendered where
  | nothing
  | ipBan (lvl : Int)
  | error
  | ban (inf : BanInfo)
  deriving DecidableEq, Repr

/-- The `Controller::testBanAjax` of `controller.cpp`: the returned flag and
the page rendered. `proposedAction` is the integer value of the
`UserActionType`. -/
def testBanAjax (env : BanEnv) (app : Application) (proposedAction : Int)
    (board : QString) : Bool × Rendered :=
  let ip := (userIp app).1
  let lvl := ipBanLevel env.ipBanCache env.ipBanResource ip
  if lvl ≥ proposedAction then (false, Rendered.ipBan lvl)
  else
    let r := env.userBanInfo ip
    if !r.2 then (false, Rendered.error)
    else if !QMap.contains r.1 board then (true, Rendered.nothing)
    else
      let inf := QMap.value r.1 board BanInfo.default
      if inf.level ≥ proposedAction then (false, Rendered.ban inf)
      else (true, Rendered.nothing)

/-- The `Controller::testBanNonAjax` of `controller.cpp`. -/
def testBanNonAjax (env : BanEnv) (app : Application) (proposedAction : Int)
    (board : QString) : Bool × Rendered :=
  let ip := (userIp app).1
  let lvl := ipBanLevel env.ipBanCache env.ipBanResource ip
  if lvl ≥ proposedAction then (false, Rendered.ipBan lvl)
  else
    let r := env.userBanInfo ip
    if !r.2 then (false, Rendered.error)
    else
      let inf := QMap.value r.1 board BanInfo.default
      if inf.level ≥ proposedAction then (false, Rendered.ban inf)
      else (true, Rendered.nothing)

/-! ## The DDoS guard `Tools::ddosTest` -/

/-- The `BeQt::Second` of the BeQt library, in milliseconds. -/
def Second : Int := 1000

/-- The `BeQt::Minute` of the BeQt library. -/
def Minute : Int := 60 * Second

/-- The `BeQt::Hour` of the BeQt library. -/
def Hour : Int := 60 * Minute

/-- The constant `DdosBanPeriod` of `tools.cpp`. -/
def DdosBanPeriod : Int := Minute

/-- The constant `DdosClearPeriod` of `tools.cpp`. -/
def DdosClearPeriod : Int := Hour

/-- The constant `DdosLimit` of `tools.cpp`. -/
def DdosLimit : ℚ := 10000

/-- The constant `DdosPeriod` of `tools.cpp`. -/
def DdosPeriod : Int := 10 * Second

/-- The process-wide state of the guard: the window map `ddos` and its timer,
the blocked map `ddosWait` (each entry holds the start of its own timer) and
its timer. -/
structure DdosState where
  ddos : QMap ℚ
  ddosTimer : Int
  ddosTimerStarted : Bool
  ddosWait : QMap Int
  ddosWaitTimer : Int
  ddosWaitTimerStarted : Bool

/-- The state at process start: empty maps, timers not started. -/
def DdosState.init : DdosState :=
  { ddos := [], ddosTimer := 0, ddosTimerStarted := false,
    ddosWait := [], ddosWaitTimer := 0, ddosWaitTimerStarted := false }

/-- The first critical section of `ddosTest` (under `ddosWaitMutex`): the
start of the clear timer, the sweep of the blocked map, and the test of the
entry of `ip`. Returns the flag `b` and the new state. -/
def ddosWaitStep (st : DdosState) (now : Int) (ip : QString) : Bool × DdosState :=
  let st :=
    if !st.ddosWaitTimerStarted then
      { st with ddosWaitTimerStarted := true, ddosWaitTimer := now }
    else st
  let st :=
    if now - st.ddosWaitTimer ≥ DdosClearPeriod then
      { st with ddosWaitTimer := now, ddosWait := [] }
    else st
  match QMap.find st.ddosWait ip with
  | some etmr =>
    if now - etmr ≥ DdosBanPeriod then
      (false, { st with ddosWait := QMap.remove st.ddosWait ip })
    else (true, st)
  | none => (false, st)

/-- The second critical section of `ddosTest` (under `ddosMutex`), up to the
accumulation: the start of the window timer, the reset of the window, and
`x += weight; if (previousWeight > 0.0) x -= previousWeight`. Returns the
accumulated `x` and the new state. -/
def ddosWindowStep (st : DdosState) (now : Int) (ip : QString)
    (weight previousWeight : ℚ) : ℚ × DdosState :=
  let st :=
    if !st.ddosTimerStarted then
      { st with ddosTimerStarted := true, ddosTimer := now }
    else st
  let st :=
    if now - st.ddosTimer ≥ DdosPeriod then
      { st with ddosTimer := now, ddos := [] }
    else st
  let x := QMap.value st.ddos ip 0 + weight
  let x := if previousWeight > 0 then x - previousWeight else x
  (x, { st with ddos := QMap.insert st.ddos ip x })

/-- The `Tools::ddosTest(app, weight, previousWeight)` of `tools.cpp`, called
at the clock reading `now` in the state `st`: the returned flag and the new
state. -/
def ddosTest (st : DdosState) (now : Int) (app : Application)
    (weight previousWeight : ℚ) : Bool × DdosState :=
  if weight ≤ 0 then (true, st)
  else
    let ip := (userIp app).1
    if ip.isEmpty then (true, st)
    else
      let w := ddosWaitStep st now ip
      let b := w.1
      let r := ddosWindowStep w.2 now ip weight previousWeight
      let x := r.1
      let st := r.2
      let st :=
        if !b && decide (x ≥ DdosLimit) then
          { st with ddosWait := QMap.insert st.ddosWait ip now }
        else st
      let b := b || decide (x ≥ DdosLimit)
      (!b, st)

/-- One call of `ddosTest`, with its clock reading. -/
structure Call where
  now : Int
  app : Application
  weight : ℚ
  previousWeight : ℚ

/-- The state after a sequence of calls of `ddosTest`, made one after the
other. -/
def runCalls (st : DdosState) : List Call → DdosState
  | [] => st
  | c :: cs => runCalls (ddosTest st c.now c.app c.weight c.previousWeight).2 cs

/-- A request whose address is the given remote address: no proxy detection,
no `X-Real-IP`. -/
def directRequest (ip : QString) : Application :=
  { detectRealIp := some false, useXRealIp := none, xForwardedFor := [],
    xClientIp := [], xRealIp := [], remoteAddr := ip }

/-- Modelled from the spec: the rows of the ban registry, the table behind
`Database::userBanInfo` and `Database::banUser`, whose bodies are not under
the sources: for each identity its records, keyed by a board name or by `*`,
which stands for every board. -/
abbrev BanRegistry := QString → QMap BanInfo

/-- Modelled from the spec: the `BanInfo::isExpired()` that `database.h`
declares and no source file defines, at the clock reading `now`: a record
counts as absent once `now > expires`, and a record without a valid expiry
time is permanent. -/
def BanInfo.isExpired (inf : BanInfo) (now : Int) : Bool :=
  match inf.expires with
  | some e => decide (now > e)
  | none => false

/-- Modelled from the spec: the `effectiveBan(identity, board)` of the ban
registry: look up `(identity, board)`; if absent, look up `(identity, "*")`;
if the match has `expires` in the past, treat as absent. -/
def effectiveBan (reg : BanRegistry) (now : Int) (identity board : QString) : Option BanInfo :=
  let found :=
    match QMap.find (reg identity) board with
    | some inf => some inf
    | none => QMap.find (reg identity) "*".toList
  match found with
  | some inf => if inf.isExpired now then none else some inf
  | none => none

/-- Modelled from the spec: the `Database::userBanInfo(ip, &ok)` that
`database.h` declares and no source file defines, at the clock reading `now`:
the look-up succeeds, and the returned map holds, for each board name of the
site (`boards`, the `AbstractBoard::boardNames()`), the effective ban of the
identity on that board when there is one. -/
def userBanInfo (reg : BanRegistry) (boards : List QString) (now : Int) (ip : QString) :
    QMap BanInfo × Bool :=
  (boards.filterMap (fun b => (effectiveBan reg now ip b).map (fun inf => (b, inf))), true)

/-- A `QByteArray`, as the list of its bytes, each read as an `uchar`. -/
abbrev QByteArray := List (Fin 256)

/-- A character of the class `[0-9a-fA-F]`. -/
def isHexDigit (c : Char) : Bool :=
  (48 ≤ c.toNat && c.toNat ≤ 57) || (97 ≤ c.toNat && c.toNat ≤ 102) ||
    (65 ≤ c.toNat && c.toNat ≤ 70)

/-- The value of a hexadecimal digit. -/
def hexValue (c : Char) : Nat :=
  if c.toNat ≤ 57 then c.toNat - 48
  else if 97 ≤ c.toNat then c.toNat - 87
  else c.toNat - 55

/-- The value of a run of hexadecimal digits, most significant first, on top
of the accumulator; `none` as soon as a character is not a digit. -/
def parseHex : QString → Nat → Option Nat
  | [], acc => some acc
  | c :: cs, acc =>
    if isHexDigit c then parseHex cs (16 * acc + hexValue c) else none

/-- The `QString::toUShort(&ok, 16)` of Qt (C locale): surrounding white space
is ignored, a leading `+` and a prefix `0x` are allowed, at least one digit is
required, and the value must fit in 16 bits. On failure the value is 0. -/
def toUShort16 (s : QString) : Nat × Bool :=
  let body :=
    match unsignedBody s with
    | '0' :: 'x' :: c :: cs => c :: cs
    | '0' :: 'X' :: c :: cs => c :: cs
    | t => t
  match body with
  | [] => (0, false)
  | c :: cs =>
    match parseHex (c :: cs) 0 with
    | some v => if v < 2 ^ 16 then (v, true) else (0, false)
    | none => (0, false)

/-- The `QString::number(n, 16)` of Qt for a non-negative number: its
hexadecimal digits, in lower case. -/
def number16 (n : Nat) : QString :=
  Nat.toDigits 16 n

/-- The `QString::mid(position, n)` of Qt. -/
def mid (s : QString) (position n : Nat) : QString :=
  (s.drop position).take n

/-- The `QRegExp("([0-9a-fA-F]){8}").exactMatch(ss)` of `toHashpass`. -/
def exactMatchHex8 (ss : QString) : Bool :=
  decide (ss.length = 8) && ss.all isHexDigit

/-- The inner loop of `toHashpass` over the indices of `char c[4]`: the bytes
`ss.mid(i * 2, 2).toUShort(&b, 16)`, or `none` when a conversion fails. -/
def hashpassChars (ss : QString) : List Nat → Option QByteArray
  | [] => some []
  | i :: is =>
    let r := toUShort16 (mid ss (i * 2) 2)
    if !r.2 then none
    else
      match hashpassChars ss is with
      | none => none
      | some c => some (⟨r.1 % 256, Nat.mod_lt _ (by decide)⟩ :: c)

/-- The outer loop of `toHashpass` over the groups, with the bytes appended
so far. -/
def toHashpassLoop : List QString → QByteArray → QByteArray × Bool
  | [], ba => (ba, true)
  | ss :: sl, ba =>
    if ss.length ≠ 8 || !exactMatchHex8 ss then ([], false)
    else
      match hashpassChars ss [0, 1, 2, 3] with
      | none => ([], false)
      | some c => toHashpassLoop sl (ba ++ c)

/-- The `Tools::toHashpass(s, &ok)` of `tools.cpp`. -/
def toHashpass (s : QString) : QByteArray × Bool :=
  if s.length ≠ 44 then ([], false)
  else
    let sl := split s '-'
    if sl.length ≠ 5 then ([], false)
    else toHashpassLoop sl []

/-- The text of one byte in `toString`: `QString::number(uchar, 16)`, with a
`0` prepended when it has fewer than two characters. -/
def hexPair (v : Nat) : QString :=
  let c := number16 v
  if c.length < 2 then '0' :: c else c

/-- The loop of `toString` over the indices `bRangeD(0, hp.size() - 1)`, with
the text built so far. -/
def toStringLoop (hp : QByteArray) : List Nat → QString → QString
  | [], s => s
  | i :: is, s =>
    let s := s ++ hexPair (hp.getD i 0).val
    let s := if i ≠ hp.length - 1 ∧ (i + 1) % 4 = 0 then s ++ ['-'] else s
    toStringLoop hp is s

/-- The `Tools::toString(const QByteArray &, bool *)` of `tools.cpp`. -/
def toString (hp : QByteArray) : QString × Bool :=
  if hp.length ≠ 20 then ([], false)
  else
    let s := toStringLoop hp (List.range hp.length) []
    if !(toHashpass s).2 then ([], false)
    else (s, true)

/-- The text with its ASCII capital letters in lower case. -/
def asciiLower (s : QString) : QString :=
  s.map Char.toLower

/-- The text of four bytes in `toString`. -/
def hexGroup (a b c d : Nat) : QString :=
  hexPair a ++ (hexPair b ++ (hexPair c ++ hexPair d))

/-- The characters of the class `[0-9a-fA-F]`. -/
def hexChars : List Char := "0123456789abcdefABCDEF".toList

/-- The `QStringList::join(sep)` of Qt. -/
def joinWith (sep : Char) : List QString → QString
  | [] => []
  | [g] => g
  | g :: g' :: gs => g ++ sep :: joinWith sep (g' :: gs)

/-! ## The limits `Tools::maxInfo` -/

/-- The enumerators of `Tools::MaxInfo` that `tools.cpp` and `controller.cpp`
use (the enumeration is declared in `tools.h`); `other` stands for any value
of the enumeration type that the table of `maxInfo` does not hold. -/
inductive MaxInfo where
  | MaxEmailFieldLength
  | MaxNameFieldLength
  | MaxSubjectFieldLength
  | MaxTextFieldLength
  | MaxPasswordFieldLength
  | MaxFileCount
  | MaxFileSize
  | MaxLastPosts
  | other (value : Int)
  deriving DecidableEq, Repr

/-- The `QString::toULongLong(&ok)` of Qt in base 10 (C locale): as `toUInt`,
with the range of 64 bits. -/
def toULongLong (s : QString) : Nat × Bool :=
  match unsignedBody s with
  | [] => (0, false)
  | c :: cs =>
    match parseDigits (c :: cs) 0 with
    | some v => if v < 2 ^ 64 then (v, true) else (0, false)
    | none => (0, false)

/-- A `QVariant` as the settings hold it: an unsigned number or a text. -/
inductive QVariant where
  | uint (n : Nat)
  | text (s : QString)
  deriving DecidableEq, Repr

/-- The `QVariant::toUInt` of Qt: a text is converted with `toULongLong` and
cut to 32 bits. -/
def QVariant.toUInt : QVariant → Nat
  | QVariant.uint n => n % 2 ^ 32
  | QVariant.text s => (toULongLong s).1 % 2 ^ 32

/-- The values of the settings that are set, by key. -/
abbrev Settings := QMap QVariant

/-- The `QSettings::value(key, defaultValue)` of Qt. -/
def Settings.value (s : Settings) (key : QString) (defaultValue : QVariant) : QVariant :=
  QMap.value s key defaultValue

/-- The static table of `maxInfo`: the key and the built-in default of each
limit. -/
def maxInfoMap : MaxInfo → Option (QString × Nat)
  | MaxInfo.MaxEmailFieldLength => some ("max_email_length".toList, 150)
  | MaxInfo.MaxNameFieldLength => some ("max_name_length".toList, 50)
  | MaxInfo.MaxSubjectFieldLength => some ("max_subject_length".toList, 150)
  | MaxInfo.MaxTextFieldLength => some ("max_text_length".toList, 15000)
  | MaxInfo.MaxPasswordFieldLength => some ("max_password_length".toList, 150)
  | MaxInfo.MaxFileCount => some ("max_file_count".toList, 1)
  | MaxInfo.MaxFileSize => some ("max_file_size".toList, 10)
  | MaxInfo.MaxLastPosts => some ("max_last_posts".toList, 3)
  | MaxInfo.other _ => none

/-- The `Tools::maxInfo(m, boardName)` of `tools.cpp`, reading the settings
`s`. -/
def maxInfo (s : Settings) (m : MaxInfo) (boardName : QString) : Nat :=
  match maxInfoMap m with
  | none => 0
  | some p =>
    if boardName.isEmpty then
      (Settings.value s ("Board/".toList ++ p.1) (QVariant.uint p.2)).toUInt
    else
      (Settings.value s ("Board/".toList ++ boardName ++ "/".toList ++ p.1)
        (Settings.value s ("Board/".toList ++ p.1) (QVariant.uint p.2))).toUInt

/-- The default of `max_file_size` that the settings description of `main.cpp`
documents: "The default is 10485760 (10 MB)." -/
def documentedMaxFileSize : Nat := 10485760

/-! ## The lazily cached text resources of `tools.cpp` -/

/-- What a lazily cached resource function reads: the pointer that the cache
returns (`none` for a null pointer), the path that `BDirTools::findResource`
returns, the file name that `BDirTools::localeBasedFileName` returns, the
object built from the content of that file, and what the insert into the
cache (`Cache::cacheCustomContent`, `Cache::cacheRules`, `Cache::cacheNews`)
returns. -/
structure ResourceEnv (α : Type) where
  cached : Option α
  path : QString
  fileName : QString
  loaded : α
  cacheAccepts : Bool

/-- The `Tools::customContent(prefix, l)` of `tools.cpp`: the returned
text. -/
def customContent (env : ResourceEnv QString) : QString :=
  match env.cached with
  | none =>
    if env.path.isEmpty then []
    else if env.fileName.isEmpty then []
    else
      let s := env.loaded
      if !env.cacheAccepts then
        let ss := s
        ss
      else s
  | some s => s

/-- The `Tools::rules(prefix, l)` of `tools.cpp`: the returned list. -/
def rules (env : ResourceEnv (List QString)) : List QString :=
  match env.cached with
  | none =>
    if env.path.isEmpty then []
    else if env.fileName.isEmpty then []
    else
      let sl := env.loaded
      if !env.cacheAccepts then
        let sll := sl
        sll
      else sl
  | some sl => sl

/-- The `Tools::news(l)` of `tools.cpp`: the returned list. -/
def news (env : ResourceEnv (List QString)) : List QString :=
  match env.cached with
  | none =>
    if env.path.isEmpty then []
    else if env.fileName.isEmpty then []
    else
      let sl := env.loaded
      if !env.cacheAccepts then
        let sll := sl
        sll
      else sl
  | some sl => sl

/-! ## The admission of `Tools::render` -/

/-- The shared counter `renderThreads` of `tools.cpp`, and the number of
calls of `render` that are between their two critical sections. -/
structure RenderState where
  renderThreads : Nat
  rendering : Nat
  deriving DecidableEq, Repr

/-- The first critical section of `render`, with the configured maximum
`System/max_render_threads`: the flag `b` and the counter afterwards. -/
def renderEnter (max renderThreads : Nat) : Bool × Nat :=
  let b := decide (renderThreads < max)
  (b, if b then uadd renderThreads 1 else renderThreads)

/-- The second critical section of `render`: `--renderThreads` on an
`unsigned int`. -/
def renderLeave (renderThreads : Nat) : Nat :=
  (renderThreads + 2 ^ 32 - 1) % 2 ^ 32

/-- What a call of `render` does in one atomic step: one pass of its loop, or
its second critical section. -/
inductive RenderEvent where
  | enter
  | leave
  deriving DecidableEq, Repr

/-- One atomic step of the admission. A pass of the loop that finds the
counter below the maximum admits the caller, any other pass leaves the state
as it is (the caller sleeps and tries again); a `leave` is only possible for
a caller that was admitted. -/
def renderStep (max : Nat) (s : RenderState) : RenderEvent → Option RenderState
  | RenderEvent.enter =>
    let r := renderEnter max s.renderThreads
    if r.1 then some { renderThreads := r.2, rendering := s.rendering + 1 }
    else some { renderThreads := r.2, rendering := s.rendering }
  | RenderEvent.leave =>
    if s.rendering = 0 then none
    else some { renderThreads := renderLeave s.renderThreads, rendering := s.rendering - 1 }

/-- The state after a sequence of atomic steps, `none` when a step is not
possible. -/
def renderRun (max : Nat) : RenderState → List RenderEvent → Option RenderState
  | s, [] => some s
  | s, e :: es =>
    match renderStep max s e with
    | none => none
    | some s' => renderRun max s' es

/-! ## Post numbers -/

/-- Modelled from the spec: `Database::createPost` and `Database::createThread`
are declared in `database.h` and defined outside the sources. The spec gives
the storage operation `nextPostNumber(board) → uint64 (atomic increment)`:
the counter of the board is incremented and its new value is the number
handed out. -/
def nextPostNumber (counters : QMap Nat) (board : QString) : Nat × QMap Nat :=
  let n := (QMap.value counters board 0 + 1) % 2 ^ 64
  (n, QMap.insert counters board n)

/-- A creation on a board: of a post or of a thread. -/
inductive Creation where
  | post (board : QString)
  | thread (board : QString)
  deriving DecidableEq, Repr

/-- The board of a creation. -/
def Creation.board : Creation → QString
  | Creation.post b => b
  | Creation.thread b => b

/-- Modelled from the spec: number assignment is the single serialization
point of `createPost` and `createThread`; a thread creation consumes a post
number for its first post. Each creation takes the next post number of its
board in one atomic step. -/
def createNumber (counters : QMap Nat) (c : Creation) : Nat × QMap Nat :=
  nextPostNumber counters c.board

/-- The numbers handed out on `board` by a sequence of creations, taken in the
order in which they reach the serialization point. -/
def numbersOn (board : QString) : QMap Nat → List Creation → List Nat
  | _, [] => []
  | counters, c :: cs =>
    let r := createNumber counters c
    if c.board = board then r.1 :: numbersOn board r.2 cs
    else numbersOn board r.2 cs

/-! ## The cached IP-ban list -/

/-- The list that `ipBanLevel` builds on a cache miss and hands to
`Cache::cacheIpBanInfoList`: the valid entries of the lines, in order. -/
def ipBanInfoListOf : List QString → List IpBanInfo
  | [] => []
  | s :: sl =>
    let inf := IpBanInfo.fromList (split s ' ')
    if !inf.isValid then ipBanInfoListOf sl
    else inf :: ipBanInfoListOf sl

/-! ## The request test of `controller.cpp` -/

/-- The `Controller::testRequestAjax` of `controller.cpp`: the returned flag
and the page rendered. `method` is the request method; the flags `GetRequest`
and `PostRequest` are declared in `controller.h`, outside the sources, and
are parameters. -/
def testRequestAjax (GetRequest PostRequest : Int) (method : QString)
    (acceptedTypes : Int) : Bool × Rendered :=
  let b := decide (acceptedTypes > 0)
  let b :=
    if method = "GET".toList then b && decide (Int.land acceptedTypes GetRequest ≠ 0)
    else if method = "POST".toList then b && decide (Int.land acceptedTypes PostRequest ≠ 0)
    else b
  if b then (true, Rendered.nothing)
  else (false, Rendered.error)

/-- The `Controller::testRequestNonAjax` of `controller.cpp`. -/
def testRequestNonAjax (GetRequest PostRequest : Int) (method : QString)
    (acceptedTypes : Int) : Bool × Rendered :=
  let b := decide (acceptedTypes > 0)
  let b :=
    if method = "GET".toList then b && decide (Int.land acceptedTypes GetRequest ≠ 0)
    else if method = "POST".toList then b && decide (Int.land acceptedTypes PostRequest ≠ 0)
    else b
  if b then (true, Rendered.nothing)
  else (false, Rendered.error)

/-! ## Dates and times: `stored/thread.cpp` and `Tools::localDateTime` -/

/-- A `QTime`: hour, minute, second and millisecond. -/
structure QTime where
  hour : Int
  minute : Int
  second : Int
  msec : Int
  deriving DecidableEq, Repr

/-- The milliseconds since the start of the day of a `QTime`. -/
def QTime.msecsSinceStartOfDay (t : QTime) : Int :=
  t.hour * Hour + t.minute * Minute + t.second * Second + t.msec

/-- The `QTime::isValid` of Qt. -/
def QTime.isValid (t : QTime) : Bool :=
  decide (0 ≤ t.hour) && decide (t.hour < 24) && decide (0 ≤ t.minute) &&
    decide (t.minute < 60) && decide (0 ≤ t.second) && decide (t.second < 60) &&
    decide (0 ≤ t.msec) && decide (t.msec < 1000)

/-- The `QTime` that lies the given milliseconds after the start of a day. -/
def QTime.fromMSecsSinceStartOfDay (msecs : Int) : QTime :=
  { hour := msecs / Hour, minute := msecs % Hour / Minute,
    second := msecs % Minute / Second, msec := msecs % Second }

/-- A `QDateTime`: the day number of its date, its time, and the offset of its
time specification from UTC in minutes, 0 for `Qt::UTC`. -/
structure QDateTime where
  date : Int
  time : QTime
  offsetFromUtc : Int
  deriving DecidableEq, Repr

/-- The instant that a `QDateTime` denotes, in milliseconds. -/
def QDateTime.instant (dt : QDateTime) : Int :=
  dt.date * (24 * Hour) + dt.time.msecsSinceStartOfDay - dt.offsetFromUtc * Minute

/-- The constructor `QDateTime(date, time, Qt::UTC)` of Qt. -/
def QDateTime.utc (date : Int) (time : QTime) : QDateTime :=
  { date := date, time := time, offsetFromUtc := 0 }

/-- The `QDateTime::toUTC` of Qt: the same instant, expressed in UTC. -/
def QDateTime.toUTC (dt : QDateTime) : QDateTime :=
  { date := dt.instant / (24 * Hour),
    time := QTime.fromMSecsSinceStartOfDay (dt.instant % (24 * Hour)),
    offsetFromUtc := 0 }

/-- The `QDateTime::toLocalTime` of Qt: the same instant, expressed at the
offset of the system time zone. -/
def QDateTime.toLocalTime (systemOffset : Int) (dt : QDateTime) : QDateTime :=
  { date := (dt.instant + systemOffset * Minute) / (24 * Hour),
    time := QTime.fromMSecsSinceStartOfDay ((dt.instant + systemOffset * Minute) % (24 * Hour)),
    offsetFromUtc := systemOffset }

/-- The `Thread` of `stored/thread.h`, with the members that its constructor
sets. -/
structure Thread where
  id_ : Nat
  board_ : QString
  number_ : Nat
  dateTime_ : QDateTime
  creationDateTime_ : QDateTime
  archived_ : Bool
  fixed_ : Bool
  postingEnabled_ : Bool
  draft_ : Bool
  deriving DecidableEq, Repr

/-- The constructor `Thread::Thread(board, number, dateTime)` of
`stored/thread.cpp`. -/
def Thread.create (board : QString) (number : Nat) (dateTime : QDateTime) : Thread :=
  { id_ := 0, board_ := board, number_ := number, dateTime_ := dateTime.toUTC,
    creationDateTime_ := dateTime.toUTC, archived_ := false, fixed_ := false,
    postingEnabled_ := true, draft_ := false }

/-- The `Thread::dateTime` of `stored/thread.cpp`. -/
def Thread.dateTime (t : Thread) : QDateTime :=
  QDateTime.utc t.dateTime_.date t.dateTime_.time

/-- The `Thread::setDateTime` of `stored/thread.cpp`. -/
def Thread.setDateTime (t : Thread) (dateTime : QDateTime) : Thread :=
  { t with dateTime_ := dateTime }

/-- The date-time members of the `Post` of `stored/thread.h`; the other
members are not touched by the date-time accessors. -/
structure Post where
  board_ : QString
  number_ : Nat
  dateTime_ : QDateTime
  modificationDateTime_ : QDateTime
  deriving DecidableEq, Repr

/-- The `Post::dateTime` of `stored/thread.cpp`. -/
def Post.dateTime (p : Post) : QDateTime :=
  QDateTime.utc p.dateTime_.date p.dateTime_.time

/-- The `Post::setDateTime` of `stored/thread.cpp`. -/
def Post.setDateTime (p : Post) (dt : QDateTime) : Post :=
  { p with dateTime_ := dt.toUTC }

/-- The static `time(int msecs)` of `tools.cpp`, with the division and
remainder of C. -/
def time (msecs : Int) : QTime :=
  let h := Int.tdiv msecs Hour
  let msecs := Int.tmod msecs Hour
  let m := Int.tdiv msecs Minute
  let msecs := Int.tmod msecs Minute
  let s := Int.tdiv msecs Second
  { hour := h, minute := m, second := s, msec := Int.tmod msecs Second }

/-- The constant `MaxMsecs` of `localDateTime`. -/
def MaxMsecs : Int := 24 * Hour

/-- The `Tools::localDateTime(dt, offsetMinutes)` of `tools.cpp`;
`systemOffset` is the offset of the system time zone that `toLocalTime`
uses. -/
def localDateTime (systemOffset : Int) (dt : QDateTime) (offsetMinutes : Int) : QDateTime :=
  if offsetMinutes < -720 ∨ offsetMinutes > 840 then dt.toLocalTime systemOffset
  else
    let ndt := dt.toUTC
    let t := ndt.time
    let msecs := t.hour * Hour + t.minute * Minute + t.second * Second + t.msec
    let msecsOffset := offsetMinutes * Minute
    let msecs := msecs + msecsOffset
    if msecs < 0 then
      { ndt with date := ndt.date + -1, time := time (msecs + MaxMsecs) }
    else if msecs ≥ MaxMsecs then
      { ndt with date := ndt.date + 1, time := time (msecs - MaxMsecs) }
    else
      { ndt with time := time msecs }

/-- The text `a.b.c.d` of four numbers written in decimal. -/
def dottedQuad (a b c d : Nat) : QString :=
  number a ++ '.' :: (number b ++ '.' :: (number c ++ '.' :: number d))

/-! ## Predicates and concrete inputs used in the statements -/

/-- The clear sweep of the blocked map fires at this call. -/
def sweepDue (st : DdosState) (now : Int) : Prop :=
  st.ddosWaitTimerStarted = true ∧ now - st.ddosWaitTimer ≥ DdosClearPeriod

/-- The window map is reset at this call. -/
def windowResetDue (st : DdosState) (now : Int) : Prop :=
  st.ddosTimerStarted = true ∧ now - st.ddosTimer ≥ DdosPeriod

/-- A client at the address `10.0.0.7`. -/
def clientA : Application := directRequest "10.0.0.7".toList

/-- A client at the address `10.0.1.7`. -/
def clientB : Application := directRequest "10.0.1.7".toList

/-- The state after a first call of `clientA` with weight 1 at time 0. -/
def sweepRun1 : DdosState :=
  { ddos := [("10.0.0.7".toList, 1)], ddosTimer := 0, ddosTimerStarted := true,
    ddosWait := [], ddosWaitTimer := 0, ddosWaitTimerStarted := true }

/-- The state after a second call of `clientA` with weight 10000 at time
3595000, five seconds before the clear sweep is due: blocked since
3595000. -/
def sweepRun2 : DdosState :=
  { ddos := [("10.0.0.7".toList, 10000)], ddosTimer := 3595000, ddosTimerStarted := true,
    ddosWait := [("10.0.0.7".toList, 3595000)], ddosWaitTimer := 0,
    ddosWaitTimerStarted := true }

/-- The state after a first call of `clientA` with weight 10000 at time 0:
blocked since 0. -/
def banRun1 : DdosState :=
  { ddos := [("10.0.0.7".toList, 10000)], ddosTimer := 0, ddosTimerStarted := true,
    ddosWait := [("10.0.0.7".toList, 0)], ddosWaitTimer := 0,
    ddosWaitTimerStarted := true }

/-- The state after a second call of `clientA` with weight 10000 at time
55000, while blocked. -/
def banRun2 : DdosState :=
  { ddos := [("10.0.0.7".toList, 10000)], ddosTimer := 55000, ddosTimerStarted := true,
    ddosWait := [("10.0.0.7".toList, 0)], ddosWaitTimer := 0,
    ddosWaitTimerStarted := true }

/-- An environment whose IP-ban file bans the range `10.0.0.1-10.0.0.255` at
level 10 and whose ban registry holds no record. -/
def sampleBanEnv : BanEnv :=
  { ipBanCache := none,
    ipBanResource := some ["10.0.0.1-10.0.0.255 10".toList],
    userBanInfo := fun _ => ([], true) }

/-- An unsigned decimal number in the strict sense: one or more decimal
digits and nothing else. -/
def isUnsignedDecimal (p : QString) : Bool :=
  !p.isEmpty && p.all isDigit

/-- An environment whose ban registry holds, for every identity, one record
for the board `b` with level 0. -/
def unbanEnv : BanEnv :=
  { ipBanCache := none,
    ipBanResource := none,
    userBanInfo := fun _ =>
      ([("b".toList,
          { boardName := "b".toList, dateTime := some 0, expires := none, level := 0,
            reason := [] })], true) }

/-- The twenty bytes 0, 1, ..., 9, 250, ..., 255, 16, 32, 48, 171. -/
def sampleHash : QByteArray :=
  [0, 1, 2, 3, 4, 5, 6, 7, 8, 9, 250, 251, 252, 253, 254, 255, 16, 32, 48, 171]

/-- The address of the request of a call. -/
def Call.ip (c : Call) : QString :=
  (userIp c.app).1

/-- The flags that `ddosTest` returns for the calls of a sequence that are
not from the address `skip`, made one after the other. -/
def flagsExcept (skip : QString) : DdosState → List Call → List Bool
  | _, [] => []
  | st, c :: cs =>
    let r := ddosTest st c.now c.app c.weight c.previousWeight
    if c.ip = skip then flagsExcept skip r.2 cs
    else r.1 :: flagsExcept skip r.2 cs

/-- The sequence without the calls from the address `skip`. -/
def withoutIp (skip : QString) (calls : List Call) : List Call :=
  calls.filter (fun c => decide (c.ip ≠ skip))

/-- The two states agree on everything but the entries of the address `skip`:
the same timers and started flags, and the same window weight and block for
every other address. -/
def sameExcept (skip : QString) (s1 s2 : DdosState) : Prop :=
  s1.ddosTimer = s2.ddosTimer ∧ s1.ddosTimerStarted = s2.ddosTimerStarted ∧
  s1.ddosWaitTimer = s2.ddosWaitTimer ∧ s1.ddosWaitTimerStarted = s2.ddosWaitTimerStarted ∧
  ∀ k, k ≠ skip →
    QMap.find s1.ddos k = QMap.find s2.ddos k ∧
    QMap.find s1.ddosWait k = QMap.find s2.ddosWait k

/-- The calls from the address `skip` in the sequence are quiet: each of them
is a no-op, or finds both timers running, the window reset not due and the
clear sweep not due. -/
def quietCalls (skip : QString) : DdosState → List Call → Prop
  | _, [] => True
  | st, c :: cs =>
    (c.ip = skip → 0 < c.weight → c.ip ≠ [] →
      st.ddosTimerStarted = true ∧ st.ddosWaitTimerStarted = true ∧
      ¬ windowResetDue st c.now ∧ ¬ sweepDue st c.now) ∧
    quietCalls skip (ddosTest st c.now c.app c.weight c.previousWeight).2 cs

/-- Settings that set `Board/b/max_text_length` to the text `200` and
`Board/max_text_length` to the number 300. -/
def sampleSettings : Settings :=
  [("Board/b/max_text_length".toList, QVariant.text "200".toList),
    ("Board/max_text_length".toList, QVariant.uint 300)]

/-- The IP-ban file with two lines for the same range, of levels 1 and 10. -/
def overlappingBanLines : List QString :=
  ["10.0.0.1-10.0.0.255 1".toList, "10.0.0.1-10.0.0.255 10".toList]

/-- The date-time 12:00 on day 100, expressed three hours east of UTC. -/
def noonPlusThree : QDateTime :=
  { date := 100, time := { hour := 12, minute := 0, second := 0, msec := 0 },
    offsetFromUtc := 180 }

/-- A thread created at `noonPlusThree`. -/
def sampleThread : Thread := Thread.create "b".toList 1 noonPlusThree

/-- The state after a first call of `clientA` with weight 6000 at time 0. -/
def isoRun1 : DdosState :=
  { ddos := [("10.0.0.7".toList, 6000)], ddosTimer := 0, ddosTimerStarted := true,
    ddosWait := [], ddosWaitTimer := 0, ddosWaitTimerStarted := true }

/-- The state after a call of `clientB` with weight 1 at time 10000 that
follows `isoRun1`: the window was reset at 10000. -/
def isoRun2 : DdosState :=
  { ddos := [("10.0.1.7".toList, 1)], ddosTimer := 10000, ddosTimerStarted := true,
    ddosWait := [], ddosWaitTimer := 0, ddosWaitTimerStarted := true }

/-- The state after a call of `clientA` with weight 6000 at time 12000 that
follows `isoRun2`. -/
def isoRun3 : DdosState :=
  { ddos := [("10.0.0.7".toList, 6000), ("10.0.1.7".toList, 1)], ddosTimer := 10000,
    ddosTimerStarted := true, ddosWait := [], ddosWaitTimer := 0,
    ddosWaitTimerStarted := true }

/-- The state after a call of `clientA` with weight 6000 at time 12000 that
follows `isoRun1`: the window was reset at 12000. -/
def isoRun4 : DdosState :=
  { ddos := [("10.0.0.7".toList, 6000)], ddosTimer := 12000, ddosTimerStarted := true,
    ddosWait := [], ddosWaitTimer := 0, ddosWaitTimerStarted := true }

/-- The state after a call of `clientB` with weight 1 at time 1000 that
follows `isoRun1`. -/
def isoRun5 : DdosState :=
  { ddos := [("10.0.1.7".toList, 1), ("10.0.0.7".toList, 6000)], ddosTimer := 0,
    ddosTimerStarted := true, ddosWait := [], ddosWaitTimer := 0,
    ddosWaitTimerStarted := true }

/-- The calls of `clientA` at 0, 12000 and 21000 with weight 6000 each, and
a call of `clientB` at 10000 with weight 1. -/
def isoCalls : List Call :=
  [⟨0, clientA, 6000, 0⟩, ⟨10000, clientB, 1, 0⟩, ⟨12000, clientA, 6000, 0⟩,
    ⟨21000, clientA, 6000, 0⟩]

/-- A call of `clientA` at 0 with weight 6000, a call of `clientB` at 1000
with weight 1, and a call of `clientA` at 2000 with weight 6000. -/
def quietIsoCalls : List Call :=
  [⟨0, clientA, 6000, 0⟩, ⟨1000, clientB, 1, 0⟩, ⟨2000, clientA, 6000, 0⟩]

/-! ## Facts about splitting and number parsing -/

theorem split_of_not_mem (sep : Char) (p : QString) (h : sep ∉ p) :
    split p sep = [p] := by
  induction p with
  | nil => rfl
  | cons c cs ih =>
    have hc : c ≠ sep := fun e => h (by simp [e])
    have hcs : sep ∉ cs := fun e => h (by simp [e])
    simp [split, hc, ih hcs]

theorem split_append (sep : Char) (p rest : QString) (h : sep ∉ p) :
    split (p ++ sep :: rest) sep = p :: split rest sep := by
  induction p with
  | nil => simp [split]
  | cons c cs ih =>
    have hc : c ≠ sep := fun e => h (by simp [e])
    have hcs : sep ∉ cs := fun e => h (by simp [e])
    simp [split, hc, ih hcs]

theorem split_ne_nil (s : QString) (sep : Char) : split s sep ≠ [] := by
  induction s with
  | nil => simp [split]
  | cons c cs ih =>
    by_cases hc : c = sep
    · simp [split, hc]
    · cases hs : split cs sep with
      | nil => exact absurd hs ih
      | cons p ps => simp [split, hc, hs]

/-- What `ipNum` returns once the four parts of the text are known. -/
theorem ipNum_of_split (ip p0 p1 p2 p3 : QString)
    (h : split ip '.' = [p0, p1, p2, p3]) :
    ipNum ip =
      if (toUInt p3).2 = true ∧ (toUInt p2).2 = true ∧ (toUInt p1).2 = true ∧
          (toUInt p0).2 = true ∧
          ((toUInt p3).1 + 256 * (toUInt p2).1 + 65536 * (toUInt p1).1 +
            16777216 * (toUInt p0).1) % 4294967296 ≠ 0
      then (((toUInt p3).1 + 256 * (toUInt p2).1 + 65536 * (toUInt p1).1 +
            16777216 * (toUInt p0).1) % 4294967296, true)
      else (0, false) := by
  have e : uadd (uadd (uadd (toUInt p3).1 (umul 256 (toUInt p2).1))
        (umul 65536 (toUInt p1).1)) (umul 16777216 (toUInt p0).1) =
      ((toUInt p3).1 + 256 * (toUInt p2).1 + 65536 * (toUInt p1).1 +
            16777216 * (toUInt p0).1) % 4294967296 := by
    simp only [uadd, umul]
    norm_num
  unfold ipNum
  cases h3 : (toUInt p3).2 <;> cases h2 : (toUInt p2).2 <;>
    cases h1 : (toUInt p1).2 <;> cases h0 : (toUInt p0).2 <;>
    simp [h, h3, h2, h1, h0, e]

/-- A text with other than four parts is rejected. -/
theorem ipNum_of_length_ne (ip : QString) (h : (split ip '.').length ≠ 4) :
    ipNum ip = (0, false) := by
  unfold ipNum
  simp [h]

/-- A list of length four is made of four elements. -/
theorem length_four {α : Type} (l : List α) (h : l.length = 4) :
    ∃ a b c d, l = [a, b, c, d] := by
  match l, h with
  | [a, b, c, d], _ => exact ⟨a, b, c, d, rfl⟩

/-- A rejected text has number 0. -/
theorem ipNum_fail_value (ip : QString) (h : (ipNum ip).2 = false) :
    (ipNum ip).1 = 0 := by
  by_cases hl : (split ip '.').length = 4
  · obtain ⟨p0, p1, p2, p3, hs⟩ := length_four _ hl
    rw [ipNum_of_split ip p0 p1 p2 p3 hs] at h ⊢
    split_ifs at h ⊢ with hc
    all_goals simp_all
  · rw [ipNum_of_length_ne ip hl]

/-- An accepted text has a positive number below `2 ^ 32`. -/
theorem ipNum_ok_pos (ip : QString) (h : (ipNum ip).2 = true) :
    0 < (ipNum ip).1 ∧ (ipNum ip).1 < 2 ^ 32 := by
  by_cases hl : (split ip '.').length = 4
  · obtain ⟨p0, p1, p2, p3, hs⟩ := length_four _ hl
    rw [ipNum_of_split ip p0 p1 p2 p3 hs] at h ⊢
    split_ifs at h ⊢ with hc
    refine ⟨Nat.pos_of_ne_zero hc.2.2.2.2, ?_⟩
    exact Nat.mod_lt _ (by norm_num)
  · rw [ipNum_of_length_ne ip hl] at h
    simp at h

set_option maxRecDepth 100000 in
/-- The decimal text of an octet parses back to the octet and holds no dot. -/
theorem toUInt_number_octet :
    ∀ a, a < 256 → toUInt (number a) = (a, true) ∧ '.' ∉ number a := by
  decide

/-- A character of the text other than the separator lies in one of the
parts. -/
theorem mem_split (sep c : Char) (s : QString) (hc : c ∈ s) (hne : c ≠ sep) :
    ∃ p ∈ split s sep, c ∈ p := by
  induction s with
  | nil => simp at hc
  | cons x xs ih =>
    by_cases hx : x = sep
    · have hcx : c ∈ xs := by
        rcases List.mem_cons.mp hc with e | e
        · exact absurd (e.trans hx) hne
        · exact e
      obtain ⟨p, hp, hcp⟩ := ih hcx
      exact ⟨p, by simp [split, hx, hp], hcp⟩
    · cases hs : split xs sep with
      | nil => exact absurd hs (split_ne_nil xs sep)
      | cons q qs =>
        rcases List.mem_cons.mp hc with e | e
        · exact ⟨x :: q, by simp [split, hx, hs], by simp [e]⟩
        · obtain ⟨p, hp, hcp⟩ := ih e
          rw [hs] at hp
          rcases List.mem_cons.mp hp with e' | e'
          · exact ⟨x :: q, by simp [split, hx, hs], by simp [← e', hcp]⟩
          · exact ⟨p, by simp [split, hx, hs, e'], hcp⟩

theorem mem_dropWhile_or (f : Char → Bool) (c : Char) (s : QString) (hc : c ∈ s) :
    f c = true ∨ c ∈ s.dropWhile f := by
  induction s with
  | nil => simp at hc
  | cons x xs ih =>
    by_cases hx : f x = true
    · rcases List.mem_cons.mp hc with e | e
      · exact Or.inl (e ▸ hx)
      · rcases ih e with h | h
        · exact Or.inl h
        · exact Or.inr (by simpa [List.dropWhile, hx] using h)
    · exact Or.inr (by simpa [List.dropWhile, hx] using hc)

theorem mem_trimmed_or (c : Char) (s : QString) (hc : c ∈ s) :
    isSpace c = true ∨ c ∈ trimmed s := by
  rcases mem_dropWhile_or isSpace c s hc with h | h
  · exact Or.inl h
  · rcases mem_dropWhile_or isSpace c (s.dropWhile isSpace).reverse
        (List.mem_reverse.mpr h) with h' | h'
    · exact Or.inl h'
    · exact Or.inr (by unfold trimmed; exact List.mem_reverse.mpr h')

theorem mem_unsignedBody_or (c : Char) (s : QString) (hc : c ∈ trimmed s) :
    c = '+' ∨ c ∈ unsignedBody s := by
  unfold unsignedBody
  split
  · rename_i r hr
    rw [hr] at hc
    simpa using hc
  · exact Or.inr hc

theorem parseDigits_some (s : QString) :
    ∀ acc v, parseDigits s acc = some v → ∀ c ∈ s, isDigit c = true := by
  induction s with
  | nil => intro _ _ _ c hc; simp at hc
  | cons x xs ih =>
    intro acc v h c hc
    by_cases hx : isDigit x = true
    · simp only [parseDigits, hx, if_true] at h
      rcases List.mem_cons.mp hc with e | e
      · exact e ▸ hx
      · exact ih _ _ h c e
    · simp [parseDigits, hx] at h

/-- A text that `toUInt` accepts is made of white space, digits and `+`. -/
theorem toUInt_ok_mem (s : QString) (h : (toUInt s).2 = true) (c : Char)
    (hc : c ∈ s) : isSpace c = true ∨ isDigit c = true ∨ c = '+' := by
  rcases mem_trimmed_or c s hc with h1 | h1
  · exact Or.inl h1
  · rcases mem_unsignedBody_or c s h1 with h2 | h2
    · exact Or.inr (Or.inr h2)
    · refine Or.inr (Or.inl ?_)
      unfold toUInt at h
      cases hb : unsignedBody s with
      | nil => rw [hb] at h2; simp at h2
      | cons y ys =>
        rw [hb] at h h2
        simp only at h
        cases hp : parseDigits (y :: ys) 0 with
        | none => rw [hp] at h; simp at h
        | some v => exact parseDigits_some _ _ _ hp c h2

/-- What an accepted text of `ipNum` is made of. -/
theorem ipNum_ok_parts (ip : QString) (h : (ipNum ip).2 = true) :
    ∀ p ∈ split ip '.', (toUInt p).2 = true := by
  by_cases hl : (split ip '.').length = 4
  · obtain ⟨p0, p1, p2, p3, hs⟩ := length_four _ hl
    rw [ipNum_of_split ip p0 p1 p2 p3 hs] at h
    split_ifs at h with hc
    intro p hp
    rw [hs] at hp
    simp only [List.mem_cons, List.mem_singleton, List.not_mem_nil, or_false] at hp
    rcases hp with rfl | rfl | rfl | rfl
    · exact hc.2.2.2.1
    · exact hc.2.2.1
    · exact hc.2.1
    · exact hc.1
  · rw [ipNum_of_length_ne ip hl] at h
    simp at h

/-- An accepted text of `ipNum` holds no minus sign. -/
theorem ipNum_ok_no_minus (ip : QString) (h : (ipNum ip).2 = true) : '-' ∉ ip := by
  intro hc
  obtain ⟨p, hp, hcp⟩ := mem_split '.' '-' ip hc (by decide)
  have := toUInt_ok_mem p (ipNum_ok_parts ip h p hp) '-' hcp
  revert this
  decide

/-- When `IpRange::in(unsigned int)` answers true. -/
theorem inNum_eq_true_iff (r : IpRange) (ip : Nat) :
    r.inNum ip = true ↔ ((0 < r.start ∧ 0 < r.end_) ∧ r.start ≤ ip ∧ ip ≤ r.end_) := by
  unfold IpRange.inNum IpRange.isValid
  by_cases h0 : ip = 0
  · subst h0
    simp
    intro hs _ hle
    omega
  · simp [h0, Nat.pos_iff_ne_zero]

/-! ## Claims on `IpRange::in` and `ipNum` -/

/-- C2: `r.in(ip)` is true exactly when the range is valid (both bounds
positive) and `start ≤ ip ≤ end`; an invalid range contains no address and
no range contains the address 0. -/
theorem IpRange_in_iff (r : IpRange) (ip : Nat) :
    (r.inNum ip = true ↔ (r.isValid = true ∧ r.start ≤ ip ∧ ip ≤ r.end_)) ∧
    (r.isValid = true ↔ (0 < r.start ∧ 0 < r.end_)) ∧
    (r.isValid = false → r.inNum ip = false) ∧
    r.inNum 0 = false := by
  have hv : r.isValid = true ↔ (0 < r.start ∧ 0 < r.end_) := by
    unfold IpRange.isValid
    simp [Nat.pos_iff_ne_zero]
  refine ⟨?_, hv, ?_, ?_⟩
  · rw [inNum_eq_true_iff, hv]
  · intro h
    unfold IpRange.inNum
    simp [h]
  · unfold IpRange.inNum
    simp

/-- A text that `toUInt` accepts is, without its surrounding white space and
leading `+`, a run of one or more decimal digits. -/
theorem toUInt_ok_body (s : QString) (h : (toUInt s).2 = true) :
    isUnsignedDecimal (unsignedBody s) = true := by
  unfold toUInt at h
  cases hb : unsignedBody s with
  | nil => rw [hb] at h; simp at h
  | cons y ys =>
    rw [hb] at h
    simp only at h
    cases hp : parseDigits (y :: ys) 0 with
    | none => rw [hp] at h; simp at h
    | some v =>
      have hd := parseDigits_some _ _ _ hp
      unfold isUnsignedDecimal
      simp only [List.isEmpty_cons, Bool.not_false, Bool.true_and, List.all_eq_true]
      exact hd

/-- C3, as the code has it: `ipNum` reports failure (`ok = false`, number 0)
for a text that does not have exactly four dot-separated parts, for a text
one of whose parts is not a run of one or more decimal digits once its
surrounding white space and one leading `+` are removed, more generally for a
text one of whose parts `toUInt` rejects (such as a number of `2^32` or
more), and for a text whose four parts add up to the 32-bit value 0. -/
theorem ipNum_rejects_malformed (ip : QString)
    (h : (split ip '.').length ≠ 4 ∨
      (∃ p ∈ split ip '.', isUnsignedDecimal (unsignedBody p) = false) ∨
      (∃ p ∈ split ip '.', (toUInt p).2 = false) ∨
      (∃ p0 p1 p2 p3, split ip '.' = [p0, p1, p2, p3] ∧
        ((toUInt p3).1 + 256 * (toUInt p2).1 + 65536 * (toUInt p1).1 +
          16777216 * (toUInt p0).1) % 4294967296 = 0)) :
    ipNum ip = (0, false) := by
  have h2 : (split ip '.').length ≠ 4 ∨
      (∃ p ∈ split ip '.', (toUInt p).2 = false) ∨
      (∃ p0 p1 p2 p3, split ip '.' = [p0, p1, p2, p3] ∧
        ((toUInt p3).1 + 256 * (toUInt p2).1 + 65536 * (toUInt p1).1 +
          16777216 * (toUInt p0).1) % 4294967296 = 0) := by
    rcases h with h | ⟨p, hp, hb⟩ | h | h
    · exact Or.inl h
    · refine Or.inr (Or.inl ⟨p, hp, ?_⟩)
      cases ht : (toUInt p).2 with
      | false => rfl
      | true =>
        have hbody := toUInt_ok_body p ht
        rw [hb] at hbody
        exact absurd hbody (by decide)
    · exact Or.inr (Or.inl h)
    · exact Or.inr (Or.inr h)
  by_cases hl : (split ip '.').length = 4
  · obtain ⟨p0, p1, p2, p3, hs⟩ := length_four _ hl
    rw [ipNum_of_split ip p0 p1 p2 p3 hs]
    rcases h2 with h | ⟨p, hp, hf⟩ | ⟨q0, q1, q2, q3, hq, hz⟩
    · exact absurd hl h
    · rw [if_neg]
      rw [hs] at hp
      simp only [List.mem_cons, List.mem_singleton, List.not_mem_nil, or_false] at hp
      rcases hp with rfl | rfl | rfl | rfl <;> simp [hf]
    · rw [hs] at hq
      simp only [List.cons.injEq, and_true] at hq
      obtain ⟨rfl, rfl, rfl, rfl⟩ := hq
      rw [if_neg]
      simp [hz]
  · exact ipNum_of_length_ne ip hl

/-- C3, at the texts `0.0.0.0` (value 0), `1.2.3` (three parts), `1.x.3.4` and
`1.+ 2.3.4` (a part that is not a number) and `1.4294967296.3.4` (a part that
does not fit in 32 bits). -/
theorem ipNum_rejects_malformed_witness :
    ipNum "0.0.0.0".toList = (0, false) ∧ ipNum "1.2.3".toList = (0, false) ∧
      ipNum "1.x.3.4".toList = (0, false) ∧ ipNum "1.+ 2.3.4".toList = (0, false) ∧
      ipNum "1.4294967296.3.4".toList = (0, false) :=
  ⟨ipNum_rejects_malformed "0.0.0.0".toList
      (Or.inr (Or.inr (Or.inr ⟨"0".toList, "0".toList, "0".toList, "0".toList,
        by decide, by decide⟩))),
    ipNum_rejects_malformed "1.2.3".toList (Or.inl (by decide)),
    ipNum_rejects_malformed "1.x.3.4".toList
      (Or.inr (Or.inl ⟨"x".toList, by decide, by decide⟩)),
    ipNum_rejects_malformed "1.+ 2.3.4".toList
      (Or.inr (Or.inl ⟨"+ 2".toList, by decide, by decide⟩)),
    ipNum_rejects_malformed "1.4294967296.3.4".toList
      (Or.inr (Or.inr (Or.inl ⟨"4294967296".toList, by decide, by decide⟩)))⟩

/-- C3 fails as stated: the part `+1` of `+1.2.3.4` and the parts ` 1` and `4 `
of ` 1.2.3.4 ` are not unsigned decimal numbers, and `ipNum` accepts both
texts with the number of `1.2.3.4`. -/
theorem ipNum_accepts_sign_and_space :
    "+1".toList ∈ split "+1.2.3.4".toList '.' ∧ isUnsignedDecimal "+1".toList = false ∧
    ipNum "+1.2.3.4".toList = (16909060, true) ∧
    " 1".toList ∈ split " 1.2.3.4 ".toList '.' ∧ isUnsignedDecimal " 1".toList = false ∧
    "4 ".toList ∈ split " 1.2.3.4 ".toList '.' ∧ isUnsignedDecimal "4 ".toList = false ∧
    ipNum " 1.2.3.4 ".toList = (16909060, true) ∧
    ipNum "1.2.3.4".toList = (16909060, true) := by
  decide

/-- C4: `ipNum` has no check of the octet range: `0.0.0.256` is accepted with
the number 256, the number of `0.0.1.0`, and `256.0.0.1` is accepted with the
number 1 after the 32-bit wrap-around. -/
theorem ipNum_accepts_octet_above_255 :
    ipNum "0.0.0.256".toList = (256, true) ∧
      ipNum "0.0.1.0".toList = (256, true) ∧
      ipNum "256.0.0.1".toList = (1, true) := by
  decide

/-- C5: for octets `a b c d` below 256, not all zero, `ipNum` accepts the
decimal text `a.b.c.d` and returns `a * 2^24 + b * 2^16 + c * 2^8 + d`, which
is below `2^32`; another dotted quad with the same result has the same
octets. -/
theorem ipNum_dottedQuad (a b c d : Nat) (ha : a < 256) (hb : b < 256)
    (hc : c < 256) (hd : d < 256) (hnz : ¬(a = 0 ∧ b = 0 ∧ c = 0 ∧ d = 0)) :
    ipNum (dottedQuad a b c d) = (a * 2 ^ 24 + b * 2 ^ 16 + c * 2 ^ 8 + d, true) ∧
    a * 2 ^ 24 + b * 2 ^ 16 + c * 2 ^ 8 + d < 2 ^ 32 ∧
    ∀ a' b' c' d', a' < 256 → b' < 256 → c' < 256 → d' < 256 →
      ipNum (dottedQuad a' b' c' d') = ipNum (dottedQuad a b c d) →
      a' = a ∧ b' = b ∧ c' = c ∧ d' = d := by
  have key : ∀ a b c d, a < 256 → b < 256 → c < 256 → d < 256 →
      ipNum (dottedQuad a b c d) =
        if (d + 256 * c + 65536 * b + 16777216 * a) % 4294967296 ≠ 0
        then ((d + 256 * c + 65536 * b + 16777216 * a) % 4294967296, true)
        else (0, false) := by
    intro a b c d ha hb hc hd
    obtain ⟨ea, na⟩ := toUInt_number_octet a ha
    obtain ⟨eb, nb⟩ := toUInt_number_octet b hb
    obtain ⟨ec, nc⟩ := toUInt_number_octet c hc
    obtain ⟨ed, nd⟩ := toUInt_number_octet d hd
    have hs : split (dottedQuad a b c d) '.' = [number a, number b, number c, number d] := by
      unfold dottedQuad
      rw [split_append _ _ _ na, split_append _ _ _ nb, split_append _ _ _ nc,
        split_of_not_mem _ _ nd]
    rw [ipNum_of_split _ _ _ _ _ hs]
    simp [ea, eb, ec, ed]
  have hpos : (d + 256 * c + 65536 * b + 16777216 * a) % 4294967296 ≠ 0 := by
    have : a ≠ 0 ∨ b ≠ 0 ∨ c ≠ 0 ∨ d ≠ 0 := by tauto
    omega
  refine ⟨?_, by norm_num; omega, ?_⟩
  · rw [key a b c d ha hb hc hd, if_pos hpos]
    congr 1
    norm_num
    omega
  · intro a' b' c' d' ha' hb' hc' hd' he
    rw [key a b c d ha hb hc hd, key a' b' c' d' ha' hb' hc' hd',
      if_pos hpos] at he
    split_ifs at he with h'
    · simp only [Prod.mk.injEq, and_true] at he
      omega
    · simp at he

/-- C5, at the octets 192, 168, 0, 200. -/
theorem ipNum_dottedQuad_witness :
    ipNum "192.168.0.200".toList = (3232235720, true) :=
  (ipNum_dottedQuad 192 168 0 200 (by decide) (by decide) (by decide) (by decide)
    (by decide)).1

/-! ## Claims on the construction of an `IpRange` from text -/

/-- C6: for texts `A` and `B` that `ipNum` accepts, `IpRange("A-B")` with the
separator `-` has `start = ipNum(A)` and `end = ipNum(B)`, `IpRange("A")` has
`start = end = ipNum(A)`, and `IpRange("A-B").in(x)` holds exactly for the
texts `x` with `ipNum(A) ≤ ipNum(x) ≤ ipNum(B)`. -/
theorem IpRange_fromText_accepted (A B : QString) (hA : (ipNum A).2 = true)
    (hB : (ipNum B).2 = true) :
    IpRange.fromText (A ++ '-' :: B) '-' = ⟨(ipNum A).1, (ipNum B).1⟩ ∧
    IpRange.fromText A '-' = ⟨(ipNum A).1, (ipNum A).1⟩ ∧
    ∀ x : QString, (IpRange.fromText (A ++ '-' :: B) '-').inStr x = true ↔
      ((ipNum A).1 ≤ (ipNum x).1 ∧ (ipNum x).1 ≤ (ipNum B).1) := by
  have sA : split A '-' = [A] := split_of_not_mem _ _ (ipNum_ok_no_minus A hA)
  have sB : split B '-' = [B] := split_of_not_mem _ _ (ipNum_ok_no_minus B hB)
  have sAB : split (A ++ '-' :: B) '-' = [A, B] := by
    rw [split_append _ _ _ (ipNum_ok_no_minus A hA), sB]
  have e1 : IpRange.fromText (A ++ '-' :: B) '-' = ⟨(ipNum A).1, (ipNum B).1⟩ := by
    unfold IpRange.fromText
    simp [sAB, hA, hB]
  have e2 : IpRange.fromText A '-' = ⟨(ipNum A).1, (ipNum A).1⟩ := by
    unfold IpRange.fromText
    simp [sA, hA]
  refine ⟨e1, e2, ?_⟩
  intro x
  have pA := (ipNum_ok_pos A hA).1
  have pB := (ipNum_ok_pos B hB).1
  rw [e1]
  unfold IpRange.inStr
  rw [inNum_eq_true_iff]
  simp only
  constructor
  · rintro ⟨_, h1, h2⟩
    exact ⟨h1, h2⟩
  · rintro ⟨h1, h2⟩
    exact ⟨⟨pA, pB⟩, h1, h2⟩

/-- C6, at the range `192.168.0.1-192.168.0.255`: it contains `192.168.0.200`
and does not contain `192.168.1.1`. -/
theorem IpRange_fromText_accepted_witness :
    (IpRange.fromText ("192.168.0.1".toList ++ '-' :: "192.168.0.255".toList) '-').inStr
        "192.168.0.200".toList = true ∧
    (IpRange.fromText ("192.168.0.1".toList ++ '-' :: "192.168.0.255".toList) '-').inStr
        "192.168.1.1".toList = false :=
  ⟨((IpRange_fromText_accepted "192.168.0.1".toList "192.168.0.255".toList
      (by decide) (by decide)).2.2 "192.168.0.200".toList).mpr (by decide),
    Bool.eq_false_iff.mpr (fun h =>
      absurd (((IpRange_fromText_accepted "192.168.0.1".toList "192.168.0.255".toList
        (by decide) (by decide)).2.2 "192.168.1.1".toList).mp h) (by decide))⟩

/-- C7: when the text splits into more than two parts, or `ipNum` rejects one
of its parts, the constructed range has both bounds 0, is not valid and
contains no number and no text; the construction is total, and in every other
case the range is valid. -/
theorem IpRange_fromText_invalid (text : QString) (separator : Char) :
    (((split text separator).length > 2 ∨
        ∃ p ∈ split text separator, (ipNum p).2 = false) →
      IpRange.fromText text separator = ⟨0, 0⟩ ∧
      (IpRange.fromText text separator).isValid = false ∧
      (∀ n : Nat, (IpRange.fromText text separator).inNum n = false) ∧
      (∀ x : QString, (IpRange.fromText text separator).inStr x = false)) ∧
    (¬((split text separator).length > 2 ∨
        ∃ p ∈ split text separator, (ipNum p).2 = false) →
      (IpRange.fromText text separator).isValid = true) := by
  constructor
  · intro h
    have e : IpRange.fromText text separator = ⟨0, 0⟩ := by
      unfold IpRange.fromText
      by_cases hl : (split text separator).length > 2
      · simp [hl]
      · rcases h with h | ⟨p, hp, hf⟩
        · exact absurd h hl
        · match hs : split text separator, hl, hp with
          | [], _, hp => simp at hp
          | [a], _, hp =>
            have : p = a := by simpa using hp
            subst this
            simp [hf, ipNum_fail_value p hf]
          | [a, b], _, hp =>
            simp only [List.mem_cons, List.mem_singleton, List.not_mem_nil, or_false] at hp
            rcases hp with rfl | rfl
            · simp [hf, ipNum_fail_value p hf]
            · cases ha : (ipNum a).2
              · simp [ha, ipNum_fail_value a ha]
              · simp [ha, hf, ipNum_fail_value p hf]
          | _ :: _ :: _ :: _, hl, _ => simp at hl
    rw [e]
    refine ⟨rfl, rfl, ?_, ?_⟩
    · intro n
      simp [IpRange.inNum, IpRange.isValid]
    · intro x
      simp [IpRange.inStr, IpRange.inNum, IpRange.isValid]
  · intro h
    push_neg at h
    obtain ⟨hl, hp⟩ := h
    have hok : ∀ p ∈ split text separator, (ipNum p).2 = true := by
      intro p hm
      have := hp p hm
      simpa using this
    unfold IpRange.fromText
    match hs : split text separator, hl, hok with
    | [], _, _ => exact absurd hs (split_ne_nil _ _)
    | [a], _, hok =>
      have ha := hok a (by simp)
      have := (ipNum_ok_pos a ha).1
      simp [ha, IpRange.isValid]
      omega
    | [a, b], _, hok =>
      have ha := hok a (by simp)
      have hb := hok b (by simp)
      have := (ipNum_ok_pos a ha).1
      have := (ipNum_ok_pos b hb).1
      simp [ha, hb, IpRange.isValid]
      omega
    | _ :: _ :: _ :: _, hl, _ => simp at hl

/-- C7, at the text `not-an-ip`: three parts, so the range is `0..0`, not
valid, and contains neither the number 1 nor the text `192.168.0.1`. -/
theorem IpRange_fromText_invalid_witness :
    IpRange.fromText "not-an-ip".toList '-' = ⟨0, 0⟩ ∧
    (IpRange.fromText "not-an-ip".toList '-').isValid = false ∧
    (IpRange.fromText "not-an-ip".toList '-').inNum 1 = false ∧
    (IpRange.fromText "not-an-ip".toList '-').inStr "192.168.0.1".toList = false :=
  have h := (IpRange_fromText_invalid "not-an-ip".toList '-').1 (Or.inl (by decide))
  ⟨h.1, h.2.1, h.2.2.1 1, h.2.2.2 "192.168.0.1".toList⟩


/-! ## Facts about maps and the two steps of `ddosTest` -/

theorem QMap.find_remove_self {α : Type} (m : QMap α) (k : QString) :
    QMap.find (QMap.remove m k) k = none := by
  induction m with
  | nil => rfl
  | cons e m ih =>
    obtain ⟨k', v⟩ := e
    by_cases h : k' = k
    · simp [QMap.remove, h, ih]
    · simp [QMap.remove, QMap.find, h, ih]

theorem QMap.find_remove_ne {α : Type} (m : QMap α) (k k' : QString) (hne : k ≠ k') :
    QMap.find (QMap.remove m k) k' = QMap.find m k' := by
  induction m with
  | nil => rfl
  | cons e m ih =>
    obtain ⟨k'', v⟩ := e
    by_cases h : k'' = k
    · subst h
      simp only [QMap.remove, if_true]
      rw [ih]
      simp [QMap.find, hne]
    · simp only [QMap.remove, h, if_false, QMap.find]
      by_cases h2 : k'' = k' <;> simp [h2, ih]

theorem QMap.find_insert_self {α : Type} (m : QMap α) (k : QString) (v : α) :
    QMap.find (QMap.insert m k v) k = some v := by
  simp [QMap.insert, QMap.find]

theorem QMap.find_insert_ne {α : Type} (m : QMap α) (k k' : QString) (v : α)
    (hne : k ≠ k') : QMap.find (QMap.insert m k v) k' = QMap.find m k' := by
  simp [QMap.insert, QMap.find, hne, QMap.find_remove_ne m k k' hne]

theorem DdosClearPeriod_pos : (0 : Int) < DdosClearPeriod := by decide

theorem DdosPeriod_pos : (0 : Int) < DdosPeriod := by decide

/-- The wait step when the sweep fires: nothing is left of the blocked map. -/
theorem ddosWaitStep_sweep (st : DdosState) (now : Int) (ip : QString)
    (h : sweepDue st now) :
    ddosWaitStep st now ip = (false, { st with ddosWaitTimer := now, ddosWait := [] }) := by
  obtain ⟨h1, h2⟩ := h
  unfold ddosWaitStep
  simp [h1, h2, QMap.find]

/-- The state in which the wait step looks up `ip` when no sweep fires. -/
theorem ddosWaitStep_no_sweep (st : DdosState) (now : Int) (ip : QString)
    (h : ¬ sweepDue st now) :
    ddosWaitStep st now ip =
      match QMap.find st.ddosWait ip with
      | some etmr =>
        if now - etmr ≥ DdosBanPeriod then
          (false, { st with
            ddosWaitTimerStarted := true,
            ddosWaitTimer := if st.ddosWaitTimerStarted then st.ddosWaitTimer else now,
            ddosWait := QMap.remove st.ddosWait ip })
        else
          (true, { st with
            ddosWaitTimerStarted := true,
            ddosWaitTimer := if st.ddosWaitTimerStarted then st.ddosWaitTimer else now })
      | none =>
        (false, { st with
          ddosWaitTimerStarted := true,
          ddosWaitTimer := if st.ddosWaitTimerStarted then st.ddosWaitTimer else now }) := by
  unfold sweepDue at h
  have hc := DdosClearPeriod_pos
  unfold ddosWaitStep
  cases hs : st.ddosWaitTimerStarted
  · simp only [Bool.not_false, if_true, sub_self, ge_iff_le, not_le.mpr hc, if_false,
      Bool.false_eq_true]
  · have h2 : ¬ (DdosClearPeriod ≤ now - st.ddosWaitTimer) := fun e => h ⟨hs, e⟩
    simp only [Bool.not_true, Bool.false_eq_true, if_false, ge_iff_le, h2, if_true]
    cases st
    simp_all

/-- The flag of the wait step: an entry of `ip` younger than `DdosBanPeriod`
that the sweep does not remove. -/
theorem ddosWaitStep_flag (st : DdosState) (now : Int) (ip : QString) :
    (ddosWaitStep st now ip).1 = true ↔
      (¬ sweepDue st now ∧ ∃ t, QMap.find st.ddosWait ip = some t ∧ now - t < DdosBanPeriod) := by
  by_cases h : sweepDue st now
  · rw [ddosWaitStep_sweep st now ip h]
    simp [h]
  · rw [ddosWaitStep_no_sweep st now ip h]
    cases hf : QMap.find st.ddosWait ip with
    | none => simp [h]
    | some t =>
      by_cases hb : now - t ≥ DdosBanPeriod
      · simp [h, hb]
      · simp [h, hb]
        exact lt_of_not_ge hb

/-- The entry of `ip` after the wait step: kept when the flag is set, gone
otherwise. -/
theorem ddosWaitStep_find (st : DdosState) (now : Int) (ip : QString) :
    ((ddosWaitStep st now ip).1 = true →
        (ddosWaitStep st now ip).2.ddosWait = st.ddosWait ∧
        ∃ t, QMap.find (ddosWaitStep st now ip).2.ddosWait ip = some t) ∧
    ((ddosWaitStep st now ip).1 = false →
        QMap.find (ddosWaitStep st now ip).2.ddosWait ip = none) := by
  by_cases h : sweepDue st now
  · rw [ddosWaitStep_sweep st now ip h]
    simp [QMap.find]
  · rw [ddosWaitStep_no_sweep st now ip h]
    cases hf : QMap.find st.ddosWait ip with
    | none => simp [hf]
    | some t =>
      by_cases hb : now - t ≥ DdosBanPeriod
      · simp [hb, QMap.find_remove_self]
      · simp [hb, hf]

/-- The window step leaves the blocked map and its timer alone and records
the accumulated weight of `ip`. -/
theorem ddosWindowStep_frame (st : DdosState) (now : Int) (ip : QString)
    (weight previousWeight : ℚ) :
    (ddosWindowStep st now ip weight previousWeight).2.ddosWait = st.ddosWait ∧
    (ddosWindowStep st now ip weight previousWeight).2.ddosWaitTimer = st.ddosWaitTimer ∧
    (ddosWindowStep st now ip weight previousWeight).2.ddosWaitTimerStarted =
      st.ddosWaitTimerStarted ∧
    QMap.find (ddosWindowStep st now ip weight previousWeight).2.ddos ip =
      some (ddosWindowStep st now ip weight previousWeight).1 := by
  unfold ddosWindowStep
  refine ⟨?_, ?_, ?_, ?_⟩
  · simp only
    split_ifs <;> rfl
  · simp only
    split_ifs <;> rfl
  · simp only
    split_ifs <;> rfl
  · simp only [QMap.find_insert_self]

/-- The result of `ddosTest` on a call that is not a no-op, in terms of its
two steps. -/
theorem ddosTest_steps (st : DdosState) (now : Int) (app : Application)
    (weight previousWeight : ℚ) (hw : 0 < weight) (hip : (userIp app).1 ≠ []) :
    ddosTest st now app weight previousWeight =
      (!((ddosWaitStep st now (userIp app).1).1 ||
          decide ((ddosWindowStep (ddosWaitStep st now (userIp app).1).2 now (userIp app).1
            weight previousWeight).1 ≥ DdosLimit)),
        if !(ddosWaitStep st now (userIp app).1).1 &&
            decide ((ddosWindowStep (ddosWaitStep st now (userIp app).1).2 now (userIp app).1
              weight previousWeight).1 ≥ DdosLimit) then
          { (ddosWindowStep (ddosWaitStep st now (userIp app).1).2 now (userIp app).1
              weight previousWeight).2 with
            ddosWait := QMap.insert
              (ddosWindowStep (ddosWaitStep st now (userIp app).1).2 now (userIp app).1
                weight previousWeight).2.ddosWait (userIp app).1 now }
        else
          (ddosWindowStep (ddosWaitStep st now (userIp app).1).2 now (userIp app).1
            weight previousWeight).2) := by
  unfold ddosTest
  have h1 : ¬ weight ≤ 0 := not_le.mpr hw
  have h2 : (userIp app).1.isEmpty = false := by
    cases h : (userIp app).1 with
    | nil => exact absurd h hip
    | cons _ _ => rfl
  simp only [h1, if_false, h2, Bool.false_eq_true]

/-- The wait step leaves the window map and its timer alone. -/
theorem ddosWaitStep_window_frame (st : DdosState) (now : Int) (ip : QString) :
    (ddosWaitStep st now ip).2.ddos = st.ddos ∧
    (ddosWaitStep st now ip).2.ddosTimer = st.ddosTimer ∧
    (ddosWaitStep st now ip).2.ddosTimerStarted = st.ddosTimerStarted := by
  by_cases h : sweepDue st now
  · rw [ddosWaitStep_sweep st now ip h]
    exact ⟨rfl, rfl, rfl⟩
  · rw [ddosWaitStep_no_sweep st now ip h]
    cases hf : QMap.find st.ddosWait ip with
    | none => exact ⟨rfl, rfl, rfl⟩
    | some t =>
      by_cases hb : now - t ≥ DdosBanPeriod
      · simp [hb]
      · simp [hb]

/-- The wait step of a started clear timer when no sweep fires: the timer is
kept, and the blocked map loses at most the entry of the caller. -/
theorem ddosWaitStep_no_sweep_frame (st : DdosState) (now : Int) (ip : QString)
    (h : ¬ sweepDue st now) (hs : st.ddosWaitTimerStarted = true) :
    (ddosWaitStep st now ip).2.ddosWaitTimer = st.ddosWaitTimer ∧
    (ddosWaitStep st now ip).2.ddosWaitTimerStarted = true ∧
    ((ddosWaitStep st now ip).2.ddosWait = st.ddosWait ∨
      (ddosWaitStep st now ip).2.ddosWait = QMap.remove st.ddosWait ip) := by
  rw [ddosWaitStep_no_sweep st now ip h]
  cases hf : QMap.find st.ddosWait ip with
  | none => simp [hs]
  | some t =>
    by_cases hb : now - t ≥ DdosBanPeriod
    · simp [hb, hs]
    · simp [hb, hs]

/-- The accumulated weight when the window is reset by the call. -/
theorem ddosWindowStep_reset (st : DdosState) (now : Int) (ip : QString)
    (weight previousWeight : ℚ) (h : windowResetDue st now) :
    (ddosWindowStep st now ip weight previousWeight).1 =
      if previousWeight > 0 then 0 + weight - previousWeight else 0 + weight := by
  obtain ⟨hs, hd⟩ := h
  unfold ddosWindowStep
  simp [hs, hd, QMap.value, QMap.find]

/-- A call made while `ip` is blocked, before the sweep is due, keeps the
entry of `ip` and the clear timer. -/
theorem ddosTest_keeps_block (st : DdosState) (now : Int) (app : Application)
    (weight previousWeight : ℚ) (ip : QString) (t0 : Int)
    (hf : QMap.find st.ddosWait ip = some t0)
    (hs : st.ddosWaitTimerStarted = true)
    (hclear : now - st.ddosWaitTimer < DdosClearPeriod)
    (hban : now - t0 < DdosBanPeriod) :
    QMap.find (ddosTest st now app weight previousWeight).2.ddosWait ip = some t0 ∧
    (ddosTest st now app weight previousWeight).2.ddosWaitTimerStarted = true ∧
    (ddosTest st now app weight previousWeight).2.ddosWaitTimer = st.ddosWaitTimer := by
  by_cases hw : weight ≤ 0
  · unfold ddosTest
    simp [hw, hf, hs]
  · by_cases hip : (userIp app).1 = []
    · unfold ddosTest
      simp [hw, hip, hf, hs]
    · have hns : ¬ sweepDue st now := fun e => absurd e.2 (not_le.mpr hclear)
      obtain ⟨f1, f2, f3⟩ := ddosWaitStep_no_sweep_frame st now (userIp app).1 hns hs
      obtain ⟨g1, g2, g3, _⟩ := ddosWindowStep_frame (ddosWaitStep st now (userIp app).1).2 now
        (userIp app).1 weight previousWeight
      rw [ddosTest_steps st now app weight previousWeight (not_le.mp hw) hip]
      by_cases he : (userIp app).1 = ip
      · have hb : (ddosWaitStep st now (userIp app).1).1 = true :=
          (ddosWaitStep_flag st now (userIp app).1).mpr ⟨hns, t0, he ▸ hf, hban⟩
        have hk := ((ddosWaitStep_find st now (userIp app).1).1 hb).1
        simp only [hb, Bool.not_true, Bool.false_and, Bool.false_eq_true, if_false]
        rw [g1, g2, g3, hk, f1, f2]
        exact ⟨hf, rfl, rfl⟩
      · have hfind : QMap.find (ddosWaitStep st now (userIp app).1).2.ddosWait ip = some t0 := by
          rcases f3 with e | e
          · rw [e]; exact hf
          · rw [e, QMap.find_remove_ne _ _ _ he]; exact hf
        split_ifs
        · simp only
          rw [QMap.find_insert_ne _ _ _ _ he, g1, g2, g3, f1, f2]
          exact ⟨hfind, rfl, rfl⟩
        · rw [g1, g2, g3, f1, f2]
          exact ⟨hfind, rfl, rfl⟩

/-- A sequence of calls made while `ip` is blocked, all before the sweep is
due, keeps the entry of `ip` and the clear timer. -/
theorem runCalls_keeps_block (calls : List Call) (t : Int) (ip : QString) (t0 : Int) :
    ∀ st : DdosState, QMap.find st.ddosWait ip = some t0 →
      st.ddosWaitTimerStarted = true →
      (∀ c ∈ calls, c.now ≤ t) →
      t - st.ddosWaitTimer < DdosClearPeriod →
      t - t0 < DdosBanPeriod →
      QMap.find (runCalls st calls).ddosWait ip = some t0 ∧
      (runCalls st calls).ddosWaitTimerStarted = true ∧
      (runCalls st calls).ddosWaitTimer = st.ddosWaitTimer := by
  induction calls with
  | nil => intro st hf hs _ _ _; exact ⟨hf, hs, rfl⟩
  | cons c cs ih =>
    intro st hf hs hc hclear hban
    have hle : c.now ≤ t := hc c (by simp)
    obtain ⟨k1, k2, k3⟩ := ddosTest_keeps_block st c.now c.app c.weight c.previousWeight ip t0
      hf hs (by omega) (by omega)
    obtain ⟨r1, r2, r3⟩ := ih (ddosTest st c.now c.app c.weight c.previousWeight).2 k1 k2
      (fun c' hc' => hc c' (by simp [hc'])) (by rw [k3]; exact hclear) hban
    exact ⟨r1, r2, r3.trans k3⟩

/-- The accumulated weight when `ip` has no weight in the window yet. -/
theorem ddosWindowStep_absent (st : DdosState) (now : Int) (ip : QString)
    (weight previousWeight : ℚ) (h : QMap.find st.ddos ip = none) :
    (ddosWindowStep st now ip weight previousWeight).1 =
      if previousWeight > 0 then 0 + weight - previousWeight else 0 + weight := by
  unfold ddosWindowStep
  simp only
  split_ifs <;> simp [QMap.value, QMap.find, h]

/-! ## Concrete runs of the guard -/

theorem sweepRun1_step :
    ddosTest DdosState.init 0 clientA 1 0 = (true, sweepRun1) := by
  norm_num [ddosTest, ddosWaitStep, ddosWindowStep, userIp, directRequest, clientA,
    DdosState.init, sweepRun1, QMap.find, QMap.value, QMap.insert, QMap.remove, DdosLimit,
    DdosClearPeriod, DdosBanPeriod, DdosPeriod, Hour, Minute, Second]

theorem sweepRun2_step :
    ddosTest sweepRun1 3595000 clientA 10000 0 = (false, sweepRun2) := by
  norm_num [ddosTest, ddosWaitStep, ddosWindowStep, userIp, directRequest, clientA,
    sweepRun1, sweepRun2, QMap.find, QMap.value, QMap.insert, QMap.remove, DdosLimit,
    DdosClearPeriod, DdosBanPeriod, DdosPeriod, Hour, Minute, Second]

theorem sweepRun3_step :
    (ddosTest sweepRun2 3605000 clientA 1 0).1 = true ∧
    (ddosTest sweepRun2 3605000 clientA 1 0).2.ddos = [("10.0.0.7".toList, 1)] ∧
    (ddosTest sweepRun2 3605000 clientA 1 0).2.ddosWait = [] := by
  norm_num [ddosTest, ddosWaitStep, ddosWindowStep, userIp, directRequest, clientA,
    sweepRun2, QMap.find, QMap.value, QMap.insert, QMap.remove, DdosLimit,
    DdosClearPeriod, DdosBanPeriod, DdosPeriod, Hour, Minute, Second]

theorem banRun1_step :
    ddosTest DdosState.init 0 clientA 10000 0 = (false, banRun1) := by
  norm_num [ddosTest, ddosWaitStep, ddosWindowStep, userIp, directRequest, clientA,
    DdosState.init, banRun1, QMap.find, QMap.value, QMap.insert, QMap.remove, DdosLimit,
    DdosClearPeriod, DdosBanPeriod, DdosPeriod, Hour, Minute, Second]

theorem banRun2_step :
    ddosTest banRun1 55000 clientA 10000 0 = (false, banRun2) := by
  norm_num [ddosTest, ddosWaitStep, ddosWindowStep, userIp, directRequest, clientA,
    banRun1, banRun2, QMap.find, QMap.value, QMap.insert, QMap.remove, DdosLimit,
    DdosClearPeriod, DdosBanPeriod, DdosPeriod, Hour, Minute, Second]

theorem banRun3_step :
    (ddosTest banRun2 60000 clientA 1 0).1 = false := by
  norm_num [ddosTest, ddosWaitStep, ddosWindowStep, userIp, directRequest, clientA,
    banRun2, QMap.find, QMap.value, QMap.insert, QMap.remove, DdosLimit,
    DdosClearPeriod, DdosBanPeriod, DdosPeriod, Hour, Minute, Second]

theorem userIp_clientA : (userIp clientA).1 = "10.0.0.7".toList := by decide

/-! ## Claim on the ban gate -/

/-- C1: `testBanAjax` returns true exactly when the IP-range level of the
client address is below the proposed action, the look-up of the per-identity
records succeeds, and the records hold nothing for the board or a level below
the proposed action; an IP-range level at or above the proposed action denies
the action whatever the records, and a failed look-up denies it. -/
theorem testBanAjax_allows_iff (env : BanEnv) (app : Application)
    (proposedAction : Int) (board : QString) :
    ((testBanAjax env app proposedAction board).1 = true ↔
      (ipBanLevel env.ipBanCache env.ipBanResource (userIp app).1 < proposedAction ∧
        (env.userBanInfo (userIp app).1).2 = true ∧
        (QMap.contains (env.userBanInfo (userIp app).1).1 board = false ∨
          (QMap.value (env.userBanInfo (userIp app).1).1 board BanInfo.default).level <
            proposedAction))) ∧
    (proposedAction ≤ ipBanLevel env.ipBanCache env.ipBanResource (userIp app).1 →
      testBanAjax env app proposedAction board =
        (false, Rendered.ipBan (ipBanLevel env.ipBanCache env.ipBanResource (userIp app).1))) ∧
    ((env.userBanInfo (userIp app).1).2 = false →
      (testBanAjax env app proposedAction board).1 = false) := by
  unfold testBanAjax
  by_cases h1 : proposedAction ≤ ipBanLevel env.ipBanCache env.ipBanResource (userIp app).1
  · simp [h1]
  · have h1' := not_le.mp h1
    simp only [ge_iff_le, h1, if_false, h1', true_and, IsEmpty.forall_iff, true_and]
    cases h2 : (env.userBanInfo (userIp app).1).2
    · simp
    · cases h3 : QMap.contains (env.userBanInfo (userIp app).1).1 board
      · simp
      · by_cases h4 : proposedAction ≤
            (QMap.value (env.userBanInfo (userIp app).1).1 board BanInfo.default).level
        · simp [h4]
        · simp [h4]
          exact not_le.mp h4

/-- C1, at the sample environment: a client inside the banned range is denied
posting, a client outside it is allowed. -/
theorem testBanAjax_allows_iff_witness :
    testBanAjax sampleBanEnv clientA 1 "b".toList = (false, Rendered.ipBan 10) ∧
    (testBanAjax sampleBanEnv clientB 1 "b".toList).1 = true :=
  ⟨(testBanAjax_allows_iff sampleBanEnv clientA 1 "b".toList).2.1 (by decide),
    (testBanAjax_allows_iff sampleBanEnv clientB 1 "b".toList).1.mpr
      ⟨by decide, rfl, Or.inl rfl⟩⟩

/-! ## Claims on the DDoS guard -/

/-- C8, as the code has it: a call with positive weight and non-empty address
returns true exactly when the address is not in the blocked map after the
call; it returns false exactly when the address had on entry a block younger
than `DdosBanPeriod` that this call's clear sweep does not remove, or its
window weight after the call is at least `DdosLimit`; in the latter case,
without such a block, the address is inserted into the blocked map with a
timer started at this call. -/
theorem ddosTest_allows_iff_not_blocked (st : DdosState) (now : Int)
    (app : Application) (weight previousWeight : ℚ) (hw : 0 < weight)
    (hip : (userIp app).1 ≠ []) :
    ((ddosTest st now app weight previousWeight).1 = true ↔
      QMap.find (ddosTest st now app weight previousWeight).2.ddosWait (userIp app).1 = none) ∧
    ((ddosTest st now app weight previousWeight).1 = false ↔
      ((¬ sweepDue st now ∧
          ∃ t, QMap.find st.ddosWait (userIp app).1 = some t ∧ now - t < DdosBanPeriod) ∨
        QMap.value (ddosTest st now app weight previousWeight).2.ddos (userIp app).1 0 ≥
          DdosLimit)) ∧
    (QMap.value (ddosTest st now app weight previousWeight).2.ddos (userIp app).1 0 ≥
        DdosLimit →
      ¬ (¬ sweepDue st now ∧
          ∃ t, QMap.find st.ddosWait (userIp app).1 = some t ∧ now - t < DdosBanPeriod) →
      QMap.find (ddosTest st now app weight previousWeight).2.ddosWait (userIp app).1 =
        some now) := by
  obtain ⟨g1, _, _, g4⟩ := ddosWindowStep_frame (ddosWaitStep st now (userIp app).1).2 now
    (userIp app).1 weight previousWeight
  have hflag := ddosWaitStep_flag st now (userIp app).1
  obtain ⟨hkeep, hgone⟩ := ddosWaitStep_find st now (userIp app).1
  rw [← hflag, ddosTest_steps st now app weight previousWeight hw hip]
  cases hb : (ddosWaitStep st now (userIp app).1).1
  · have hnone := hgone hb
    by_cases hx : (ddosWindowStep (ddosWaitStep st now (userIp app).1).2 now (userIp app).1
        weight previousWeight).1 ≥ DdosLimit
    · simp [hx, QMap.find_insert_self, QMap.value, g4]
    · simp [hx, QMap.value, g4, g1, hnone]
  · obtain ⟨_, t, ht⟩ := hkeep hb
    simp [QMap.value, g4, g1, ht]

/-- C8, at the first call of `clientA` with weight 10000: it returns false
and the address is in the blocked map afterwards, with a timer started at the
call. -/
theorem ddosTest_allows_iff_not_blocked_witness :
    (ddosTest DdosState.init 0 clientA 10000 0).1 = false ∧
    QMap.find (ddosTest DdosState.init 0 clientA 10000 0).2.ddosWait (userIp clientA).1 =
      some 0 :=
  have h := ddosTest_allows_iff_not_blocked DdosState.init 0 clientA 10000 0
    (by norm_num) (by decide)
  have hx : QMap.value (ddosTest DdosState.init 0 clientA 10000 0).2.ddos
      (userIp clientA).1 0 ≥ DdosLimit := by
    rw [banRun1_step]
    norm_num [banRun1, userIp_clientA, QMap.value, QMap.find, DdosLimit]
  ⟨h.2.1.mpr (Or.inr hx), h.2.2 hx (fun e => by
    obtain ⟨_, t, ht, _⟩ := e
    simp [DdosState.init, QMap.find] at ht)⟩

/-- C8 fails as stated: after the calls of `clientA` at time 0 (weight 1) and
at 3595000 (weight 10000, blocked from then on), `clientA` has on entry of its
call at 3605000 a block that is 10 seconds old, and its window weight after
that call is 1, yet the call returns true: the clear sweep removed the
block. -/
theorem ddosTest_unexpired_block_allowed :
    ¬ ((ddosTest (runCalls DdosState.init
          [⟨0, clientA, 1, 0⟩, ⟨3595000, clientA, 10000, 0⟩]) 3605000 clientA 1 0).1 = false ↔
      ((∃ t, QMap.find (runCalls DdosState.init
            [⟨0, clientA, 1, 0⟩, ⟨3595000, clientA, 10000, 0⟩]).ddosWait
            (userIp clientA).1 = some t ∧
          3605000 - t < DdosBanPeriod) ∨
        QMap.value (ddosTest (runCalls DdosState.init
            [⟨0, clientA, 1, 0⟩, ⟨3595000, clientA, 10000, 0⟩]) 3605000 clientA 1 0).2.ddos
            (userIp clientA).1 0 ≥
          DdosLimit)) := by
  have e2 : runCalls DdosState.init [⟨0, clientA, 1, 0⟩, ⟨3595000, clientA, 10000, 0⟩] =
      sweepRun2 := by
    simp only [runCalls, sweepRun1_step, sweepRun2_step]
  rw [e2]
  intro h
  have hblock : ∃ t, QMap.find sweepRun2.ddosWait (userIp clientA).1 = some t ∧
      3605000 - t < DdosBanPeriod := ⟨3595000, by decide, by decide⟩
  have := h.mpr (Or.inl hblock)
  rw [sweepRun3_step.1] at this
  exact absurd this (by decide)

/-- C9, as the code has it: when `ip` is in the blocked map with a timer
started at `t0` and the clear timer is running, then after any sequence of
calls made no later than `t`, a call of `ip` with positive weight at a time
`t` with `t - t0 < DdosBanPeriod` returns false, provided the clear sweep is
not due by then (`t - ddosWaitTimer < DdosClearPeriod`). -/
theorem ddosTest_blocked_within_ban_period (st : DdosState) (ip : QString) (t0 : Int)
    (calls : List Call) (c : Call)
    (hblocked : QMap.find st.ddosWait ip = some t0)
    (hstarted : st.ddosWaitTimerStarted = true)
    (hcalls : ∀ c' ∈ calls, c'.now ≤ c.now)
    (hip : (userIp c.app).1 = ip) (hne : ip ≠ []) (hw : 0 < c.weight)
    (hban : c.now - t0 < DdosBanPeriod)
    (hclear : c.now - st.ddosWaitTimer < DdosClearPeriod) :
    (ddosTest (runCalls st calls) c.now c.app c.weight c.previousWeight).1 = false := by
  obtain ⟨r1, r2, r3⟩ := runCalls_keeps_block calls c.now ip t0 st hblocked hstarted hcalls
    hclear hban
  have hns : ¬ sweepDue (runCalls st calls) c.now := by
    intro e
    have := e.2
    rw [r3] at this
    omega
  have hb : (ddosWaitStep (runCalls st calls) c.now (userIp c.app).1).1 = true :=
    (ddosWaitStep_flag _ _ _).mpr ⟨hns, t0, hip ▸ r1, hban⟩
  rw [ddosTest_steps _ _ _ _ _ hw (hip ▸ hne)]
  simp [hb]

/-- C9, at `clientA` blocked at time 0: after a call of `clientB` at 1000
and a call of `clientA` at 2000, the call of `clientA` at 30000 returns
false. -/
theorem ddosTest_blocked_within_ban_period_witness :
    (ddosTest (runCalls banRun1 [⟨1000, clientB, 5, 0⟩, ⟨2000, clientA, 1, 0⟩])
      30000 clientA 1 0).1 = false :=
  ddosTest_blocked_within_ban_period banRun1 "10.0.0.7".toList 0
    [⟨1000, clientB, 5, 0⟩, ⟨2000, clientA, 1, 0⟩] ⟨30000, clientA, 1, 0⟩
    (by decide) (by decide) (by decide) (by decide) (by decide) (by norm_num)
    (by decide) (by decide)

/-- C9 fails as stated: `clientA` calls at time 0 with weight 1, reaches
`DdosLimit` at time 3595000 and is inserted into the blocked map then; its
call at 3605000, 10 seconds later and within `DdosBanPeriod`, returns true,
because the clear sweep of the blocked map fell due in between. -/
theorem ddosTest_block_lost_at_sweep :
    (ddosTest (runCalls DdosState.init [⟨0, clientA, 1, 0⟩]) 3595000 clientA 10000 0).1 =
      false ∧
    QMap.find (runCalls DdosState.init
        [⟨0, clientA, 1, 0⟩, ⟨3595000, clientA, 10000, 0⟩]).ddosWait (userIp clientA).1 =
      some 3595000 ∧
    (3605000 : Int) - 3595000 < DdosBanPeriod ∧
    (ddosTest (runCalls DdosState.init
        [⟨0, clientA, 1, 0⟩, ⟨3595000, clientA, 10000, 0⟩]) 3605000 clientA 1 0).1 = true := by
  have e1 : runCalls DdosState.init [⟨0, clientA, 1, 0⟩] = sweepRun1 := by
    simp only [runCalls, sweepRun1_step]
  have e2 : runCalls DdosState.init [⟨0, clientA, 1, 0⟩, ⟨3595000, clientA, 10000, 0⟩] =
      sweepRun2 := by
    simp only [runCalls, sweepRun1_step, sweepRun2_step]
  rw [e1, e2, sweepRun2_step]
  exact ⟨rfl, by decide, by decide, sweepRun3_step.1⟩

/-- C10, as the code has it: when `ip` is in the blocked map with a timer
started at `t0`, a call `ddosTest(ip, 1)` (previous weight 0) at a time `t`
with `t - t0 ≥ DdosBanPeriod` returns true exactly when the window weight of
`ip` after the call is below `DdosLimit`; it does so when this call resets
the window or `ip` has no weight in the window. -/
theorem ddosTest_after_ban_period (st : DdosState) (now : Int) (app : Application)
    (t0 : Int) (hip : (userIp app).1 ≠ [])
    (hblocked : QMap.find st.ddosWait (userIp app).1 = some t0)
    (hexp : DdosBanPeriod ≤ now - t0) :
    ((ddosTest st now app 1 0).1 = true ↔
      QMap.value (ddosTest st now app 1 0).2.ddos (userIp app).1 0 < DdosLimit) ∧
    ((windowResetDue st now ∨ QMap.find st.ddos (userIp app).1 = none) →
      (ddosTest st now app 1 0).1 = true) := by
  obtain ⟨_, _, _, g4⟩ := ddosWindowStep_frame (ddosWaitStep st now (userIp app).1).2 now
    (userIp app).1 1 0
  obtain ⟨w1, w2, w3⟩ := ddosWaitStep_window_frame st now (userIp app).1
  have hb : (ddosWaitStep st now (userIp app).1).1 = false := by
    rw [Bool.eq_false_iff]
    intro e
    obtain ⟨_, t, ht, hlt⟩ := (ddosWaitStep_flag st now (userIp app).1).mp e
    rw [hblocked] at ht
    cases ht
    omega
  have hval : QMap.value (ddosTest st now app 1 0).2.ddos (userIp app).1 0 =
      (ddosWindowStep (ddosWaitStep st now (userIp app).1).2 now (userIp app).1 1 0).1 := by
    rw [ddosTest_steps st now app 1 0 (by norm_num) hip]
    split_ifs <;> simp [QMap.value, g4]
  have hres : (ddosTest st now app 1 0).1 = true ↔
      (ddosWindowStep (ddosWaitStep st now (userIp app).1).2 now (userIp app).1 1 0).1 <
        DdosLimit := by
    rw [ddosTest_steps st now app 1 0 (by norm_num) hip]
    simp [hb]
  refine ⟨by rw [hval]; exact hres, ?_⟩
  intro h
  rw [hres]
  have hx : (ddosWindowStep (ddosWaitStep st now (userIp app).1).2 now (userIp app).1 1 0).1 =
      1 := by
    rcases h with h | h
    · rw [ddosWindowStep_reset _ _ _ _ _ ⟨w3.trans h.1, by rw [w2]; exact h.2⟩]
      norm_num
    · rw [ddosWindowStep_absent _ _ _ _ _ (by rw [w1]; exact h)]
      norm_num
  rw [hx]
  norm_num [DdosLimit]

/-- C10, at `clientA` blocked at time 0 and silent since: its call with
weight 1 at time 60000 returns true. -/
theorem ddosTest_after_ban_period_witness :
    (ddosTest banRun1 60000 clientA 1 0).1 = true :=
  (ddosTest_after_ban_period banRun1 60000 clientA 0 (by decide) (by decide)
    (by decide)).2 (Or.inl ⟨by decide, by decide⟩)

/-- C10 fails as stated: `clientA` is blocked at time 0, calls again with
weight 10000 at time 55000 while blocked, and its call with weight 1 at time
60000, a full `DdosBanPeriod` after the block, returns false: the weight
charged while blocked is still in the window. -/
theorem ddosTest_still_blocked_after_ban_period :
    QMap.find (runCalls DdosState.init [⟨0, clientA, 10000, 0⟩]).ddosWait
      (userIp clientA).1 = some 0 ∧
    DdosBanPeriod ≤ (60000 : Int) - 0 ∧
    (ddosTest (runCalls DdosState.init
        [⟨0, clientA, 10000, 0⟩, ⟨55000, clientA, 10000, 0⟩]) 60000 clientA 1 0).1 = false := by
  have e1 : runCalls DdosState.init [⟨0, clientA, 10000, 0⟩] = banRun1 := by
    simp only [runCalls, banRun1_step]
  have e2 : runCalls DdosState.init [⟨0, clientA, 10000, 0⟩, ⟨55000, clientA, 10000, 0⟩] =
      banRun2 := by
    simp only [runCalls, banRun1_step, banRun2_step]
  rw [e1, e2]
  exact ⟨by decide, by decide, banRun3_step⟩

/-! ## More facts about the window step of `ddosTest` -/

/-- The accumulated weight of the window step, by cases on the reset. -/
theorem ddosWindowStep_value (st : DdosState) (now : Int) (ip : QString)
    (weight previousWeight : ℚ) :
    (windowResetDue st now →
      (ddosWindowStep st now ip weight previousWeight).1 =
        0 + weight - (if previousWeight > 0 then previousWeight else 0)) ∧
    (¬ windowResetDue st now →
      (ddosWindowStep st now ip weight previousWeight).1 =
        QMap.value st.ddos ip 0 + weight - (if previousWeight > 0 then previousWeight else 0)) := by
  have hp := DdosPeriod_pos
  constructor
  · intro h
    rw [ddosWindowStep_reset st now ip weight previousWeight h]
    split_ifs <;> ring
  · intro h
    unfold windowResetDue at h
    unfold ddosWindowStep
    cases hs : st.ddosTimerStarted
    · have : ¬ (DdosPeriod ≤ 0) := not_le.mpr hp
      simp [this]
      split_ifs <;> ring
    · have h2 : ¬ (DdosPeriod ≤ now - st.ddosTimer) := fun e => h ⟨hs, e⟩
      simp [h2]
      split_ifs <;> ring

/-- The window map and timer after the window step, by cases on the reset. -/
theorem ddosWindowStep_map (st : DdosState) (now : Int) (ip : QString)
    (weight previousWeight : ℚ) :
    (windowResetDue st now →
      (ddosWindowStep st now ip weight previousWeight).2.ddosTimer = now ∧
      (ddosWindowStep st now ip weight previousWeight).2.ddosTimerStarted = true ∧
      ∀ k, k ≠ ip →
        QMap.find (ddosWindowStep st now ip weight previousWeight).2.ddos k = none) ∧
    (¬ windowResetDue st now →
      ∀ k, k ≠ ip →
        QMap.find (ddosWindowStep st now ip weight previousWeight).2.ddos k =
          QMap.find st.ddos k) := by
  have hp := DdosPeriod_pos
  constructor
  · rintro ⟨hs, hd⟩
    unfold ddosWindowStep
    simp only [hs, Bool.not_true, Bool.false_eq_true, if_false, ge_iff_le, hd, if_true]
    refine ⟨trivial, trivial, ?_⟩
    intro k hk
    rw [QMap.find_insert_ne _ _ _ _ (Ne.symm hk)]
    rfl
  · intro h k hk
    unfold windowResetDue at h
    unfold ddosWindowStep
    cases hs : st.ddosTimerStarted
    · have : ¬ (DdosPeriod ≤ 0) := not_le.mpr hp
      simp only [Bool.not_false, if_true, sub_self, ge_iff_le, this, if_false]
      rw [QMap.find_insert_ne _ _ _ _ (Ne.symm hk)]
    · have h2 : ¬ (DdosPeriod ≤ now - st.ddosTimer) := fun e => h ⟨hs, e⟩
      simp only [Bool.not_true, Bool.false_eq_true, if_false, ge_iff_le, h2]
      rw [QMap.find_insert_ne _ _ _ _ (Ne.symm hk)]

/-- The window map after a call that is not a no-op is the one of its window
step. -/
theorem ddosTest_ddos (st : DdosState) (now : Int) (app : Application)
    (weight previousWeight : ℚ) (hw : 0 < weight) (hip : (userIp app).1 ≠ []) :
    (ddosTest st now app weight previousWeight).2.ddos =
      (ddosWindowStep (ddosWaitStep st now (userIp app).1).2 now (userIp app).1
        weight previousWeight).2.ddos ∧
    (ddosTest st now app weight previousWeight).2.ddosTimer =
      (ddosWindowStep (ddosWaitStep st now (userIp app).1).2 now (userIp app).1
        weight previousWeight).2.ddosTimer ∧
    (ddosTest st now app weight previousWeight).2.ddosTimerStarted =
      (ddosWindowStep (ddosWaitStep st now (userIp app).1).2 now (userIp app).1
        weight previousWeight).2.ddosTimerStarted := by
  rw [ddosTest_steps st now app weight previousWeight hw hip]
  split_ifs <;> exact ⟨rfl, rfl, rfl⟩

/-- The wait step does not change whether the window reset is due. -/
theorem windowResetDue_waitStep (st : DdosState) (now : Int) (ip : QString) :
    windowResetDue (ddosWaitStep st now ip).2 now ↔ windowResetDue st now := by
  obtain ⟨_, w2, w3⟩ := ddosWaitStep_window_frame st now ip
  unfold windowResetDue
  rw [w2, w3]


/-! ## Claims on the window of the DDoS guard -/

/-- C11, as the code has it: after a call with positive weight and non-empty
address, the window weight of the address is its weight before the call (0 if
absent or if this call reset the window) plus `weight`, minus `previousWeight`
when `previousWeight` is positive; a `previousWeight` that is zero or negative
is not subtracted. -/
theorem ddosTest_window_weight (st : DdosState) (now : Int) (app : Application)
    (weight previousWeight : ℚ) (hw : 0 < weight) (hip : (userIp app).1 ≠ []) :
    (windowResetDue st now →
      QMap.find (ddosTest st now app weight previousWeight).2.ddos (userIp app).1 =
        some (0 + weight - (if previousWeight > 0 then previousWeight else 0))) ∧
    (¬ windowResetDue st now →
      QMap.find (ddosTest st now app weight previousWeight).2.ddos (userIp app).1 =
        some (QMap.value st.ddos (userIp app).1 0 + weight -
          (if previousWeight > 0 then previousWeight else 0))) := by
  obtain ⟨e, _, _⟩ := ddosTest_ddos st now app weight previousWeight hw hip
  obtain ⟨_, _, _, g4⟩ := ddosWindowStep_frame (ddosWaitStep st now (userIp app).1).2 now
    (userIp app).1 weight previousWeight
  obtain ⟨w1, _, _⟩ := ddosWaitStep_window_frame st now (userIp app).1
  obtain ⟨v1, v2⟩ := ddosWindowStep_value (ddosWaitStep st now (userIp app).1).2 now
    (userIp app).1 weight previousWeight
  rw [e, g4]
  constructor
  · intro h
    rw [v1 ((windowResetDue_waitStep st now _).mpr h)]
  · intro h
    rw [v2 (fun e' => h ((windowResetDue_waitStep st now _).mp e')), w1]

/-- C11, at a call of `clientA` with weight 3 and previous weight 2 in the
state `sweepRun1`, where its window weight is 1: the weight afterwards is
`1 + 3 - 2`. -/
theorem ddosTest_window_weight_witness :
    QMap.find (ddosTest sweepRun1 1000 clientA 3 2).2.ddos (userIp clientA).1 =
      some (QMap.value sweepRun1.ddos (userIp clientA).1 0 + 3 - (if (2 : ℚ) > 0 then 2 else 0)) :=
  (ddosTest_window_weight sweepRun1 1000 clientA 3 2 (by norm_num) (by decide)).2
    (fun h => absurd h.2 (by decide))

/-- C11 fails as stated: a first call of `clientA` with weight 1 and previous
weight -5 leaves the window weight 1, not `0 + 1 - (-5)`. -/
theorem ddosTest_negative_previous_weight :
    QMap.find (ddosTest DdosState.init 0 clientA 1 (-5)).2.ddos (userIp clientA).1 =
      some 1 ∧
    (1 : ℚ) ≠ 0 + 1 - (-5) := by
  constructor
  · norm_num [ddosTest, ddosWaitStep, ddosWindowStep, userIp, directRequest, clientA,
      DdosState.init, QMap.find, QMap.value, QMap.insert, QMap.remove, DdosLimit,
      DdosClearPeriod, DdosBanPeriod, DdosPeriod, Hour, Minute, Second]
  · norm_num

/-- C12: on a call that is not a no-op, when the window timer is running and
has run for at least `DdosPeriod`, the timer is restarted at this call and the
window map holds afterwards nothing but the caller's weight of this call;
otherwise the window weights of all other addresses are unchanged. -/
theorem ddosTest_window_reset (st : DdosState) (now : Int) (app : Application)
    (weight previousWeight : ℚ) (hw : 0 < weight) (hip : (userIp app).1 ≠ []) :
    (windowResetDue st now →
      (ddosTest st now app weight previousWeight).2.ddosTimer = now ∧
      (ddosTest st now app weight previousWeight).2.ddosTimerStarted = true ∧
      QMap.find (ddosTest st now app weight previousWeight).2.ddos (userIp app).1 =
        some (0 + weight - (if previousWeight > 0 then previousWeight else 0)) ∧
      ∀ k, k ≠ (userIp app).1 →
        QMap.find (ddosTest st now app weight previousWeight).2.ddos k = none) ∧
    (¬ windowResetDue st now →
      ∀ k, k ≠ (userIp app).1 →
        QMap.find (ddosTest st now app weight previousWeight).2.ddos k =
          QMap.find st.ddos k) := by
  obtain ⟨e1, e2, e3⟩ := ddosTest_ddos st now app weight previousWeight hw hip
  obtain ⟨_, _, _, g4⟩ := ddosWindowStep_frame (ddosWaitStep st now (userIp app).1).2 now
    (userIp app).1 weight previousWeight
  obtain ⟨w1, _, _⟩ := ddosWaitStep_window_frame st now (userIp app).1
  obtain ⟨v1, _⟩ := ddosWindowStep_value (ddosWaitStep st now (userIp app).1).2 now
    (userIp app).1 weight previousWeight
  obtain ⟨m1, m2⟩ := ddosWindowStep_map (ddosWaitStep st now (userIp app).1).2 now
    (userIp app).1 weight previousWeight
  rw [e1, e2, e3]
  constructor
  · intro h
    have h' := (windowResetDue_waitStep st now (userIp app).1).mpr h
    obtain ⟨a, b, c⟩ := m1 h'
    exact ⟨a, b, by rw [g4, v1 h'], c⟩
  · intro h k hk
    rw [m2 (fun e' => h ((windowResetDue_waitStep st now _).mp e')) k hk, w1]

/-- C12, at the call of `clientA` at 3595000 in the state `sweepRun1`, whose
window timer was started at 0: the weight 1 charged before is gone, and
`clientB` has no weight. -/
theorem ddosTest_window_reset_witness :
    (ddosTest sweepRun1 3595000 clientA 10000 0).2.ddosTimer = 3595000 ∧
    QMap.find (ddosTest sweepRun1 3595000 clientA 10000 0).2.ddos (userIp clientA).1 =
      some (0 + 10000 - (if (0 : ℚ) > 0 then 0 else 0)) ∧
    QMap.find (ddosTest sweepRun1 3595000 clientA 10000 0).2.ddos (userIp clientB).1 = none :=
  have h := (ddosTest_window_reset sweepRun1 3595000 clientA 10000 0 (by norm_num)
    (by decide)).1 ⟨by decide, by decide⟩
  ⟨h.1, h.2.2.1, h.2.2.2 (userIp clientB).1 (by decide)⟩

/-- C13: a call with a weight that is not positive, or from a request with an
empty address, returns true and leaves the whole state as it was: both maps,
both timers and both started flags. -/
theorem ddosTest_noop (st : DdosState) (now : Int) (app : Application)
    (weight previousWeight : ℚ) (h : weight ≤ 0 ∨ (userIp app).1 = []) :
    ddosTest st now app weight previousWeight = (true, st) := by
  unfold ddosTest
  rcases h with h | h
  · simp [h]
  · by_cases hw : weight ≤ 0
    · simp [hw]
    · simp [hw, h]

/-- C13, at a call with weight 0 and at a call with an empty address, both
in the blocked state `banRun1`. -/
theorem ddosTest_noop_witness :
    ddosTest banRun1 5 clientA 0 0 = (true, banRun1) ∧
    ddosTest banRun1 5 (directRequest []) 7 0 = (true, banRun1) :=
  ⟨ddosTest_noop banRun1 5 clientA 0 0 (Or.inl (le_refl 0)),
    ddosTest_noop banRun1 5 (directRequest []) 7 0 (Or.inr (by decide))⟩

/-! ## More facts about the ban gate -/

/-- The flag of `testBanAjax`, as a Boolean expression. -/
theorem testBanAjax_flag (env : BanEnv) (app : Application) (proposedAction : Int)
    (board : QString) :
    (testBanAjax env app proposedAction board).1 =
      (decide (ipBanLevel env.ipBanCache env.ipBanResource (userIp app).1 < proposedAction) &&
        ((env.userBanInfo (userIp app).1).2 &&
          (!QMap.contains (env.userBanInfo (userIp app).1).1 board ||
            decide ((QMap.value (env.userBanInfo (userIp app).1).1 board
              BanInfo.default).level < proposedAction)))) := by
  unfold testBanAjax
  by_cases h1 : proposedAction ≤ ipBanLevel env.ipBanCache env.ipBanResource (userIp app).1
  · simp [h1]
  · have h1' := not_le.mp h1
    simp only [ge_iff_le, h1, if_false, h1', decide_True, Bool.true_and]
    cases h2 : (env.userBanInfo (userIp app).1).2
    · simp
    · cases h3 : QMap.contains (env.userBanInfo (userIp app).1).1 board
      · simp
      · by_cases h4 : proposedAction ≤
            (QMap.value (env.userBanInfo (userIp app).1).1 board BanInfo.default).level
        · simp [h4]
        · simp [h4, not_le.mp h4]

/-- The flag of `testBanNonAjax`, as a Boolean expression. -/
theorem testBanNonAjax_flag (env : BanEnv) (app : Application) (proposedAction : Int)
    (board : QString) :
    (testBanNonAjax env app proposedAction board).1 =
      (decide (ipBanLevel env.ipBanCache env.ipBanResource (userIp app).1 < proposedAction) &&
        ((env.userBanInfo (userIp app).1).2 &&
          decide ((QMap.value (env.userBanInfo (userIp app).1).1 board
            BanInfo.default).level < proposedAction))) := by
  unfold testBanNonAjax
  by_cases h1 : proposedAction ≤ ipBanLevel env.ipBanCache env.ipBanResource (userIp app).1
  · simp [h1]
  · have h1' := not_le.mp h1
    simp only [ge_iff_le, h1, if_false, h1', decide_True, Bool.true_and]
    cases h2 : (env.userBanInfo (userIp app).1).2
    · simp
    · by_cases h4 : proposedAction ≤
          (QMap.value (env.userBanInfo (userIp app).1).1 board BanInfo.default).level
      · simp [h4]
      · simp [h4, not_le.mp h4]

/-- The value of a key that the map does not contain is the default. -/
theorem QMap.value_of_not_contains {α : Type} (m : QMap α) (k : QString) (d : α)
    (h : QMap.contains m k = false) : QMap.value m k d = d := by
  unfold QMap.contains at h
  unfold QMap.value
  cases hf : QMap.find m k with
  | none => rfl
  | some v => rw [hf] at h; simp at h

/-- C19: for a proposed action of at least 1, such as posting (1) and reading
(10), `testBanAjax` and `testBanNonAjax` return the same flag; and when the
look-up succeeds and the records hold for the board either nothing or a
record of level 0, each of them allows the action exactly when the IP-range
level is below the proposed action. -/
theorem testBan_level_zero (env : BanEnv) (app : Application) (proposedAction : Int)
    (board : QString) (hpa : 1 ≤ proposedAction) :
    (testBanAjax env app proposedAction board).1 =
      (testBanNonAjax env app proposedAction board).1 ∧
    ((env.userBanInfo (userIp app).1).2 = true →
      (QMap.contains (env.userBanInfo (userIp app).1).1 board = false ∨
        (QMap.value (env.userBanInfo (userIp app).1).1 board BanInfo.default).level = 0) →
      ((testBanAjax env app proposedAction board).1 = true ↔
        ipBanLevel env.ipBanCache env.ipBanResource (userIp app).1 < proposedAction) ∧
      ((testBanNonAjax env app proposedAction board).1 = true ↔
        ipBanLevel env.ipBanCache env.ipBanResource (userIp app).1 < proposedAction)) := by
  have hl : (0 : Int) < proposedAction := by omega
  rw [testBanAjax_flag, testBanNonAjax_flag]
  constructor
  · cases hc : QMap.contains (env.userBanInfo (userIp app).1).1 board
    · have hv := QMap.value_of_not_contains _ _ BanInfo.default hc
      have hd : BanInfo.default.level < proposedAction := hl
      simp [hv, hd]
    · simp
  · intro hok hrec
    have hzero : (QMap.value (env.userBanInfo (userIp app).1).1 board BanInfo.default).level
        = 0 := by
      rcases hrec with h | h
      · rw [QMap.value_of_not_contains _ _ BanInfo.default h]
        rfl
      · exact h
    simp [hok, hzero, hl]

/-- C19, at the environment whose record for `b` has level 0: posting on `b`
is allowed by both variants, which agree. -/
theorem testBan_level_zero_witness :
    (testBanAjax unbanEnv clientB 1 "b".toList).1 =
      (testBanNonAjax unbanEnv clientB 1 "b".toList).1 ∧
    (testBanAjax unbanEnv clientB 1 "b".toList).1 = true ∧
    (testBanNonAjax unbanEnv clientB 1 "b".toList).1 = true :=
  have h := testBan_level_zero unbanEnv clientB 1 "b".toList (by decide)
  ⟨h.1, (h.2 rfl (Or.inr (by decide))).1.mpr (by decide),
    (h.2 rfl (Or.inr (by decide))).2.mpr (by decide)⟩

/-! ## Claim on the default of `max_file_size` -/

/-- C20: with no setting configured, `maxInfo(MaxFileSize, board)` returns 10
for every board name, not the 10485760 that the settings description
documents. -/
theorem maxInfo_MaxFileSize_unset (board : QString) :
    maxInfo [] MaxInfo.MaxFileSize board = 10 ∧ (10 : Nat) ≠ documentedMaxFileSize := by
  constructor
  · unfold maxInfo
    cases board <;> rfl
  · decide

/-! ## Facts about the hashpass codec -/

set_option maxRecDepth 100000 in
/-- The text of a byte: two hexadecimal digits that `toUShort` reads back. -/
theorem hexPair_byte :
    ∀ n, n < 256 → (hexPair n).length = 2 ∧ (hexPair n).all isHexDigit = true ∧
      '-' ∉ hexPair n ∧ toUShort16 (hexPair n) = (n, true) := by
  decide

set_option maxRecDepth 100000 in
/-- Two hexadecimal digits read by `toUShort` and written back by `toString`
come back in lower case. -/
theorem hexPair_toUShort16 :
    ∀ x ∈ hexChars, ∀ y ∈ hexChars,
      toUShort16 [x, y] = (16 * hexValue x + hexValue y, true) ∧
      16 * hexValue x + hexValue y < 256 ∧
      hexPair (16 * hexValue x + hexValue y) = [x.toLower, y.toLower] := by
  decide

theorem mem_hexChars (c : Char) (h : isHexDigit c = true) : c ∈ hexChars := by
  have hc : Char.ofNat c.toNat = c := Char.ofNat_toNat c
  unfold isHexDigit at h
  simp only [Bool.or_eq_true, Bool.and_eq_true, decide_eq_true_eq] at h
  have : c.toNat = 48 ∨ c.toNat = 49 ∨ c.toNat = 50 ∨ c.toNat = 51 ∨ c.toNat = 52 ∨
      c.toNat = 53 ∨ c.toNat = 54 ∨ c.toNat = 55 ∨ c.toNat = 56 ∨ c.toNat = 57 ∨
      c.toNat = 97 ∨ c.toNat = 98 ∨ c.toNat = 99 ∨ c.toNat = 100 ∨ c.toNat = 101 ∨
      c.toNat = 102 ∨ c.toNat = 65 ∨ c.toNat = 66 ∨ c.toNat = 67 ∨ c.toNat = 68 ∨
      c.toNat = 69 ∨ c.toNat = 70 := by omega
  rw [← hc]
  rcases this with e | e | e | e | e | e | e | e | e | e | e | e | e | e | e | e | e | e |
    e | e | e | e <;> rw [e] <;> decide

/-- A list of length two is made of two elements. -/
theorem length_two {α : Type} (l : List α) (h : l.length = 2) : ∃ a b, l = [a, b] := by
  match l, h with
  | [a, b], _ => exact ⟨a, b, rfl⟩

/-- A list of length eight is made of eight elements. -/
theorem length_eight {α : Type} (l : List α) (h : l.length = 8) :
    ∃ a b c d e f g i, l = [a, b, c, d, e, f, g, i] := by
  match l, h with
  | [a, b, c, d, e, f, g, i], _ => exact ⟨a, b, c, d, e, f, g, i, rfl⟩

/-- A list of length twenty is made of five runs of four elements. -/
theorem length_twenty {α : Type} (l : List α) (h : l.length = 20) :
    ∃ a0 a1 a2 a3 b0 b1 b2 b3 c0 c1 c2 c3 d0 d1 d2 d3 e0 e1 e2 e3, l =
      [a0, a1, a2, a3, b0, b1, b2, b3, c0, c1, c2, c3, d0, d1, d2, d3, e0, e1, e2, e3] := by
  match l, h with
  | [a0, a1, a2, a3, b0, b1, b2, b3, c0, c1, c2, c3, d0, d1, d2, d3, e0, e1, e2, e3], _ =>
    exact ⟨a0, a1, a2, a3, b0, b1, b2, b3, c0, c1, c2, c3, d0, d1, d2, d3, e0, e1, e2, e3,
      rfl⟩

/-- The text that the loop of `toString` builds from twenty bytes. -/
theorem toStringLoop_twenty
    (a0 a1 a2 a3 b0 b1 b2 b3 c0 c1 c2 c3 d0 d1 d2 d3 e0 e1 e2 e3 : Fin 256) :
    toStringLoop
      [a0, a1, a2, a3, b0, b1, b2, b3, c0, c1, c2, c3, d0, d1, d2, d3, e0, e1, e2, e3]
      (List.range 20) [] =
    hexGroup a0 a1 a2 a3 ++ '-' :: (hexGroup b0 b1 b2 b3 ++ '-' :: (hexGroup c0 c1 c2 c3 ++
      '-' :: (hexGroup d0 d1 d2 d3 ++ '-' :: hexGroup e0 e1 e2 e3))) := by
  have hr : List.range 20 =
      [0, 1, 2, 3, 4, 5, 6, 7, 8, 9, 10, 11, 12, 13, 14, 15, 16, 17, 18, 19] := by decide
  rw [hr]
  simp [toStringLoop, hexGroup, List.getD]


/-- The byte of a number below 256. -/
theorem byte_mk_val (a : Fin 256) (h : a.val % 256 < 256) : (⟨a.val % 256, h⟩ : Fin 256) = a := by
  apply Fin.ext
  exact Nat.mod_eq_of_lt a.isLt

/-- The text of four bytes is a group that `toHashpass` accepts and reads
back. -/
theorem hexGroup_decodes (a b c d : Fin 256) :
    (hexGroup a b c d).length = 8 ∧ exactMatchHex8 (hexGroup a b c d) = true ∧
    '-' ∉ hexGroup a b c d ∧
    hashpassChars (hexGroup a b c d) [0, 1, 2, 3] = some [a, b, c, d] := by
  obtain ⟨la, ha, na, ta⟩ := hexPair_byte a.val a.isLt
  obtain ⟨lb, hb, nb, tb⟩ := hexPair_byte b.val b.isLt
  obtain ⟨lc, hc, nc, tc⟩ := hexPair_byte c.val c.isLt
  obtain ⟨ld, hd, nd, td⟩ := hexPair_byte d.val d.isLt
  obtain ⟨a1, a2, ea⟩ := length_two _ la
  obtain ⟨b1, b2, eb⟩ := length_two _ lb
  obtain ⟨c1, c2, ec⟩ := length_two _ lc
  obtain ⟨d1, d2, ed⟩ := length_two _ ld
  rw [ea] at ha na ta
  rw [eb] at hb nb tb
  rw [ec] at hc nc tc
  rw [ed] at hd nd td
  unfold hexGroup
  rw [ea, eb, ec, ed]
  simp only [List.all_cons, List.all_nil, Bool.and_true, Bool.and_eq_true] at ha hb hc hd
  simp only [List.mem_cons, List.mem_singleton, List.not_mem_nil, or_false, not_or] at na nb nc nd
  refine ⟨rfl, ?_, ?_, ?_⟩
  · simp [exactMatchHex8, ha, hb, hc, hd]
  · simp only [List.cons_append, List.nil_append, List.mem_cons, List.not_mem_nil, or_false,
      not_or]
    exact ⟨na.1, na.2, nb.1, nb.2, nc.1, nc.2, nd.1, nd.2⟩
  · simp [hashpassChars, mid, ta, tb, tc, td, byte_mk_val]

/-- What `toHashpass` returns on five groups that decode. -/
theorem toHashpass_of_groups (g0 g1 g2 g3 g4 : QString) (k0 k1 k2 k3 k4 : QByteArray)
    (l0 : g0.length = 8) (l1 : g1.length = 8) (l2 : g2.length = 8) (l3 : g3.length = 8)
    (l4 : g4.length = 8)
    (m0 : exactMatchHex8 g0 = true) (m1 : exactMatchHex8 g1 = true)
    (m2 : exactMatchHex8 g2 = true) (m3 : exactMatchHex8 g3 = true)
    (m4 : exactMatchHex8 g4 = true)
    (n0 : '-' ∉ g0) (n1 : '-' ∉ g1) (n2 : '-' ∉ g2) (n3 : '-' ∉ g3) (n4 : '-' ∉ g4)
    (d0 : hashpassChars g0 [0, 1, 2, 3] = some k0)
    (d1 : hashpassChars g1 [0, 1, 2, 3] = some k1)
    (d2 : hashpassChars g2 [0, 1, 2, 3] = some k2)
    (d3 : hashpassChars g3 [0, 1, 2, 3] = some k3)
    (d4 : hashpassChars g4 [0, 1, 2, 3] = some k4) :
    toHashpass (g0 ++ '-' :: (g1 ++ '-' :: (g2 ++ '-' :: (g3 ++ '-' :: g4)))) =
      (k0 ++ (k1 ++ (k2 ++ (k3 ++ k4))), true) := by
  have hs : split (g0 ++ '-' :: (g1 ++ '-' :: (g2 ++ '-' :: (g3 ++ '-' :: g4)))) '-' =
      [g0, g1, g2, g3, g4] := by
    rw [split_append _ _ _ n0, split_append _ _ _ n1, split_append _ _ _ n2,
      split_append _ _ _ n3, split_of_not_mem _ _ n4]
  unfold toHashpass
  simp [hs, l0, l1, l2, l3, l4, toHashpassLoop, m0, m1, m2, m3, m4, d0, d1, d2, d3, d4]

/-- What `toString` and `toHashpass` return on twenty bytes. -/
theorem toString_twenty
    (a0 a1 a2 a3 b0 b1 b2 b3 c0 c1 c2 c3 d0 d1 d2 d3 e0 e1 e2 e3 : Fin 256) :
    toString
      [a0, a1, a2, a3, b0, b1, b2, b3, c0, c1, c2, c3, d0, d1, d2, d3, e0, e1, e2, e3] =
      (hexGroup a0 a1 a2 a3 ++ '-' :: (hexGroup b0 b1 b2 b3 ++ '-' :: (hexGroup c0 c1 c2 c3 ++
        '-' :: (hexGroup d0 d1 d2 d3 ++ '-' :: hexGroup e0 e1 e2 e3))), true) ∧
    toHashpass
      (hexGroup a0 a1 a2 a3 ++ '-' :: (hexGroup b0 b1 b2 b3 ++ '-' :: (hexGroup c0 c1 c2 c3 ++
        '-' :: (hexGroup d0 d1 d2 d3 ++ '-' :: hexGroup e0 e1 e2 e3)))) =
      ([a0, a1, a2, a3, b0, b1, b2, b3, c0, c1, c2, c3, d0, d1, d2, d3, e0, e1, e2, e3],
        true) := by
  obtain ⟨la, ma, na, da⟩ := hexGroup_decodes a0 a1 a2 a3
  obtain ⟨lb, mb, nb, db⟩ := hexGroup_decodes b0 b1 b2 b3
  obtain ⟨lc, mc, nc, dc⟩ := hexGroup_decodes c0 c1 c2 c3
  obtain ⟨ld, md, nd, dd⟩ := hexGroup_decodes d0 d1 d2 d3
  obtain ⟨le, me, ne, de⟩ := hexGroup_decodes e0 e1 e2 e3
  have hd := toHashpass_of_groups _ _ _ _ _ _ _ _ _ _ la lb lc ld le ma mb mc md me
    na nb nc nd ne da db dc dd de
  have hd' : toHashpass
      (hexGroup a0 a1 a2 a3 ++ '-' :: (hexGroup b0 b1 b2 b3 ++ '-' :: (hexGroup c0 c1 c2 c3 ++
        '-' :: (hexGroup d0 d1 d2 d3 ++ '-' :: hexGroup e0 e1 e2 e3)))) =
      ([a0, a1, a2, a3, b0, b1, b2, b3, c0, c1, c2, c3, d0, d1, d2, d3, e0, e1, e2, e3],
        true) := by
    rw [hd]
    rfl
  refine ⟨?_, hd'⟩
  unfold toString
  have hlen : ([a0, a1, a2, a3, b0, b1, b2, b3, c0, c1, c2, c3, d0, d1, d2, d3, e0, e1, e2,
      e3] : QByteArray).length = 20 := rfl
  simp only [hlen, ne_eq, not_true_eq_false, if_false]
  rw [toStringLoop_twenty, hd']
  rfl

/-- Joining the parts of a text with the separator gives the text back. -/
theorem joinWith_split (sep : Char) (s : QString) : joinWith sep (split s sep) = s := by
  induction s with
  | nil => rfl
  | cons c cs ih =>
    cases hs : split cs sep with
    | nil => exact absurd hs (split_ne_nil cs sep)
    | cons p ps =>
      rw [hs] at ih
      by_cases hc : c = sep
      · simp only [split, hc, if_true, hs, joinWith, List.nil_append]
        rw [ih]
      · simp only [split, hc, if_false, hs]
        cases ps with
        | nil =>
          simp only [joinWith] at ih ⊢
          rw [ih]
        | cons q qs =>
          simp only [joinWith, List.cons_append] at ih ⊢
          rw [ih]

/-- A list of length five is made of five elements. -/
theorem length_five {α : Type} (l : List α) (h : l.length = 5) :
    ∃ a b c d e, l = [a, b, c, d, e] := by
  match l, h with
  | [a, b, c, d, e], _ => exact ⟨a, b, c, d, e, rfl⟩

/-- A group that `exactMatchHex8` accepts has eight hexadecimal digits. -/
theorem exactMatchHex8_iff (g : QString) :
    exactMatchHex8 g = true ↔ (g.length = 8 ∧ ∀ c ∈ g, isHexDigit c = true) := by
  unfold exactMatchHex8
  simp [List.all_eq_true]

/-- The inner loop of `toHashpass` returns one byte per index. -/
theorem hashpassChars_length (ss : QString) :
    ∀ (l : List Nat) (c : QByteArray), hashpassChars ss l = some c → c.length = l.length := by
  intro l
  induction l with
  | nil =>
    intro c h
    simp only [hashpassChars, Option.some.injEq] at h
    rw [← h]
    rfl
  | cons i l ih =>
    intro c h
    unfold hashpassChars at h
    simp only at h
    split_ifs at h
    cases hr : hashpassChars ss l with
    | none => rw [hr] at h; simp at h
    | some c' =>
      rw [hr] at h
      simp only [Option.some.injEq] at h
      rw [← h, List.length_cons, ih c' hr, List.length_cons]

/-- The outer loop of `toHashpass` fails on a group that is not made of eight
hexadecimal digits. -/
theorem toHashpassLoop_bad (sl : List QString) :
    ∀ ba : QByteArray, (∃ g ∈ sl, ¬ (g.length = 8 ∧ ∀ c ∈ g, isHexDigit c = true)) →
      toHashpassLoop sl ba = ([], false) := by
  induction sl with
  | nil => intro ba h; obtain ⟨g, hg, _⟩ := h; simp at hg
  | cons ss sl ih =>
    intro ba h
    unfold toHashpassLoop
    by_cases hm : exactMatchHex8 ss = true
    · have hl := ((exactMatchHex8_iff ss).mp hm).1
      have hrest : ∃ g ∈ sl, ¬ (g.length = 8 ∧ ∀ c ∈ g, isHexDigit c = true) := by
        obtain ⟨g, hg, hb⟩ := h
        rcases List.mem_cons.mp hg with e | e
        · exact absurd ((exactMatchHex8_iff ss).mp hm) (e ▸ hb)
        · exact ⟨g, e, hb⟩
      simp only [hl, ne_eq, not_true_eq_false, decide_False, hm, Bool.not_true, Bool.or_self,
        Bool.false_eq_true, if_false]
      cases hashpassChars ss [0, 1, 2, 3] with
      | none => rfl
      | some c => exact ih _ hrest
    · simp [hm]

/-- When the outer loop of `toHashpass` succeeds, every group was accepted and
four bytes were appended for each. -/
theorem toHashpassLoop_ok (sl : List QString) :
    ∀ ba : QByteArray, (toHashpassLoop sl ba).2 = true →
      (∀ g ∈ sl, exactMatchHex8 g = true) ∧
      (toHashpassLoop sl ba).1.length = ba.length + 4 * sl.length := by
  induction sl with
  | nil => intro ba _; exact ⟨by simp, by simp [toHashpassLoop]⟩
  | cons ss sl ih =>
    intro ba h
    unfold toHashpassLoop at h ⊢
    by_cases hm : exactMatchHex8 ss = true
    · have hl := ((exactMatchHex8_iff ss).mp hm).1
      simp only [hl, ne_eq, not_true_eq_false, decide_False, hm, Bool.not_true, Bool.or_self,
        Bool.false_eq_true, if_false] at h ⊢
      cases hc : hashpassChars ss [0, 1, 2, 3] with
      | none => rw [hc] at h; simp at h
      | some c =>
        rw [hc] at h
        simp only at h ⊢
        obtain ⟨i1, i2⟩ := ih _ h
        have hlen := hashpassChars_length ss _ c hc
        refine ⟨?_, ?_⟩
        · intro g hg
          rcases List.mem_cons.mp hg with e | e
          · exact e ▸ hm
          · exact i1 g e
        · rw [i2, List.length_append, hlen]
          simp only [List.length_cons, List.length_nil]
          omega
    · simp [hm] at h


/-- A group that `toHashpass` accepts decodes to four bytes whose text is the
group in lower case. -/
theorem group_decodes_lower (g : QString) (hm : exactMatchHex8 g = true) :
    g.length = 8 ∧ '-' ∉ g ∧
    ∃ a b c d : Fin 256, hashpassChars g [0, 1, 2, 3] = some [a, b, c, d] ∧
      hexGroup a b c d = asciiLower g := by
  obtain ⟨hl, hh⟩ := (exactMatchHex8_iff g).mp hm
  refine ⟨hl, ?_, ?_⟩
  · intro hmem
    have := hh '-' hmem
    revert this
    decide
  · obtain ⟨x0, x1, x2, x3, x4, x5, x6, x7, rfl⟩ := length_eight g hl
    have m0 := mem_hexChars x0 (hh x0 (by simp))
    have m1 := mem_hexChars x1 (hh x1 (by simp))
    have m2 := mem_hexChars x2 (hh x2 (by simp))
    have m3 := mem_hexChars x3 (hh x3 (by simp))
    have m4 := mem_hexChars x4 (hh x4 (by simp))
    have m5 := mem_hexChars x5 (hh x5 (by simp))
    have m6 := mem_hexChars x6 (hh x6 (by simp))
    have m7 := mem_hexChars x7 (hh x7 (by simp))
    obtain ⟨ta, ba, pa⟩ := hexPair_toUShort16 x0 m0 x1 m1
    obtain ⟨tb, bb, pb⟩ := hexPair_toUShort16 x2 m2 x3 m3
    obtain ⟨tc, bc, pc⟩ := hexPair_toUShort16 x4 m4 x5 m5
    obtain ⟨td, bd, pd⟩ := hexPair_toUShort16 x6 m6 x7 m7
    refine ⟨⟨(16 * hexValue x0 + hexValue x1) % 256, Nat.mod_lt _ (by decide)⟩,
      ⟨(16 * hexValue x2 + hexValue x3) % 256, Nat.mod_lt _ (by decide)⟩,
      ⟨(16 * hexValue x4 + hexValue x5) % 256, Nat.mod_lt _ (by decide)⟩,
      ⟨(16 * hexValue x6 + hexValue x7) % 256, Nat.mod_lt _ (by decide)⟩, ?_, ?_⟩
    · simp [hashpassChars, mid, ta, tb, tc, td]
    · unfold hexGroup
      simp only [Nat.mod_eq_of_lt ba, Nat.mod_eq_of_lt bb, Nat.mod_eq_of_lt bc,
        Nat.mod_eq_of_lt bd, pa, pb, pc, pd]
      rfl

/-- The lower case of a text with a `-` in it. -/
theorem asciiLower_append_dash (g rest : QString) :
    asciiLower (g ++ '-' :: rest) = asciiLower g ++ '-' :: asciiLower rest := by
  unfold asciiLower
  rw [List.map_append, List.map_cons]
  rfl

/-- What `toString` returns on the bytes of an accepted text, and what
`toHashpass` returns on its lower case. -/
theorem toHashpass_accepted (s : QString) (h : (toHashpass s).2 = true) :
    (toHashpass s).1.length = 20 ∧
    toString (toHashpass s).1 = (asciiLower s, true) ∧
    toHashpass (asciiLower s) = toHashpass s := by
  have hsplit : (split s '-').length = 5 ∧ (toHashpassLoop (split s '-') []).2 = true := by
    unfold toHashpass at h
    by_cases h44 : s.length = 44
    · by_cases h5 : (split s '-').length = 5
      · simpa [h44, h5] using h
      · simp [h44, h5] at h
    · simp [h44] at h
  obtain ⟨h5, hloop⟩ := hsplit
  obtain ⟨g0, g1, g2, g3, g4, hs⟩ := length_five _ h5
  have hjoin : s = g0 ++ '-' :: (g1 ++ '-' :: (g2 ++ '-' :: (g3 ++ '-' :: g4))) := by
    have := joinWith_split '-' s
    rw [hs] at this
    simpa [joinWith] using this.symm
  have hall := (toHashpassLoop_ok _ _ hloop).1
  rw [hs] at hall
  obtain ⟨l0, n0, a0, a1, a2, a3, d0, e0⟩ := group_decodes_lower g0 (hall g0 (by simp))
  obtain ⟨l1, n1, b0, b1, b2, b3, d1, e1⟩ := group_decodes_lower g1 (hall g1 (by simp))
  obtain ⟨l2, n2, c0, c1, c2, c3, d2, e2⟩ := group_decodes_lower g2 (hall g2 (by simp))
  obtain ⟨l3, n3, f0, f1, f2, f3, d3, e3⟩ := group_decodes_lower g3 (hall g3 (by simp))
  obtain ⟨l4, n4, i0, i1, i2, i3, d4, e4⟩ := group_decodes_lower g4 (hall g4 (by simp))
  have hdec := toHashpass_of_groups g0 g1 g2 g3 g4 _ _ _ _ _ l0 l1 l2 l3 l4
    (hall g0 (by simp)) (hall g1 (by simp)) (hall g2 (by simp)) (hall g3 (by simp))
    (hall g4 (by simp)) n0 n1 n2 n3 n4 d0 d1 d2 d3 d4
  rw [← hjoin] at hdec
  have hbytes : toHashpass s =
      ([a0, a1, a2, a3, b0, b1, b2, b3, c0, c1, c2, c3, f0, f1, f2, f3, i0, i1, i2, i3],
        true) := by
    rw [hdec]
    rfl
  obtain ⟨t1, t2⟩ := toString_twenty a0 a1 a2 a3 b0 b1 b2 b3 c0 c1 c2 c3 f0 f1 f2 f3
    i0 i1 i2 i3
  have hlow : asciiLower s =
      hexGroup a0 a1 a2 a3 ++ '-' :: (hexGroup b0 b1 b2 b3 ++ '-' :: (hexGroup c0 c1 c2 c3 ++
        '-' :: (hexGroup f0 f1 f2 f3 ++ '-' :: hexGroup i0 i1 i2 i3))) := by
    rw [hjoin, asciiLower_append_dash, asciiLower_append_dash, asciiLower_append_dash,
      asciiLower_append_dash, e0, e1, e2, e3, e4]
  rw [hbytes, hlow]
  exact ⟨rfl, t1, t2⟩


/-! ## Claims on the hashpass codec -/

/-- C14: `toString(b)` succeeds exactly when `b` has 20 bytes, and for a
20-byte `b`, `toHashpass(toString(b))` succeeds and returns `b`. -/
theorem toString_ok_iff (b : QByteArray) :
    ((toString b).2 = true ↔ b.length = 20) ∧
    (b.length = 20 → toHashpass (toString b).1 = (b, true)) := by
  by_cases h : b.length = 20
  · obtain ⟨a0, a1, a2, a3, b0, b1, b2, b3, c0, c1, c2, c3, d0, d1, d2, d3, e0, e1, e2, e3,
      rfl⟩ := length_twenty b h
    obtain ⟨t1, t2⟩ := toString_twenty a0 a1 a2 a3 b0 b1 b2 b3 c0 c1 c2 c3 d0 d1 d2 d3
      e0 e1 e2 e3
    rw [t1]
    exact ⟨⟨fun _ => h, fun _ => rfl⟩, fun _ => t2⟩
  · refine ⟨⟨fun e => ?_, fun e => absurd e h⟩, fun e => absurd e h⟩
    unfold toString at e
    simp [h] at e

/-- C14, at the bytes `sampleHash`. -/
theorem toString_ok_iff_witness :
    (toString sampleHash).2 = true ∧
    toHashpass (toString sampleHash).1 = (sampleHash, true) :=
  ⟨(toString_ok_iff sampleHash).1.mpr rfl, (toString_ok_iff sampleHash).2 rfl⟩

/-- C15: `toHashpass` reports failure, with an empty byte array, for a text
whose length is not 44, for a text that does not split at `-` into five
groups, and for a text with a group that is not made of eight hexadecimal
digits; when it succeeds the result has 20 bytes. -/
theorem toHashpass_rejects_malformed (s : QString) :
    ((s.length ≠ 44 ∨ (split s '-').length ≠ 5 ∨
        ∃ g ∈ split s '-', ¬ (g.length = 8 ∧ ∀ c ∈ g, isHexDigit c = true)) →
      toHashpass s = ([], false)) ∧
    ((toHashpass s).2 = true → (toHashpass s).1.length = 20) := by
  constructor
  · intro h
    unfold toHashpass
    by_cases h44 : s.length = 44
    · by_cases h5 : (split s '-').length = 5
      · rcases h with h | h | h
        · exact absurd h44 h
        · exact absurd h5 h
        · simp only [h44, ne_eq, not_true_eq_false, if_false, h5]
          exact toHashpassLoop_bad _ _ h
      · simp [h44, h5]
    · simp [h44]
  · intro h
    exact (toHashpass_accepted s h).1

/-- C15, at a text that is too short, a text of length 44 with four groups, a
text of length 44 with a group of seven digits, and a text with the letter
`g` in a group. -/
theorem toHashpass_rejects_malformed_witness :
    toHashpass "00010203-04050607".toList = ([], false) ∧
    toHashpass "00010203-04050607-0809fafb-fcfdfeff0102030ab".toList = ([], false) ∧
    toHashpass "0001020-304050607-0809fafb-fcfdfeff-102030ab".toList = ([], false) ∧
    toHashpass "0001020g-04050607-0809fafb-fcfdfeff-102030ab".toList = ([], false) :=
  ⟨(toHashpass_rejects_malformed "00010203-04050607".toList).1 (Or.inl (by decide)),
    (toHashpass_rejects_malformed
      "00010203-04050607-0809fafb-fcfdfeff0102030ab".toList).1 (Or.inr (Or.inl (by decide))),
    (toHashpass_rejects_malformed
      "0001020-304050607-0809fafb-fcfdfeff-102030ab".toList).1
      (Or.inr (Or.inr ⟨"0001020".toList, by decide, by decide⟩)),
    (toHashpass_rejects_malformed
      "0001020g-04050607-0809fafb-fcfdfeff-102030ab".toList).1
      (Or.inr (Or.inr ⟨"0001020g".toList, by decide, by decide⟩))⟩

/-- C16, as the code has it: for a text `s` that `toHashpass` accepts,
`toString(toHashpass(s))` is `s` with its letters in lower case, hence `s`
itself when `s` has no capital letter; and two accepted texts decode to the
same bytes exactly when they are equal up to the case of their letters. -/
theorem toString_toHashpass_lower (s : QString) (h : (toHashpass s).2 = true) :
    toString (toHashpass s).1 = (asciiLower s, true) ∧
    (asciiLower s = s → toString (toHashpass s).1 = (s, true)) ∧
    ∀ t, (toHashpass t).2 = true →
      (toHashpass t = toHashpass s ↔ asciiLower t = asciiLower s) := by
  obtain ⟨_, r1, r2⟩ := toHashpass_accepted s h
  refine ⟨r1, fun e => by rw [r1, e], ?_⟩
  intro t ht
  obtain ⟨_, q1, q2⟩ := toHashpass_accepted t ht
  constructor
  · intro e
    rw [e, r1] at q1
    exact (Prod.mk.inj q1).1.symm
  · intro e
    rw [← q2, e, r2]

/-- C16, at a lower-case text: `toString(toHashpass(s))` is `s`. -/
theorem toString_toHashpass_lower_witness :
    toString (toHashpass "00010203-04050607-0809fafb-fcfdfeff-102030ab".toList).1 =
      ("00010203-04050607-0809fafb-fcfdfeff-102030ab".toList, true) :=
  (toString_toHashpass_lower "00010203-04050607-0809fafb-fcfdfeff-102030ab".toList
    (by decide)).2.1 (by decide)

/-- C16 fails as stated: `toHashpass` accepts the text
`0001020A-04050607-0809FAFB-fcfdfeff-102030ab`, `toString` of its bytes is
the lower-case text, which differs from it, and both texts decode to the same
bytes. -/
theorem toString_toHashpass_capitals :
    (toHashpass "0001020A-04050607-0809FAFB-fcfdfeff-102030ab".toList).2 = true ∧
    toString (toHashpass "0001020A-04050607-0809FAFB-fcfdfeff-102030ab".toList).1 =
      ("0001020a-04050607-0809fafb-fcfdfeff-102030ab".toList, true) ∧
    "0001020a-04050607-0809fafb-fcfdfeff-102030ab".toList ≠
      "0001020A-04050607-0809FAFB-fcfdfeff-102030ab".toList ∧
    toHashpass "0001020a-04050607-0809fafb-fcfdfeff-102030ab".toList =
      toHashpass "0001020A-04050607-0809FAFB-fcfdfeff-102030ab".toList := by
  decide

/-! ## Claim on the limits -/

theorem QVariant.toUInt_uint_small (n : Nat) (h : n < 2 ^ 32) :
    (QVariant.uint n).toUInt = n := by
  simp only [QVariant.toUInt]
  exact Nat.mod_eq_of_lt h

/-- The built-in defaults of the table of `maxInfo` fit in 32 bits. -/
theorem maxInfoMap_small (m : MaxInfo) (key : QString) (dflt : Nat)
    (h : maxInfoMap m = some (key, dflt)) : dflt < 2 ^ 32 := by
  cases m <;> simp only [maxInfoMap, Option.some.injEq, Prod.mk.injEq] at h <;>
    first
    | (obtain ⟨_, rfl⟩ := h; decide)
    | exact absurd h (by simp)

/-- What `maxInfo` returns for a kind of the table, by the settings that are
set. -/
theorem maxInfo_of_table (s : Settings) (m : MaxInfo) (board key : QString) (dflt : Nat)
    (hm : maxInfoMap m = some (key, dflt)) :
    maxInfo s m board =
      if board = [] then
        ((QMap.find s ("Board/".toList ++ key)).getD (QVariant.uint dflt)).toUInt
      else
        ((QMap.find s ("Board/".toList ++ board ++ "/".toList ++ key)).getD
          ((QMap.find s ("Board/".toList ++ key)).getD (QVariant.uint dflt))).toUInt := by
  unfold maxInfo
  rw [hm]
  cases board with
  | nil => simp [Settings.value, QMap.value]
  | cons c cs => simp [Settings.value, QMap.value]

/-- C21: for a kind of the table, `maxInfo` returns the board-specific setting
`Board/<board>/<key>` if it is set, otherwise the global setting `Board/<key>`
if it is set, otherwise the built-in default; with an empty board name only
the global setting and the default are consulted; the built-in defaults of
the seven kinds other than the file size are the documented ones; and a kind
that is not in the table yields 0. -/
theorem maxInfo_lookup_order (s : Settings) (board : QString) :
    (∀ m key dflt, maxInfoMap m = some (key, dflt) →
      (board ≠ [] → ∀ v,
        QMap.find s ("Board/".toList ++ board ++ "/".toList ++ key) = some v →
        maxInfo s m board = v.toUInt) ∧
      (board ≠ [] →
        QMap.find s ("Board/".toList ++ board ++ "/".toList ++ key) = none → ∀ v,
        QMap.find s ("Board/".toList ++ key) = some v → maxInfo s m board = v.toUInt) ∧
      (board ≠ [] →
        QMap.find s ("Board/".toList ++ board ++ "/".toList ++ key) = none →
        QMap.find s ("Board/".toList ++ key) = none → maxInfo s m board = dflt) ∧
      (board = [] → ∀ v,
        QMap.find s ("Board/".toList ++ key) = some v → maxInfo s m board = v.toUInt) ∧
      (board = [] →
        QMap.find s ("Board/".toList ++ key) = none → maxInfo s m board = dflt)) ∧
    (maxInfoMap MaxInfo.MaxEmailFieldLength = some ("max_email_length".toList, 150) ∧
      maxInfoMap MaxInfo.MaxNameFieldLength = some ("max_name_length".toList, 50) ∧
      maxInfoMap MaxInfo.MaxSubjectFieldLength = some ("max_subject_length".toList, 150) ∧
      maxInfoMap MaxInfo.MaxTextFieldLength = some ("max_text_length".toList, 15000) ∧
      maxInfoMap MaxInfo.MaxPasswordFieldLength = some ("max_password_length".toList, 150) ∧
      maxInfoMap MaxInfo.MaxFileCount = some ("max_file_count".toList, 1) ∧
      maxInfoMap MaxInfo.MaxLastPosts = some ("max_last_posts".toList, 3)) ∧
    (∀ n, maxInfo s (MaxInfo.other n) board = 0) := by
  refine ⟨?_, ⟨rfl, rfl, rfl, rfl, rfl, rfl, rfl⟩, fun n => rfl⟩
  intro m key dflt hm
  have hs := maxInfoMap_small m key dflt hm
  have hd := QVariant.toUInt_uint_small dflt hs
  rw [maxInfo_of_table s m board key dflt hm]
  refine ⟨?_, ?_, ?_, ?_, ?_⟩
  · intro hb v hv
    rw [if_neg hb, hv]
    rfl
  · intro hb h1 v hv
    rw [if_neg hb, h1, hv]
    rfl
  · intro hb h1 h2
    rw [if_neg hb, h1, h2]
    exact hd
  · intro hb v hv
    rw [if_pos hb, hv]
    rfl
  · intro hb h2
    rw [if_pos hb, h2]
    exact hd

/-- C21, at settings that set `Board/b/max_text_length` to the text `200` and
`Board/max_text_length` to 300: the board `b` gets 200, the board `c` gets
300, and the name length of `b`, which is not set, is 50. -/
theorem maxInfo_lookup_order_witness :
    maxInfo sampleSettings MaxInfo.MaxTextFieldLength "b".toList = 200 ∧
    maxInfo sampleSettings MaxInfo.MaxTextFieldLength "c".toList = 300 ∧
    maxInfo sampleSettings MaxInfo.MaxNameFieldLength "b".toList = 50 :=
  ⟨((maxInfo_lookup_order sampleSettings "b".toList).1 MaxInfo.MaxTextFieldLength
      "max_text_length".toList 15000 rfl).1 (by decide) (QVariant.text "200".toList)
      (by decide),
    ((maxInfo_lookup_order sampleSettings "c".toList).1 MaxInfo.MaxTextFieldLength
      "max_text_length".toList 15000 rfl).2.1 (by decide) (by decide) (QVariant.uint 300)
      (by decide),
    ((maxInfo_lookup_order sampleSettings "b".toList).1 MaxInfo.MaxNameFieldLength
      "max_name_length".toList 50 rfl).2.2.1 (by decide) (by decide) (by decide)⟩

/-! ## Claim on the lazily cached resources -/

/-- C22: on a cache miss with the resource file found, `customContent`,
`rules` and `news` return the object loaded from the file, whether the cache
accepts the insert or not. -/
theorem cached_resource_miss (envC : ResourceEnv QString)
    (envL : ResourceEnv (List QString)) (accepts : Bool)
    (hC : envC.cached = none ∧ envC.path ≠ [] ∧ envC.fileName ≠ [])
    (hL : envL.cached = none ∧ envL.path ≠ [] ∧ envL.fileName ≠ []) :
    customContent { envC with cacheAccepts := accepts } = envC.loaded ∧
    rules { envL with cacheAccepts := accepts } = envL.loaded ∧
    news { envL with cacheAccepts := accepts } = envL.loaded := by
  obtain ⟨c1, c2, c3⟩ := hC
  obtain ⟨l1, l2, l3⟩ := hL
  have e2 : envC.path.isEmpty = false := by cases h : envC.path <;> simp_all
  have e3 : envC.fileName.isEmpty = false := by cases h : envC.fileName <;> simp_all
  have f2 : envL.path.isEmpty = false := by cases h : envL.path <;> simp_all
  have f3 : envL.fileName.isEmpty = false := by cases h : envL.fileName <;> simp_all
  refine ⟨?_, ?_, ?_⟩
  · unfold customContent
    simp [c1, e2, e3]
  · unfold rules
    simp [l1, f2, f3]
  · unfold news
    simp [l1, f2, f3]

/-- C22, at a miss whose insert is rejected and at one whose insert is
accepted. -/
theorem cached_resource_miss_witness :
    customContent
      { cached := none, path := "custom/x".toList, fileName := "content.html".toList,
        loaded := "hello".toList, cacheAccepts := false } = "hello".toList ∧
    rules
      { cached := none, path := "x".toList, fileName := "rules.txt".toList,
        loaded := ["one".toList, "two".toList], cacheAccepts := true } =
      ["one".toList, "two".toList] :=
  ⟨(cached_resource_miss
      { cached := none, path := "custom/x".toList, fileName := "content.html".toList,
        loaded := "hello".toList, cacheAccepts := true }
      { cached := none, path := "x".toList, fileName := "rules.txt".toList,
        loaded := ["one".toList, "two".toList], cacheAccepts := false } false
      ⟨rfl, by decide, by decide⟩ ⟨rfl, by decide, by decide⟩).1,
    (cached_resource_miss
      { cached := none, path := "custom/x".toList, fileName := "content.html".toList,
        loaded := "hello".toList, cacheAccepts := true }
      { cached := none, path := "x".toList, fileName := "rules.txt".toList,
        loaded := ["one".toList, "two".toList], cacheAccepts := false } true
      ⟨rfl, by decide, by decide⟩ ⟨rfl, by decide, by decide⟩).2.1⟩

/-! ## Claim on the admission of `render` -/

/-- One atomic step keeps the counter equal to the number of admitted callers
and at most the maximum. -/
theorem renderStep_invariant (max : Nat) (hmax : max < 2 ^ 32) (s s' : RenderState)
    (e : RenderEvent) (h : renderStep max s e = some s')
    (hinv : s.renderThreads = s.rendering ∧ s.renderThreads ≤ max) :
    s'.renderThreads = s'.rendering ∧ s'.renderThreads ≤ max := by
  obtain ⟨h1, h2⟩ := hinv
  cases e with
  | enter =>
    unfold renderStep renderEnter at h
    by_cases hlt : s.renderThreads < max
    · simp only [hlt, decide_True, if_true, Option.some.injEq] at h
      rw [← h]
      have : uadd s.renderThreads 1 = s.renderThreads + 1 := by
        unfold uadd
        exact Nat.mod_eq_of_lt (by omega)
      simp only [this]
      omega
    · simp only [hlt, decide_False, Bool.false_eq_true, if_false, Option.some.injEq] at h
      rw [← h]
      exact ⟨h1, h2⟩
  | leave =>
    unfold renderStep renderLeave at h
    by_cases hz : s.rendering = 0
    · simp [hz] at h
    · simp only [hz, if_false, Option.some.injEq] at h
      rw [← h]
      have hpos : 0 < s.renderThreads := by omega
      have : (s.renderThreads + 2 ^ 32 - 1) % 2 ^ 32 = s.renderThreads - 1 := by
        have e : s.renderThreads + 2 ^ 32 - 1 = (s.renderThreads - 1) + 2 ^ 32 := by omega
        rw [e, Nat.add_mod_right]
        exact Nat.mod_eq_of_lt (by omega)
      simp only [this]
      omega

/-- C23: with a fixed maximum, every state reached from `renderThreads = 0` by
atomic steps has `renderThreads ≤ max`, and the counter equals the number of
calls of `render` that were admitted and have not yet left. -/
theorem renderRun_invariant (max : Nat) (hmax : max < 2 ^ 32) (events : List RenderEvent)
    (s : RenderState)
    (h : renderRun max { renderThreads := 0, rendering := 0 } events = some s) :
    s.renderThreads = s.rendering ∧ s.renderThreads ≤ max := by
  have key : ∀ (es : List RenderEvent) (s0 s1 : RenderState),
      renderRun max s0 es = some s1 →
      (s0.renderThreads = s0.rendering ∧ s0.renderThreads ≤ max) →
      (s1.renderThreads = s1.rendering ∧ s1.renderThreads ≤ max) := by
    intro es
    induction es with
    | nil =>
      intro s0 s1 hr hinv
      simp only [renderRun, Option.some.injEq] at hr
      rw [← hr]
      exact hinv
    | cons e es ih =>
      intro s0 s1 hr hinv
      unfold renderRun at hr
      cases hs : renderStep max s0 e with
      | none => rw [hs] at hr; simp at hr
      | some s' =>
        rw [hs] at hr
        exact ih s' s1 hr (renderStep_invariant max hmax s0 s' e hs hinv)
  exact key events _ s h ⟨rfl, Nat.zero_le _⟩

/-- C23, at the maximum 2 and the steps enter, enter, enter, leave: the third
caller is not admitted, and one caller is left. -/
theorem renderRun_invariant_witness :
    renderRun 2 { renderThreads := 0, rendering := 0 }
      [RenderEvent.enter, RenderEvent.enter, RenderEvent.enter, RenderEvent.leave] =
      some { renderThreads := 1, rendering := 1 } ∧
    (1 : Nat) = 1 ∧ (1 : Nat) ≤ 2 :=
  ⟨by decide,
    renderRun_invariant 2 (by decide)
      [RenderEvent.enter, RenderEvent.enter, RenderEvent.enter, RenderEvent.leave]
      { renderThreads := 1, rendering := 1 } (by decide)⟩

/-! ## Claim on the post numbers -/

theorem QMap.value_insert_self {α : Type} (m : QMap α) (k : QString) (v d : α) :
    QMap.value (QMap.insert m k v) k d = v := by
  unfold QMap.value
  rw [QMap.find_insert_self]
  rfl

theorem QMap.value_insert_ne {α : Type} (m : QMap α) (k k' : QString) (v d : α)
    (hne : k ≠ k') : QMap.value (QMap.insert m k v) k' d = QMap.value m k' d := by
  unfold QMap.value
  rw [QMap.find_insert_ne _ _ _ _ hne]

/-- The number of creations on a board in a sequence. -/
theorem numbersOn_eq (board : QString) (cs : List Creation) :
    ∀ counters : QMap Nat,
      QMap.value counters board 0 + (cs.filter (fun c => decide (c.board = board))).length
        < 2 ^ 64 →
      numbersOn board counters cs =
        (List.range (cs.filter (fun c => decide (c.board = board))).length).map
          (fun i => QMap.value counters board 0 + 1 + i) := by
  induction cs with
  | nil => intro _ _; rfl
  | cons c cs ih =>
    intro counters hb
    unfold numbersOn
    by_cases hc : c.board = board
    · simp only [List.filter_cons, hc, decide_True, if_true, List.length_cons] at hb ⊢
      have hmod : (QMap.value counters board 0 + 1) % 2 ^ 64 =
          QMap.value counters board 0 + 1 := Nat.mod_eq_of_lt (by omega)
      have hval : QMap.value (createNumber counters c).2 board 0 =
          QMap.value counters board 0 + 1 := by
        simp only [createNumber, nextPostNumber, hc]
        rw [QMap.value_insert_self, hmod]
      have hfst : (createNumber counters c).1 = QMap.value counters board 0 + 1 := by
        simp only [createNumber, nextPostNumber, hc]
        exact hmod
      rw [ih (createNumber counters c).2 (by rw [hval]; omega), hval, hfst,
        List.range_succ_eq_map, List.map_cons, List.map_map]
      congr 1
      apply List.map_congr_left
      intro i _
      simp only [Function.comp, Nat.succ_eq_add_one]
      omega
    · simp only [List.filter_cons, hc, decide_False, Bool.false_eq_true, if_false] at hb ⊢
      have hval : QMap.value (createNumber counters c).2 board 0 =
          QMap.value counters board 0 := by
        simp only [createNumber, nextPostNumber]
        rw [QMap.value_insert_ne _ _ _ _ _ hc]
      rw [ih (createNumber counters c).2 (by rw [hval]; exact hb), hval]

/-- C24, on the operation modelled from the spec: the post numbers handed out
on a board by any sequence of `createPost` and `createThread`, on this and on
other boards and in whatever order they reach the serialization point, are
`c + 1, ..., c + N` in this order, where `c` is the counter of the board
before and `N` the number of creations on the board: they are strictly
increasing, never repeat, and fill exactly the range `max - N + 1 .. max`
with `max = c + N`. -/
theorem post_numbers_consecutive (board : QString) (counters : QMap Nat)
    (cs : List Creation)
    (hbound : QMap.value counters board 0 +
      (cs.filter (fun c => decide (c.board = board))).length < 2 ^ 64) :
    numbersOn board counters cs =
      (List.range (cs.filter (fun c => decide (c.board = board))).length).map
        (fun i => QMap.value counters board 0 + 1 + i) ∧
    (numbersOn board counters cs).Pairwise (fun a b => a < b) ∧
    (numbersOn board counters cs).Nodup ∧
    (numbersOn board counters cs).length =
      (cs.filter (fun c => decide (c.board = board))).length ∧
    ∀ n, n ∈ numbersOn board counters cs ↔
      (QMap.value counters board 0 +
          (cs.filter (fun c => decide (c.board = board))).length) -
          (cs.filter (fun c => decide (c.board = board))).length + 1 ≤ n ∧
        n ≤ QMap.value counters board 0 +
          (cs.filter (fun c => decide (c.board = board))).length := by
  have e := numbersOn_eq board cs counters hbound
  have hp : (numbersOn board counters cs).Pairwise (fun a b => a < b) := by
    rw [e, List.pairwise_map]
    exact (List.pairwise_lt_range _).imp (fun h => by omega)
  refine ⟨e, hp, ?_, ?_, ?_⟩
  · exact hp.imp (fun h => Nat.ne_of_lt h)
  · rw [e, List.length_map, List.length_range]
  · intro n
    rw [e, List.mem_map]
    constructor
    · rintro ⟨i, hi, rfl⟩
      rw [List.mem_range] at hi
      omega
    · rintro ⟨h1, h2⟩
      refine ⟨n - (QMap.value counters board 0 + 1), ?_, ?_⟩
      · rw [List.mem_range]
        omega
      · omega

/-- C24, at three creations on the board `b` and one on the board `vg`,
starting from the counter 41 of `b`: the numbers on `b` are 42, 43, 44. -/
theorem post_numbers_consecutive_witness :
    numbersOn "b".toList [("b".toList, 41)]
      [Creation.post "b".toList, Creation.thread "vg".toList, Creation.thread "b".toList,
        Creation.post "b".toList] = [42, 43, 44] :=
  (post_numbers_consecutive "b".toList [("b".toList, 41)]
    [Creation.post "b".toList, Creation.thread "vg".toList, Creation.thread "b".toList,
      Creation.post "b".toList] (by decide)).1

/-! ## Claim on the two paths of `ipBanLevel` -/

/-- C25: with the two lines `10.0.0.1-10.0.0.255 1` and
`10.0.0.1-10.0.0.255 10` in the IP-ban file, `ipBanLevel("10.0.0.7")` answers
10 from the freshly parsed list, where the last matching line wins, and 1
from the cached copy of that list, where the first matching entry wins. -/
theorem ipBanLevel_fresh_differs_from_cached :
    ipBanLevel none (some overlappingBanLines) "10.0.0.7".toList = 10 ∧
    ipBanLevel (some (ipBanInfoListOf overlappingBanLines)) (some overlappingBanLines)
      "10.0.0.7".toList = 1 := by
  decide

/-! ## Claim on the request test -/

/-- C26: `testRequestAjax` and `testRequestNonAjax` accept a `PUT` request
for every positive mask of accepted types, such as 1, whatever the values of
the flags `GetRequest` and `PostRequest`: a method other than `GET` and
`POST` is tested against nothing. -/
theorem testRequest_accepts_other_method (GetRequest PostRequest : Int) :
    testRequestAjax GetRequest PostRequest "PUT".toList 1 = (true, Rendered.nothing) ∧
    testRequestNonAjax GetRequest PostRequest "PUT".toList 1 = (true, Rendered.nothing) := by
  have h1 : ¬ ("PUT".toList = "GET".toList) := by decide
  have h2 : ¬ ("PUT".toList = "POST".toList) := by decide
  constructor
  · unfold testRequestAjax
    simp only [h1, h2, if_false]
    rfl
  · unfold testRequestNonAjax
    simp only [h1, h2, if_false]
    rfl

/-! ## Facts about dates and times -/

theorem Hour_eq : Hour = 3600000 := by decide

theorem Minute_eq : Minute = 60000 := by decide

theorem Second_eq : Second = 1000 := by decide

theorem MaxMsecs_eq : MaxMsecs = 86400000 := by decide

/-- The milliseconds of the `QTime` built from a number of milliseconds. -/
theorem msecs_fromMSecs (m : Int) :
    (QTime.fromMSecsSinceStartOfDay m).msecsSinceStartOfDay = m := by
  simp only [QTime.fromMSecsSinceStartOfDay, QTime.msecsSinceStartOfDay, Hour_eq, Minute_eq,
    Second_eq]
  omega

/-- A date-time in UTC denotes the same instant. -/
theorem instant_toUTC (dt : QDateTime) : dt.toUTC.instant = dt.instant := by
  simp only [QDateTime.toUTC, QDateTime.instant, msecs_fromMSecs, Hour_eq, Minute_eq]
  omega

/-- The time of a date-time in UTC is a time of the day. -/
theorem toUTC_time_range (dt : QDateTime) :
    0 ≤ dt.toUTC.time.msecsSinceStartOfDay ∧ dt.toUTC.time.msecsSinceStartOfDay < 86400000 := by
  simp only [QDateTime.toUTC, msecs_fromMSecs, Hour_eq]
  omega

/-- The static `time` on a number of milliseconds within a day. -/
theorem time_of_range (m : Int) (h0 : 0 ≤ m) (h1 : m < 86400000) :
    (time m).msecsSinceStartOfDay = m ∧ (time m).isValid = true ∧ (time m).msec = m % 1000 := by
  have e1 : Int.tdiv m 3600000 = m / 3600000 := Int.tdiv_eq_ediv h0 (by decide)
  have e2 : Int.tmod m 3600000 = m % 3600000 := Int.tmod_eq_emod h0 (by decide)
  have n2 : 0 ≤ m % 3600000 := by omega
  have e3 : Int.tdiv (m % 3600000) 60000 = m % 3600000 / 60000 :=
    Int.tdiv_eq_ediv n2 (by decide)
  have e4 : Int.tmod (m % 3600000) 60000 = m % 3600000 % 60000 :=
    Int.tmod_eq_emod n2 (by decide)
  have n4 : 0 ≤ m % 3600000 % 60000 := by omega
  have e5 : Int.tdiv (m % 3600000 % 60000) 1000 = m % 3600000 % 60000 / 1000 :=
    Int.tdiv_eq_ediv n4 (by decide)
  have e6 : Int.tmod (m % 3600000 % 60000) 1000 = m % 3600000 % 60000 % 1000 :=
    Int.tmod_eq_emod n4 (by decide)
  simp only [time, QTime.msecsSinceStartOfDay, QTime.isValid, Hour_eq, Minute_eq, Second_eq,
    e1, e2, e3, e4, e5, e6]
  refine ⟨by omega, ?_, by omega⟩
  simp only [Bool.and_eq_true, decide_eq_true_eq]
  omega

/-! ## Claim on the date-time of a thread -/

/-- C27: `Thread::setDateTime` stores the date-time as it is, so that for
12:00 at three hours east of UTC the getter, which reads the stored date and
time as UTC, answers an instant three hours later; the constructor of
`Thread` and `Post::setDateTime` convert with `toUTC` and keep the instant of
every date-time. -/
theorem Thread_setDateTime_shifts_instant :
    (sampleThread.setDateTime noonPlusThree).dateTime.instant =
      noonPlusThree.instant + 3 * Hour ∧
    (∀ (board : QString) (number : Nat) (dt : QDateTime),
      (Thread.create board number dt).dateTime.instant = dt.instant) ∧
    (∀ (p : Post) (dt : QDateTime), (p.setDateTime dt).dateTime.instant = dt.instant) := by
  refine ⟨by decide, ?_, ?_⟩
  · intro board number dt
    exact instant_toUTC dt
  · intro p dt
    exact instant_toUTC dt

/-! ## Facts about two states that differ in the entries of one address -/

theorem sameExcept_refl (skip : QString) (s : DdosState) : sameExcept skip s s :=
  ⟨rfl, rfl, rfl, rfl, fun _ _ => ⟨rfl, rfl⟩⟩

theorem sameExcept_trans (skip : QString) (s1 s2 s3 : DdosState)
    (h12 : sameExcept skip s1 s2) (h23 : sameExcept skip s2 s3) : sameExcept skip s1 s3 := by
  obtain ⟨a1, a2, a3, a4, a5⟩ := h12
  obtain ⟨b1, b2, b3, b4, b5⟩ := h23
  exact ⟨a1.trans b1, a2.trans b2, a3.trans b3, a4.trans b4,
    fun k hk => ⟨(a5 k hk).1.trans (b5 k hk).1, (a5 k hk).2.trans (b5 k hk).2⟩⟩

/-- The entry of a key after the removal of a key. -/
theorem QMap.find_remove {α : Type} (m : QMap α) (k k' : QString) :
    QMap.find (QMap.remove m k) k' = if k = k' then none else QMap.find m k' := by
  by_cases h : k = k'
  · subst h
    simp [QMap.find_remove_self]
  · simp [h, QMap.find_remove_ne m k k' h]

/-- The entry of a key after an insert. -/
theorem QMap.find_insert {α : Type} (m : QMap α) (k k' : QString) (v : α) :
    QMap.find (QMap.insert m k v) k' = if k = k' then some v else QMap.find m k' := by
  by_cases h : k = k'
  · subst h
    simp [QMap.find_insert_self]
  · simp [h, QMap.find_insert_ne m k k' v h]

/-- The wait step of a call from another address acts alike on two states
that agree outside `skip`. -/
theorem ddosWaitStep_congr (skip : QString) (s1 s2 : DdosState) (now : Int) (ip : QString)
    (h : sameExcept skip s1 s2) (hip : ip ≠ skip) :
    (ddosWaitStep s1 now ip).1 = (ddosWaitStep s2 now ip).1 ∧
    sameExcept skip (ddosWaitStep s1 now ip).2 (ddosWaitStep s2 now ip).2 := by
  obtain ⟨a1, a2, a3, a4, a5⟩ := h
  have hfind := (a5 ip hip).2
  by_cases hsw : sweepDue s1 now
  · have hsw2 : sweepDue s2 now := by
      unfold sweepDue at hsw ⊢
      rw [← a3, ← a4]
      exact hsw
    rw [ddosWaitStep_sweep s1 now ip hsw, ddosWaitStep_sweep s2 now ip hsw2]
    exact ⟨rfl, a1, a2, rfl, a4, fun k hk => ⟨(a5 k hk).1, rfl⟩⟩
  · have hsw2 : ¬ sweepDue s2 now := by
      unfold sweepDue at hsw ⊢
      rw [← a3, ← a4]
      exact hsw
    rw [ddosWaitStep_no_sweep s1 now ip hsw, ddosWaitStep_no_sweep s2 now ip hsw2, ← hfind]
    cases hf : QMap.find s1.ddosWait ip with
    | none =>
      refine ⟨rfl, ?_⟩
      exact ⟨a1, a2, by simp only [a3, a4], rfl, fun k hk => a5 k hk⟩
    | some t =>
      by_cases hb : now - t ≥ DdosBanPeriod
      · simp only [hb, if_true]
        refine ⟨trivial, ?_⟩
        refine ⟨a1, a2, by simp only [a3, a4], rfl, fun k hk => ⟨(a5 k hk).1, ?_⟩⟩
        simp only
        rw [QMap.find_remove, QMap.find_remove, (a5 k hk).2]
      · simp only [hb, if_false]
        refine ⟨trivial, ?_⟩
        exact ⟨a1, a2, by simp only [a3, a4], rfl, fun k hk => a5 k hk⟩

/-- The window step of a call from another address acts alike on two states
that agree outside `skip`. -/
theorem ddosWindowStep_congr (skip : QString) (s1 s2 : DdosState) (now : Int) (ip : QString)
    (weight previousWeight : ℚ) (h : sameExcept skip s1 s2) (hip : ip ≠ skip) :
    (ddosWindowStep s1 now ip weight previousWeight).1 =
      (ddosWindowStep s2 now ip weight previousWeight).1 ∧
    sameExcept skip (ddosWindowStep s1 now ip weight previousWeight).2
      (ddosWindowStep s2 now ip weight previousWeight).2 := by
  obtain ⟨d1, t1, b1, w1, wt1, wb1⟩ := s1
  obtain ⟨d2, t2, b2, w2, wt2, wb2⟩ := s2
  obtain ⟨a1, a2, a3, a4, a5⟩ := h
  simp only at a1 a2 a3 a4 a5
  subst a1 a2 a3 a4
  have hv : QMap.value d1 ip (0 : ℚ) = QMap.value d2 ip 0 := by
    unfold QMap.value
    rw [(a5 ip hip).1]
  have hp := DdosPeriod_pos
  unfold ddosWindowStep sameExcept
  cases b1
  · simp only [Bool.not_false, if_true, sub_self, ge_iff_le, not_le.mpr hp, if_false, hv,
      true_and]
    intro k hk
    rw [QMap.find_insert, QMap.find_insert, (a5 k hk).1]
    exact ⟨rfl, (a5 k hk).2⟩
  · by_cases hr : DdosPeriod ≤ now - t1
    · simp only [Bool.not_true, Bool.false_eq_true, if_false, ge_iff_le, hr, if_true, true_and]
      intro k hk
      exact (a5 k hk).2
    · simp only [Bool.not_true, Bool.false_eq_true, if_false, ge_iff_le, hr, hv, true_and]
      intro k hk
      rw [QMap.find_insert, QMap.find_insert, (a5 k hk).1]
      exact ⟨rfl, (a5 k hk).2⟩

/-- A call with a non-positive weight or an empty address returns true and
leaves the state as it is. -/
theorem ddosTest_skipped (st : DdosState) (now : Int) (app : Application)
    (weight previousWeight : ℚ) (h : ¬ (0 < weight ∧ (userIp app).1 ≠ [])) :
    ddosTest st now app weight previousWeight = (true, st) := by
  unfold ddosTest
  by_cases hw : weight ≤ 0
  · simp [hw]
  · have he : (userIp app).1 = [] := by
      by_contra hne
      exact h ⟨not_le.mp hw, hne⟩
    simp [hw, he]

/-- A call from another address returns the same flag in two states that
agree outside `skip`, and the states after it agree outside `skip`. -/
theorem ddosTest_congr (skip : QString) (s1 s2 : DdosState) (now : Int) (app : Application)
    (weight previousWeight : ℚ) (h : sameExcept skip s1 s2) (hip : (userIp app).1 ≠ skip) :
    (ddosTest s1 now app weight previousWeight).1 =
      (ddosTest s2 now app weight previousWeight).1 ∧
    sameExcept skip (ddosTest s1 now app weight previousWeight).2
      (ddosTest s2 now app weight previousWeight).2 := by
  by_cases hc : 0 < weight ∧ (userIp app).1 ≠ []
  · obtain ⟨hw, he⟩ := hc
    rw [ddosTest_steps s1 now app weight previousWeight hw he,
      ddosTest_steps s2 now app weight previousWeight hw he]
    obtain ⟨f1, g1⟩ := ddosWaitStep_congr skip s1 s2 now (userIp app).1 h hip
    obtain ⟨f2, g2⟩ := ddosWindowStep_congr skip _ _ now (userIp app).1 weight previousWeight
      g1 hip
    generalize ddosWindowStep (ddosWaitStep s1 now (userIp app).1).2 now (userIp app).1
      weight previousWeight = r1 at f2 g2 ⊢
    generalize ddosWindowStep (ddosWaitStep s2 now (userIp app).1).2 now (userIp app).1
      weight previousWeight = r2 at f2 g2 ⊢
    generalize (ddosWaitStep s1 now (userIp app).1).1 = b1 at f1 ⊢
    generalize (ddosWaitStep s2 now (userIp app).1).1 = b2 at f1 ⊢
    subst f1
    rw [← f2]
    refine ⟨rfl, ?_⟩
    obtain ⟨a1, a2, a3, a4, a5⟩ := g2
    by_cases hb : (!b1 && decide (r1.1 ≥ DdosLimit)) = true
    · simp only [hb, if_true]
      refine ⟨a1, a2, a3, a4, fun k hk => ⟨(a5 k hk).1, ?_⟩⟩
      simp only
      rw [QMap.find_insert, QMap.find_insert, (a5 k hk).2]
    · simp only [hb, if_false]
      exact ⟨a1, a2, a3, a4, a5⟩
  · rw [ddosTest_skipped s1 now app weight previousWeight hc,
      ddosTest_skipped s2 now app weight previousWeight hc]
    exact ⟨rfl, h⟩

/-- The window step of a started window timer when no reset is due keeps the
timer and the weights of the other addresses. -/
theorem ddosWindowStep_no_reset_frame (st : DdosState) (now : Int) (ip : QString)
    (weight previousWeight : ℚ) (hs : st.ddosTimerStarted = true)
    (h : ¬ windowResetDue st now) :
    (ddosWindowStep st now ip weight previousWeight).2.ddosTimer = st.ddosTimer ∧
    (ddosWindowStep st now ip weight previousWeight).2.ddosTimerStarted = true ∧
    ∀ k, k ≠ ip →
      QMap.find (ddosWindowStep st now ip weight previousWeight).2.ddos k =
        QMap.find st.ddos k := by
  have h2 : ¬ (DdosPeriod ≤ now - st.ddosTimer) := fun e => h ⟨hs, e⟩
  unfold ddosWindowStep
  simp only [hs, Bool.not_true, Bool.false_eq_true, if_false, ge_iff_le, h2, true_and]
  intro k hk
  rw [QMap.find_insert_ne _ _ _ _ (Ne.symm hk)]

/-- A quiet call of `skip` changes nothing but the entries of `skip`. -/
theorem ddosTest_quiet (skip : QString) (st : DdosState) (now : Int) (app : Application)
    (weight previousWeight : ℚ) (hip : (userIp app).1 = skip)
    (hq : 0 < weight → (userIp app).1 ≠ [] →
      st.ddosTimerStarted = true ∧ st.ddosWaitTimerStarted = true ∧
      ¬ windowResetDue st now ∧ ¬ sweepDue st now) :
    sameExcept skip (ddosTest st now app weight previousWeight).2 st := by
  by_cases hc : 0 < weight ∧ (userIp app).1 ≠ []
  · obtain ⟨hw, he⟩ := hc
    obtain ⟨q1, q2, q3, q4⟩ := hq hw he
    rw [ddosTest_steps st now app weight previousWeight hw he, hip]
    obtain ⟨w1, w2, w3⟩ := ddosWaitStep_window_frame st now skip
    obtain ⟨v1, v2, v3⟩ := ddosWaitStep_no_sweep_frame st now skip q4 q2
    have hr : ¬ windowResetDue (ddosWaitStep st now skip).2 now :=
      fun e => q3 ((windowResetDue_waitStep st now skip).mp e)
    obtain ⟨x1, x2, x3⟩ := ddosWindowStep_no_reset_frame (ddosWaitStep st now skip).2 now skip
      weight previousWeight (w3.trans q1) hr
    obtain ⟨y1, y2, y3, _⟩ := ddosWindowStep_frame (ddosWaitStep st now skip).2 now skip
      weight previousWeight
    have hwait : ∀ k, k ≠ skip →
        QMap.find (ddosWaitStep st now skip).2.ddosWait k = QMap.find st.ddosWait k := by
      intro k hk
      rcases v3 with e | e
      · rw [e]
      · rw [e, QMap.find_remove_ne _ _ _ (Ne.symm hk)]
    generalize ddosWindowStep (ddosWaitStep st now skip).2 now skip weight previousWeight = r
      at x1 x2 x3 y1 y2 y3 ⊢
    generalize ddosWaitStep st now skip = w at w1 w2 w3 v1 v2 v3 hr x1 x2 x3 y1 y2 y3 hwait ⊢
    split_ifs
    · refine ⟨x1.trans w2, x2.trans q1.symm, y2.trans v1, y3.trans (v2.trans q2.symm),
        fun k hk => ⟨(x3 k hk).trans (by rw [w1]), ?_⟩⟩
      simp only
      rw [QMap.find_insert_ne _ _ _ _ (Ne.symm hk), y1]
      exact hwait k hk
    · refine ⟨x1.trans w2, x2.trans q1.symm, y2.trans v1, y3.trans (v2.trans q2.symm),
        fun k hk => ⟨(x3 k hk).trans (by rw [w1]), ?_⟩⟩
      rw [y1]
      exact hwait k hk
  · rw [ddosTest_skipped st now app weight previousWeight hc]
    exact sameExcept_refl skip st

/-- The flags of the other addresses are the same from two states that agree
outside `skip`, whether the quiet calls of `skip` are made or not. -/
theorem flagsExcept_withoutIp (skip : QString) (calls : List Call) :
    ∀ s1 s2 : DdosState, sameExcept skip s1 s2 → quietCalls skip s1 calls →
      flagsExcept skip s1 calls = flagsExcept skip s2 (withoutIp skip calls) := by
  induction calls with
  | nil =>
    intro s1 s2 _ _
    rfl
  | cons c cs ih =>
    intro s1 s2 h hq
    obtain ⟨hq1, hq2⟩ := hq
    by_cases hc : c.ip = skip
    · have e : withoutIp skip (c :: cs) = withoutIp skip cs := by
        simp [withoutIp, hc]
      rw [e]
      have hs := ddosTest_quiet skip s1 c.now c.app c.weight c.previousWeight hc
        (fun hw he => hq1 hc hw he)
      simp only [flagsExcept, hc, if_true]
      exact ih _ s2 (sameExcept_trans skip _ _ _ hs h) hq2
    · have e : withoutIp skip (c :: cs) = c :: withoutIp skip cs := by
        simp [withoutIp, hc]
      rw [e]
      obtain ⟨f, g⟩ := ddosTest_congr skip s1 s2 c.now c.app c.weight c.previousWeight h hc
      simp only [flagsExcept, hc, if_false]
      rw [f, ih _ _ g hq2]

theorem userIp_clientB : (userIp clientB).1 = "10.0.1.7".toList := by decide

theorem isoRun1_step :
    ddosTest DdosState.init 0 clientA 6000 0 = (true, isoRun1) := by
  norm_num [ddosTest, ddosWaitStep, ddosWindowStep, userIp, directRequest, clientA,
    DdosState.init, isoRun1, QMap.find, QMap.value, QMap.insert, QMap.remove, DdosLimit,
    DdosClearPeriod, DdosBanPeriod, DdosPeriod, Hour, Minute, Second]

theorem isoRun2_step :
    ddosTest isoRun1 10000 clientB 1 0 = (true, isoRun2) := by
  norm_num [ddosTest, ddosWaitStep, ddosWindowStep, userIp, directRequest, clientB,
    isoRun1, isoRun2, QMap.find, QMap.value, QMap.insert, QMap.remove, DdosLimit,
    DdosClearPeriod, DdosBanPeriod, DdosPeriod, Hour, Minute, Second]

theorem isoRun3_step :
    ddosTest isoRun2 12000 clientA 6000 0 = (true, isoRun3) := by
  have c1 : ¬ ('1' = '0') := by decide
  have c2 : ¬ ('0' = '1') := by decide
  norm_num [c1, c2, ddosTest, ddosWaitStep, ddosWindowStep, userIp, directRequest, clientA,
    isoRun2, isoRun3, QMap.find, QMap.value, QMap.insert, QMap.remove, DdosLimit,
    DdosClearPeriod, DdosBanPeriod, DdosPeriod, Hour, Minute, Second]

theorem isoRun3_last :
    (ddosTest isoRun3 21000 clientA 6000 0).1 = true := by
  have c1 : ¬ ('1' = '0') := by decide
  have c2 : ¬ ('0' = '1') := by decide
  norm_num [c1, c2, ddosTest, ddosWaitStep, ddosWindowStep, userIp, directRequest, clientA,
    isoRun3, QMap.find, QMap.value, QMap.insert, QMap.remove, DdosLimit,
    DdosClearPeriod, DdosBanPeriod, DdosPeriod, Hour, Minute, Second]

theorem isoRun4_step :
    ddosTest isoRun1 12000 clientA 6000 0 = (true, isoRun4) := by
  norm_num [ddosTest, ddosWaitStep, ddosWindowStep, userIp, directRequest, clientA,
    isoRun1, isoRun4, QMap.find, QMap.value, QMap.insert, QMap.remove, DdosLimit,
    DdosClearPeriod, DdosBanPeriod, DdosPeriod, Hour, Minute, Second]

theorem isoRun4_last :
    (ddosTest isoRun4 21000 clientA 6000 0).1 = false := by
  norm_num [ddosTest, ddosWaitStep, ddosWindowStep, userIp, directRequest, clientA,
    isoRun4, QMap.find, QMap.value, QMap.insert, QMap.remove, DdosLimit,
    DdosClearPeriod, DdosBanPeriod, DdosPeriod, Hour, Minute, Second]

theorem isoRun5_step :
    ddosTest isoRun1 1000 clientB 1 0 = (true, isoRun5) := by
  have c1 : ¬ ('1' = '0') := by decide
  have c2 : ¬ ('0' = '1') := by decide
  norm_num [c1, c2, ddosTest, ddosWaitStep, ddosWindowStep, userIp, directRequest, clientB,
    isoRun1, isoRun5, QMap.find, QMap.value, QMap.insert, QMap.remove, DdosLimit,
    DdosClearPeriod, DdosBanPeriod, DdosPeriod, Hour, Minute, Second]

theorem ip_of_clientA (now : Int) (w p : ℚ) :
    Call.ip ⟨now, clientA, w, p⟩ = "10.0.0.7".toList := userIp_clientA

theorem ip_of_clientB (now : Int) (w p : ℚ) :
    Call.ip ⟨now, clientB, w, p⟩ = "10.0.1.7".toList := userIp_clientB

theorem quietIsoCalls_quiet : quietCalls "10.0.1.7".toList DdosState.init quietIsoCalls := by
  unfold quietIsoCalls
  simp only [quietCalls, isoRun1_step, isoRun5_step, ip_of_clientA, ip_of_clientB]
  refine ⟨fun h => absurd h (by decide), ⟨fun _ _ _ => ⟨rfl, rfl, ?_, ?_⟩, ?_, trivial⟩⟩
  · exact fun e => absurd e.2 (by decide)
  · exact fun e => absurd e.2 (by decide)
  · exact fun h => absurd h (by decide)

/-! ## Claim on the isolation of addresses in the DDoS guard -/

/-- C28, on the calls of `clientA` at 0, 12000 and 21000 with weight 6000
each: with a call of `clientB` at 10000 between them all three return true,
without it the third returns false; the call of `clientB` resets the shared
window at 10000 instead of 12000. -/
theorem ddosTest_not_isolated :
    (userIp clientA).1 ≠ (userIp clientB).1 ∧
    withoutIp (userIp clientB).1 isoCalls =
      [⟨0, clientA, 6000, 0⟩, ⟨12000, clientA, 6000, 0⟩, ⟨21000, clientA, 6000, 0⟩] ∧
    flagsExcept (userIp clientB).1 DdosState.init isoCalls = [true, true, true] ∧
    flagsExcept (userIp clientB).1 DdosState.init (withoutIp (userIp clientB).1 isoCalls) =
      [true, true, false] := by
  have hne : ¬ ("10.0.0.7".toList = "10.0.1.7".toList) := by decide
  have e : withoutIp (userIp clientB).1 isoCalls =
      [⟨0, clientA, 6000, 0⟩, ⟨12000, clientA, 6000, 0⟩, ⟨21000, clientA, 6000, 0⟩] := by
    rw [userIp_clientB]
    simp only [withoutIp, isoCalls, List.filter, ip_of_clientA, ip_of_clientB, ne_eq, hne,
      not_false_eq_true, decide_True, not_true_eq_false, decide_False]
  refine ⟨by decide, e, ?_, ?_⟩
  · rw [userIp_clientB]
    simp only [flagsExcept, isoCalls, ip_of_clientA, ip_of_clientB, hne, if_false, if_true,
      isoRun1_step, isoRun2_step, isoRun3_step, isoRun3_last]
  · rw [e, userIp_clientB]
    simp only [flagsExcept, ip_of_clientA, hne, if_false, isoRun1_step, isoRun4_step,
      isoRun4_last]

/-- C28, as the code has it: removing the calls of an address from a timed
sequence of calls does not change the results of the calls of the other
addresses, provided every removed call is quiet: it is a no-op, or it finds
both timers running with neither the window reset nor the clear sweep due.
The state is shared between the addresses only through the two timers. -/
theorem ddosTest_isolation_of_quiet (skip : QString) (st : DdosState) (calls : List Call)
    (h : quietCalls skip st calls) :
    flagsExcept skip st calls = flagsExcept skip st (withoutIp skip calls) :=
  flagsExcept_withoutIp skip calls st st (sameExcept_refl skip st) h

/-- C28, on a call of `clientB` at 1000 between calls of `clientA` at 0 and
2000, from the state at process start. -/
theorem ddosTest_isolation_of_quiet_witness :
    quietCalls "10.0.1.7".toList DdosState.init quietIsoCalls ∧
    flagsExcept "10.0.1.7".toList DdosState.init quietIsoCalls =
      flagsExcept "10.0.1.7".toList DdosState.init
        (withoutIp "10.0.1.7".toList quietIsoCalls) :=
  ⟨quietIsoCalls_quiet,
    ddosTest_isolation_of_quiet "10.0.1.7".toList DdosState.init quietIsoCalls
      quietIsoCalls_quiet⟩

/-! ## Claim on the order of the bounds of an `IpRange` -/

/-- C29, as the code has it: a valid range built from a text contains its own
start address exactly when `start ≤ end`; a text with a single address gives
`start = end`; a text whose first address is greater than its second gives a
range that is valid and contains no address. -/
theorem IpRange_fromText_order (text : QString) (separator : Char)
    (hv : (IpRange.fromText text separator).isValid = true) :
    ((split text separator).length ≠ 2 →
      (IpRange.fromText text separator).start = (IpRange.fromText text separator).end_) ∧
    ((IpRange.fromText text separator).inNum (IpRange.fromText text separator).start = true ↔
      (IpRange.fromText text separator).start ≤ (IpRange.fromText text separator).end_) ∧
    ((IpRange.fromText text separator).end_ < (IpRange.fromText text separator).start →
      ∀ n, (IpRange.fromText text separator).inNum n = false) := by
  have hpos := hv
  unfold IpRange.isValid at hpos
  simp only [ne_eq, Bool.and_eq_true, decide_eq_true_eq] at hpos
  refine ⟨?_, ?_, ?_⟩
  · intro h2
    unfold IpRange.fromText at hv ⊢
    simp only at hv ⊢
    by_cases hl : (split text separator).length > 2
    · rw [if_pos hl] at hv
      exact absurd hv (by decide)
    · rw [if_neg hl] at hv ⊢
      cases hok : (ipNum ((split text separator).headD [])).2
      · rw [hok] at hv
        simp only [Bool.not_false, if_true, IpRange.isValid, ne_eq, not_true_eq_false,
          decide_False, Bool.and_false, Bool.false_eq_true] at hv
      · simp only [Bool.not_true, Bool.false_eq_true, if_false, h2]
  · rw [inNum_eq_true_iff]
    constructor
    · intro h
      exact h.2.2
    · intro h
      exact ⟨⟨Nat.pos_of_ne_zero hpos.1, Nat.pos_of_ne_zero hpos.2⟩, le_refl _, h⟩
  · intro hlt n
    rw [Bool.eq_false_iff]
    intro hin
    have := (inNum_eq_true_iff _ _).mp hin
    omega

/-- C29, at the text `10.0.0.9` and at the text `10.0.0.1-10.0.0.9`. -/
theorem IpRange_fromText_order_witness :
    (IpRange.fromText "10.0.0.9".toList '-').start =
      (IpRange.fromText "10.0.0.9".toList '-').end_ ∧
    (IpRange.fromText "10.0.0.1-10.0.0.9".toList '-').inNum
      (IpRange.fromText "10.0.0.1-10.0.0.9".toList '-').start = true :=
  ⟨(IpRange_fromText_order "10.0.0.9".toList '-' (by decide)).1 (by decide),
    (IpRange_fromText_order "10.0.0.1-10.0.0.9".toList '-' (by decide)).2.1.mpr (by decide)⟩

/-- C29 fails as stated: the range of the text `10.0.0.9-10.0.0.1` is valid,
its start is greater than its end, and it does not contain its own start. -/
theorem IpRange_fromText_reversed :
    (IpRange.fromText "10.0.0.9-10.0.0.1".toList '-').isValid = true ∧
    (IpRange.fromText "10.0.0.9-10.0.0.1".toList '-').end_ <
      (IpRange.fromText "10.0.0.9-10.0.0.1".toList '-').start ∧
    (IpRange.fromText "10.0.0.9-10.0.0.1".toList '-').inNum
      (IpRange.fromText "10.0.0.9-10.0.0.1".toList '-').start = false := by
  decide

/-! ## Claim on the local date-time -/

/-- The milliseconds of a time of the day in UTC. -/
theorem toUTC_msec (dt : QDateTime) :
    dt.toUTC.time.msec = dt.toUTC.time.msecsSinceStartOfDay % 1000 := by
  simp only [QDateTime.toUTC, msecs_fromMSecs]
  simp only [QTime.fromMSecsSinceStartOfDay, Hour_eq, Second_eq]

/-- A shift by whole minutes, and by a day more or less, keeps the
milliseconds. -/
theorem shift_keeps_msec (t d : Int) :
    (t + 60000 * d + 86400000) % 1000 = t % 1000 ∧
    (t + 60000 * d - 86400000) % 1000 = t % 1000 ∧
    (t + 60000 * d) % 1000 = t % 1000 := by
  have e1 : t + 60000 * d + 86400000 = t + 1000 * (60 * d + 86400) := by ring
  have e2 : t + 60000 * d - 86400000 = t + 1000 * (60 * d - 86400) := by ring
  have e3 : t + 60000 * d = t + 1000 * (60 * d) := by ring
  refine ⟨?_, ?_, ?_⟩
  · rw [e1, Int.add_mul_emod_self_left]
  · rw [e2, Int.add_mul_emod_self_left]
  · rw [e3, Int.add_mul_emod_self_left]

/-- What `localDateTime` returns for an offset in its range, in terms of the
sum of the UTC time of day and the offset. -/
theorem localDateTime_cases (systemOffset : Int) (dt : QDateTime) (offsetMinutes : Int)
    (hlo : -720 ≤ offsetMinutes) (hhi : offsetMinutes ≤ 840) :
    localDateTime systemOffset dt offsetMinutes =
      if dt.toUTC.time.msecsSinceStartOfDay + 60000 * offsetMinutes < 0 then
        { dt.toUTC with
          date := dt.toUTC.date + -1,
          time := time (dt.toUTC.time.msecsSinceStartOfDay + 60000 * offsetMinutes + MaxMsecs) }
      else if dt.toUTC.time.msecsSinceStartOfDay + 60000 * offsetMinutes ≥ 86400000 then
        { dt.toUTC with
          date := dt.toUTC.date + 1,
          time := time (dt.toUTC.time.msecsSinceStartOfDay + 60000 * offsetMinutes - MaxMsecs) }
      else
        { dt.toUTC with
          time := time (dt.toUTC.time.msecsSinceStartOfDay + 60000 * offsetMinutes) } := by
  have hr : ¬ (offsetMinutes < -720 ∨ offsetMinutes > 840) := by omega
  have e : dt.toUTC.time.hour * Hour + dt.toUTC.time.minute * Minute +
      dt.toUTC.time.second * Second + dt.toUTC.time.msec + offsetMinutes * Minute =
      dt.toUTC.time.msecsSinceStartOfDay + 60000 * offsetMinutes := by
    simp only [QTime.msecsSinceStartOfDay, Minute_eq]
    omega
  unfold localDateTime
  simp only [hr, if_false, e, MaxMsecs_eq]

/-- C30: for an offset between -720 and 840 minutes, `localDateTime` has the
date and time of day of the UTC instant of `dt` shifted by the offset: with
`S` the UTC milliseconds of the day plus `60000 * offsetMinutes`, the time of
day is `S mod 86400000`, a valid time with the milliseconds of the UTC time,
the date moves by -1, 0 or +1 day as `S` is negative, within the day or at
least 86400000, date and time together lie `offsetMinutes` minutes after the
UTC date and time, and the value handed to the helper `time` is in
`[0, 86400000)` in each of the three branches. -/
theorem localDateTime_shift (systemOffset : Int) (dt : QDateTime) (offsetMinutes : Int)
    (hlo : -720 ≤ offsetMinutes) (hhi : offsetMinutes ≤ 840) :
    (localDateTime systemOffset dt offsetMinutes).time.msecsSinceStartOfDay =
      (dt.toUTC.time.msecsSinceStartOfDay + 60000 * offsetMinutes) % 86400000 ∧
    (localDateTime systemOffset dt offsetMinutes).time.isValid = true ∧
    (localDateTime systemOffset dt offsetMinutes).time.msec = dt.toUTC.time.msec ∧
    (localDateTime systemOffset dt offsetMinutes).date =
      dt.toUTC.date +
        (if dt.toUTC.time.msecsSinceStartOfDay + 60000 * offsetMinutes < 0 then -1
         else if dt.toUTC.time.msecsSinceStartOfDay + 60000 * offsetMinutes ≥ 86400000 then 1
         else 0) ∧
    (localDateTime systemOffset dt offsetMinutes).date * 86400000 +
        (localDateTime systemOffset dt offsetMinutes).time.msecsSinceStartOfDay =
      dt.toUTC.date * 86400000 + dt.toUTC.time.msecsSinceStartOfDay + 60000 * offsetMinutes ∧
    (dt.toUTC.time.msecsSinceStartOfDay + 60000 * offsetMinutes < 0 →
      0 ≤ dt.toUTC.time.msecsSinceStartOfDay + 60000 * offsetMinutes + MaxMsecs ∧
      dt.toUTC.time.msecsSinceStartOfDay + 60000 * offsetMinutes + MaxMsecs < 86400000) ∧
    (dt.toUTC.time.msecsSinceStartOfDay + 60000 * offsetMinutes ≥ 86400000 →
      0 ≤ dt.toUTC.time.msecsSinceStartOfDay + 60000 * offsetMinutes - MaxMsecs ∧
      dt.toUTC.time.msecsSinceStartOfDay + 60000 * offsetMinutes - MaxMsecs < 86400000) := by
  obtain ⟨t0, t1⟩ := toUTC_time_range dt
  have hms := toUTC_msec dt
  obtain ⟨k1, k2, k3⟩ := shift_keeps_msec dt.toUTC.time.msecsSinceStartOfDay offsetMinutes
  rw [localDateTime_cases systemOffset dt offsetMinutes hlo hhi]
  simp only [MaxMsecs_eq]
  by_cases h1 : dt.toUTC.time.msecsSinceStartOfDay + 60000 * offsetMinutes < 0
  · obtain ⟨a, b, c⟩ := time_of_range
      (dt.toUTC.time.msecsSinceStartOfDay + 60000 * offsetMinutes + 86400000)
      (by omega) (by omega)
    simp only [h1, if_true]
    refine ⟨?_, b, c.trans (k1.trans hms.symm), trivial, ?_, fun _ => ⟨by omega, by omega⟩,
      fun h => by omega⟩
    · rw [a]
      omega
    · rw [a]
      omega
  · by_cases h2 : dt.toUTC.time.msecsSinceStartOfDay + 60000 * offsetMinutes ≥ 86400000
    · obtain ⟨a, b, c⟩ := time_of_range
        (dt.toUTC.time.msecsSinceStartOfDay + 60000 * offsetMinutes - 86400000)
        (by omega) (by omega)
      simp only [h1, if_false, h2, if_true]
      refine ⟨?_, b, c.trans (k2.trans hms.symm), trivial, ?_, fun h => h.elim,
        fun _ => ⟨by omega, by omega⟩⟩
      · rw [a]
        omega
      · rw [a]
        omega
    · obtain ⟨a, b, c⟩ := time_of_range
        (dt.toUTC.time.msecsSinceStartOfDay + 60000 * offsetMinutes)
        (by omega) (by omega)
      simp only [h1, if_false, h2]
      refine ⟨?_, b, c.trans (k3.trans hms.symm), ?_, ?_, fun h => h.elim,
        fun h => h.elim⟩
      · rw [a]
        omega
      · omega
      · rw [a]
        ring

/-- C30, at 12:00 on day 100 three hours east of UTC, that is 09:00 UTC, and
the offset 840 minutes: the result is 23:00 on day 100; at the offset 900
minutes the helper would not be used. -/
theorem localDateTime_shift_witness :
    (localDateTime 0 noonPlusThree 840).time.msecsSinceStartOfDay = 23 * 3600000 ∧
    (localDateTime 0 noonPlusThree 840).date = 100 :=
  have h := localDateTime_shift 0 noonPlusThree 840 (by decide) (by decide)
  ⟨h.1.trans (by decide), h.2.2.2.1.trans (by decide)⟩

end Ololord
